import Mathlib

/-!
# StatsHouse: agent-side resolution router and aggregator-side key encoder

A shallow embedding of

* `internal/agent/agent_shard.go`   (`Shard.resolutionShardFromHashLocked`)
* `internal/aggregator/aggregator_insert.go` (`metricIndexCache`, `appendKeys`,
  `appendAggregates`, `appendValueStat`, `multiValueMarshal`, `appendBadge`, `appendMultiBadge`,
  `insertItem`)

Machine integers are `Nat` / `Int` with explicit reduction modulo `2^w` at every place where the
Go code converts or may wrap.  A Go run-time panic (index out of range, nil dereference, integer
division by zero) is the result `none`.  `float64` arithmetic is an interface whose operations are
left uninterpreted; packages that are not part of the sources at hand are parameters.
-/

namespace StatsHouse

/-! ## Machine integers -/

/-- Go conversion `uint32(x)` of a signed integer: reduction modulo `2^32`. -/
def u32 (x : Int) : Nat := (x % 2 ^ 32).toNat

/-- Go conversion `uint64(x)` of a signed integer: reduction modulo `2^64`. -/
def u64 (x : Int) : Nat := (x % 2 ^ 64).toNat

/-- Go conversion `int(x)` of a `uint64` (64-bit `int`): two's complement reinterpretation. -/
def toInt (x : Nat) : Int :=
  if x % 2 ^ 64 < 2 ^ 63 then ((x % 2 ^ 64 : Nat) : Int) else ((x % 2 ^ 64 : Nat) : Int) - 2 ^ 64

/-- Subtraction of two `uint32` values as the machine performs it (wraps modulo `2^32`). -/
def sub32 (a b : Nat) : Nat := (a % 2 ^ 32 + 2 ^ 32 - b % 2 ^ 32) % 2 ^ 32

/-- Multiplication of two `uint32` values as the machine performs it (wraps modulo `2^32`). -/
def mul32 (a b : Nat) : Nat := (a * b) % 2 ^ 32

/-! ## Data model -/

/-- The record `data_model.Key`: `Timestamp uint32`, `Metric int32`, `Keys [16]int32`. -/
structure Key where
  Timestamp : Nat
  Metric : Int
  Keys : Fin 16 → Int

/-- Go indexing `k.Keys[i]` with an `int` index: out of range is a run-time panic. -/
def Key.tag (k : Key) (i : Int) : Option Int :=
  if h : 0 ≤ i ∧ i < 16 then some (k.Keys ⟨i.toNat, by omega⟩) else none

/-- The fields of `format.MetricMetaValue` that the embedded code reads. -/
structure MetricMetaValue where
  MetricID : Int
  EffectiveResolution : Int
  PreKeyIndex : Int
  PreKeyOnly : Bool
  SkipMinHost : Bool
  SkipMaxHost : Bool
  SkipSumSquare : Bool
deriving DecidableEq, Repr

/-- The record `data_model.MetricsBucket`: `Time uint32` and the map `MultiItems`, whose
representation is left open (the router never looks inside it). -/
structure MetricsBucket (Items : Type) where
  Time : Nat
  MultiItems : Items
deriving DecidableEq, Repr

/-- What the embedded code uses of package `format`, whose declarations are not part of the
sources at hand: the id of the ingestion-status built-in, the table `BuiltinMetrics` and the
predicate `HardwareMetric`. -/
structure Format where
  BuiltinMetricIDIngestionStatus : Int
  BuiltinMetrics : Int → Option MetricMetaValue
  HardwareMetric : Int → Bool

/-- What the embedded code uses of package `data_model`'s constants: `BelieveTimestampWindow`,
an untyped constant used at type `uint32`. -/
structure DataModel where
  BelieveTimestampWindow : Nat

/-- Modelled from the spec: `format.MaxTags`, the number of tags of a key (`tags: [i32; 16]`). -/
def MaxTags : Nat := 16

/-- A lattice `[61][]*data_model.MetricsBucket`; a nil pointer is `none`. -/
abbrev Lattice (Items : Type) := Fin 61 → List (Option (MetricsBucket Items))

/-- The fields of `agent.Shard` read by the router. -/
structure Shard (Items : Type) where
  hardwareMetricResolutionResolved : Int
  CurrentBuckets : Lattice Items
  NextBuckets : Lattice Items

/-- Go indexing `lattice[resolution][resolutionShardNum]` with `int` indices: `none` is the
index-out-of-range panic, `some p` the pointer found (`p = none` is nil). -/
def indexBuckets {Items : Type} (lattice : Lattice Items) (resolution resolutionShardNum : Int) :
    Option (Option (MetricsBucket Items)) :=
  if h : 0 ≤ resolution ∧ resolution < 61 then
    if 0 ≤ resolutionShardNum then
      (lattice ⟨resolution.toNat, by omega⟩)[resolutionShardNum.toNat]?
    else none
  else none

/-! ## `Shard.resolutionShardFromHashLocked` -/

/-- Lines 135-142: the resolution picked from the metric metadata. -/
def resolutionOf {Items : Type} (fmt : Format) (s : Shard Items)
    (metricInfo : Option MetricMetaValue) : Int :=
  match metricInfo with
  | none => 1
  | some mi =>
    if !fmt.HardwareMetric mi.MetricID then mi.EffectiveResolution
    else s.hardwareMetricResolutionResolved

/-- Line 145: `(key.Timestamp / uint32(resolution)) * uint32(resolution)` when `resolution > 1`,
the timestamp itself otherwise; `none` is the division-by-zero panic. -/
def roundTimestamp (timestamp : Nat) (resolution : Int) : Option Nat :=
  if resolution > 1 then
    if u32 resolution = 0 then none
    else some (mul32 (timestamp / u32 resolution) (u32 resolution))
  else some timestamp

/-- Lines 143-147: `int((keyHash & 0xFFFFFFFF) * uint64(resolution) >> 32)` when
`resolution > 1`, else `0`.  The product is a `uint64` product and wraps modulo `2^64`. -/
def resolutionShardNumOf (keyHash : Nat) (resolution : Int) : Int :=
  if resolution > 1 then
    toInt ((((keyHash &&& 0xFFFFFFFF) * u64 resolution) % 2 ^ 64) >>> 32)
  else 0

/-- Lines 143-174: the body of the router once the resolution is known.  The result is the
returned bucket pointer together with the key as the caller sees it afterwards. -/
def routeAtResolution {Items : Type} (dm : DataModel) (s : Shard Items) (key : Key)
    (keyHash : Nat) (resolution : Int) : Option (Option (MetricsBucket Items) × Key) :=
  match roundTimestamp key.Timestamp resolution with
  | none => none
  | some ts =>
    let resolutionShardNum := resolutionShardNumOf keyHash resolution
    match indexBuckets s.CurrentBuckets resolution resolutionShardNum with
    | some (some currentShard) =>
      let currentTimestamp := currentShard.Time
      if ts = 0 then
        some (some currentShard, { key with Timestamp := currentTimestamp })
      else if ts ≤ currentTimestamp then
        if currentTimestamp > dm.BelieveTimestampWindow ∧
            ts < sub32 currentTimestamp dm.BelieveTimestampWindow then
          some (some currentShard,
            { key with Timestamp := sub32 currentTimestamp dm.BelieveTimestampWindow })
        else some (some currentShard, { key with Timestamp := ts })
      else
        match indexBuckets s.NextBuckets resolution resolutionShardNum with
        | some nextShard => some (nextShard, { key with Timestamp := ts })
        | none => none
    | _ => none

/-- The router `Shard.resolutionShardFromHashLocked(key, keyHash, metricInfo)`. -/
def resolutionShardFromHashLocked {Items : Type} (fmt : Format) (dm : DataModel)
    (s : Shard Items) (key : Key) (keyHash : Nat) (metricInfo : Option MetricMetaValue) :
    Option (Option (MetricsBucket Items) × Key) :=
  routeAtResolution dm s key keyHash (resolutionOf fmt s metricInfo)

/-! ## `metricIndexCache` and `appendKeys` (aggregator) -/

/-- The record `lastMetricData`. -/
structure lastMetricData where
  lastMetricPrekey : Int
  lastMetricPrekeyOnly : Bool
  lastMetricSkipMaxHost : Bool
  lastMetricSkipMinHost : Bool
  lastMetricSkipSumSquare : Bool
deriving DecidableEq, Repr

/-- The record `metricIndexCache`; the journal is represented by its lookup `GetMetaMetric`
(`none` is the nil result). -/
structure metricIndexCache where
  journal : Int → Option MetricMetaValue
  ingestionStatusData : lastMetricData
  lastMetricID : Int
  lastMetric : lastMetricData

/-- The constructor `makeMetricCache(journal)`; fields not set keep Go's zero value. -/
def makeMetricCache (fmt : Format) (journal : Int → Option MetricMetaValue) : metricIndexCache :=
  let result : metricIndexCache :=
    { journal := journal
      ingestionStatusData := ⟨-1, false, false, false, false⟩
      lastMetricID := 0
      lastMetric := ⟨-1, false, false, false, false⟩ }
  match fmt.BuiltinMetrics fmt.BuiltinMetricIDIngestionStatus with
  | some bm =>
    { result with ingestionStatusData :=
        { lastMetricPrekeyOnly := bm.PreKeyOnly
          lastMetricPrekey := bm.PreKeyIndex
          lastMetricSkipMinHost := bm.SkipMinHost
          lastMetricSkipMaxHost := bm.SkipMaxHost
          lastMetricSkipSumSquare := bm.SkipSumSquare } }
  | none => result

/-- The method `metricIndexCache.metric(metricID)`: the answer and the cache afterwards. -/
def metricIndexCache.metric (fmt : Format) (p : metricIndexCache) (metricID : Int) :
    Bool × metricIndexCache :=
  if metricID = p.lastMetricID then (true, p)
  else
    let p := { p with lastMetricID := metricID }
    match fmt.BuiltinMetrics metricID with
    | some bm =>
      (true, { p with lastMetric :=
        { lastMetricPrekey := bm.PreKeyIndex
          lastMetricPrekeyOnly := bm.PreKeyOnly
          lastMetricSkipMinHost := bm.SkipMinHost
          lastMetricSkipMaxHost := bm.SkipMaxHost
          lastMetricSkipSumSquare := bm.SkipSumSquare } })
    | none =>
      match p.journal metricID with
      | some metaMetric =>
        (true, { p with lastMetric :=
          { lastMetricPrekey := metaMetric.PreKeyIndex
            lastMetricPrekeyOnly := metaMetric.PreKeyOnly
            lastMetricSkipMinHost := metaMetric.SkipMinHost
            lastMetricSkipMaxHost := metaMetric.SkipMaxHost
            lastMetricSkipSumSquare := metaMetric.SkipSumSquare } })
      | none => (false, p)

/-- The method `metricIndexCache.getPrekeyIndex(metricID)`: the pair returned and the cache
afterwards. -/
def metricIndexCache.getPrekeyIndex (fmt : Format) (p : metricIndexCache) (metricID : Int) :
    (Int × Bool) × metricIndexCache :=
  if metricID = fmt.BuiltinMetricIDIngestionStatus then
    ((p.ingestionStatusData.lastMetricPrekey, false), p)
  else
    match p.metric fmt metricID with
    | (true, q) => ((q.lastMetric.lastMetricPrekey, q.lastMetric.lastMetricPrekeyOnly), q)
    | (false, q) => ((-1, false), q)

/-- The method `metricIndexCache.skips(metricID)`: `(skipMaxHost, skipMinHost, skipSumSquare)` and
the cache afterwards. -/
def metricIndexCache.skips (fmt : Format) (p : metricIndexCache) (metricID : Int) :
    (Bool × Bool × Bool) × metricIndexCache :=
  if metricID = fmt.BuiltinMetricIDIngestionStatus then
    ((p.ingestionStatusData.lastMetricSkipMaxHost, p.ingestionStatusData.lastMetricSkipMinHost,
      p.ingestionStatusData.lastMetricSkipSumSquare), p)
  else
    match p.metric fmt metricID with
    | (true, q) =>
      ((q.lastMetric.lastMetricSkipMaxHost, q.lastMetric.lastMetricSkipMinHost,
        q.lastMetric.lastMetricSkipSumSquare), q)
    | (false, q) => ((false, false, false), q)

/-- The call `binary.LittleEndian.PutUint32(b[off:], v)`: bytes `off .. off+3` of `b` become
`byte(v), byte(v>>8), byte(v>>16), byte(v>>24)`; a buffer too short is a panic. -/
def PutUint32 (b : List Nat) (off : Nat) (v : Nat) : Option (List Nat) :=
  if off + 4 ≤ b.length then
    some ((((b.set off (v % 256)).set (off + 1) ((v >>> 8) % 256)).set
      (off + 2) ((v >>> 16) % 256)).set (off + 3) ((v >>> 24) % 256))
  else none

/-- The function `appendKeys(res, k, metricCache, usedTimestamps)`.  The result is the returned
buffer, the cache afterwards and the timestamp set afterwards (`none` is the nil map). -/
def appendKeys (fmt : Format) (res : List Nat) (k : Key) (metricCache : metricIndexCache)
    (usedTimestamps : Option (Finset Nat)) :
    Option (List Nat × metricIndexCache × Option (Finset Nat)) := do
  let tmp : List Nat := List.replicate (4 + 4 + 1 + 4 + MaxTags * 4) 0
  let tmp ← PutUint32 tmp 0 (u32 k.Metric)
  let ((prekeyIndex, prekeyOnly), metricCache) := metricCache.getPrekeyIndex fmt k.Metric
  let tmp ←
    if prekeyIndex ≥ 0 then do
      let tag ← k.tag prekeyIndex
      let tmp ← PutUint32 tmp 4 (u32 tag)
      pure (tmp.set 8 (if prekeyOnly then 2 else 1))
    else pure tmp
  let tmp ← PutUint32 tmp 9 k.Timestamp
  let usedTimestamps := usedTimestamps.map (fun m => insert k.Timestamp m)
  let tmp ← (List.ofFn k.Keys).enum.foldlM
    (fun tmp (p : Nat × Int) => PutUint32 tmp (13 + p.1 * 4) (u32 p.2)) tmp
  pure (res ++ tmp, metricCache, usedTimestamps)

/-- The 4-byte little-endian encoding of a 32-bit value, least significant byte first. -/
def le32 (v : Nat) : List Nat :=
  [v % 256, v / 256 % 256, v / 65536 % 256, v / 16777216 % 256]

/-! ## Item values and the row encoder (aggregator) -/

/-- The `float64` / `float32` arithmetic the encoder relies on, as an interface: the carrier of
`float64` values, the constant `0`, the comparison `<=`, the product `*`, the conversion
`float32(x)` and `math.Float64bits`.  Nothing is assumed about the operations, so every theorem
holds for IEEE arithmetic in particular. -/
structure Floats where
  F64 : Type
  F32 : Type
  zero : F64
  le : F64 → F64 → Bool
  mul : F64 → F64 → F64
  toFloat32 : F64 → F32
  Float64bits : F64 → Nat

/-- Modelled from the spec: the payload encoders of package `rowbinary` and of the sketch types
of `data_model`, which are not part of the sources at hand.  Each `Append...` function appends its
encoding to the buffer; the encodings themselves are left open: the "empty-centroids" marker, the
"empty-unique" marker, a length-prefixed string, the empty arg-min/arg-max placeholder, an
arg-min/arg-max `(host_tag: i32, value: f32)` tuple, the centroid payload of an optional digest
scaled by the sampling factor, and the HLL payload with its item count. -/
structure Wire (fl : Floats) where
  Digest : Type
  HLL : Type
  emptyCentroids : List Nat
  emptyUnique : List Nat
  string : String → List Nat
  argMinMaxEmpty : List Nat
  argMinMax : Int → fl.F32 → List Nat
  centroids : Option Digest → fl.F64 → List Nat
  hll : HLL → List Nat
  ItemsCount : HLL → Int

/-- The call `rowbinary.AppendEmptyCentroids(res)`. -/
def Wire.AppendEmptyCentroids {fl : Floats} (w : Wire fl) (res : List Nat) : List Nat :=
  res ++ w.emptyCentroids

/-- The call `rowbinary.AppendEmptyUnique(res)`. -/
def Wire.AppendEmptyUnique {fl : Floats} (w : Wire fl) (res : List Nat) : List Nat :=
  res ++ w.emptyUnique

/-- The call `rowbinary.AppendString(res, s)`. -/
def Wire.AppendString {fl : Floats} (w : Wire fl) (res : List Nat) (s : String) : List Nat :=
  res ++ w.string s

/-- The call `rowbinary.AppendArgMinMaxInt32Float32Empty(res)`. -/
def Wire.AppendArgMinMaxInt32Float32Empty {fl : Floats} (w : Wire fl) (res : List Nat) :
    List Nat :=
  res ++ w.argMinMaxEmpty

/-- The call `rowbinary.AppendArgMinMaxInt32Float32(res, arg, v)`. -/
def Wire.AppendArgMinMaxInt32Float32 {fl : Floats} (w : Wire fl) (res : List Nat) (arg : Int)
    (v : fl.F32) : List Nat :=
  res ++ w.argMinMax arg v

/-- The call `rowbinary.AppendCentroids(res, digest, sf)`. -/
def Wire.AppendCentroids {fl : Floats} (w : Wire fl) (res : List Nat) (digest : Option w.Digest)
    (sf : fl.F64) : List Nat :=
  res ++ w.centroids digest sf

/-- The call `hll.MarshallAppend(res)`. -/
def Wire.MarshallAppend {fl : Floats} (w : Wire fl) (h : w.HLL) (res : List Nat) : List Nat :=
  res ++ w.hll h

/-- The record `data_model.ItemValue`. -/
structure ItemValue (fl : Floats) where
  Counter : fl.F64
  ValueMin : fl.F64
  ValueMax : fl.F64
  ValueSum : fl.F64
  ValueSumSquare : fl.F64
  MinHostTag : Int
  MaxHostTag : Int
  MaxCounterHostTag : Int
  ValueSet : Bool

/-- The record `data_model.MultiValue`: the item value, the optional digest (`none` is nil) and
the HLL sketch. -/
structure MultiValue (fl : Floats) (w : Wire fl) where
  Value : ItemValue fl
  ValueTDigest : Option w.Digest
  HLL : w.HLL

/-- The record `data_model.MultiItem`; the map `Top` is the list of its entries in the order in
which `range` visits them. -/
structure MultiItem (fl : Floats) (w : Wire fl) where
  Top : List (String × MultiValue fl w)
  Tail : MultiValue fl w
  SF : fl.F64

/-- The function `zeroIfTrue(value, cond)`. -/
def zeroIfTrue (fl : Floats) (value : fl.F64) (cond : Bool) : fl.F64 :=
  if cond then fl.zero else value

/-- The call `binary.LittleEndian.PutUint64(b[off:], v)` at an offset that is in range (every
call site writes at a constant offset inside a 40-byte array). -/
def PutUint64 (b : List Nat) (off : Nat) (v : Nat) : List Nat :=
  ((((((((b.set off (v % 256)).set (off + 1) ((v >>> 8) % 256)).set
    (off + 2) ((v >>> 16) % 256)).set (off + 3) ((v >>> 24) % 256)).set
    (off + 4) ((v >>> 32) % 256)).set (off + 5) ((v >>> 40) % 256)).set
    (off + 6) ((v >>> 48) % 256)).set (off + 7) ((v >>> 56) % 256))

/-- The function `appendAggregates(res, c, mi, ma, su, su2)`. -/
def appendAggregates (fl : Floats) (res : List Nat) (c mi ma su su2 : fl.F64) : List Nat :=
  let tmp : List Nat := List.replicate (5 * 8) 0
  let tmp := PutUint64 tmp (0 * 8) (fl.Float64bits c)
  let tmp := PutUint64 tmp (1 * 8) (fl.Float64bits mi)
  let tmp := PutUint64 tmp (2 * 8) (fl.Float64bits ma)
  let tmp := PutUint64 tmp (3 * 8) (fl.Float64bits su)
  let tmp := PutUint64 tmp (4 * 8) (fl.Float64bits su2)
  res ++ tmp

/-- The function `appendValueStat(res, key, skey, v, cache, usedTimestamps)`: the buffer, the
cache and the timestamp set afterwards. -/
def appendValueStat (fmt : Format) (fl : Floats) (w : Wire fl) (res : List Nat) (key : Key)
    (skey : String) (v : ItemValue fl) (cache : metricIndexCache)
    (usedTimestamps : Option (Finset Nat)) :
    Option (List Nat × metricIndexCache × Option (Finset Nat)) :=
  if fl.le v.Counter fl.zero then some (res, cache, usedTimestamps)
  else do
    let (res, cache, usedTimestamps) ← appendKeys fmt res key cache usedTimestamps
    let ((skipMaxHost, skipMinHost, skipSumSquare), cache) := cache.skips fmt key.Metric
    let res :=
      if v.ValueSet then
        appendAggregates fl res v.Counter v.ValueMin v.ValueMax v.ValueSum
          (zeroIfTrue fl v.ValueSumSquare skipSumSquare)
      else appendAggregates fl res v.Counter fl.zero v.Counter fl.zero fl.zero
    let res := w.AppendEmptyCentroids res
    let res := w.AppendEmptyUnique res
    let res := w.AppendString res skey
    let res :=
      if v.ValueSet then
        let res :=
          if skipMinHost then w.AppendArgMinMaxInt32Float32Empty res
          else w.AppendArgMinMaxInt32Float32 res v.MinHostTag (fl.toFloat32 v.ValueMin)
        if skipMaxHost then w.AppendArgMinMaxInt32Float32Empty res
        else w.AppendArgMinMaxInt32Float32 res v.MaxHostTag (fl.toFloat32 v.ValueMax)
      else
        let res := w.AppendArgMinMaxInt32Float32Empty res
        if skipMaxHost then w.AppendArgMinMaxInt32Float32Empty res
        else w.AppendArgMinMaxInt32Float32 res v.MaxCounterHostTag (fl.toFloat32 v.Counter)
    pure (res, cache, usedTimestamps)

/-- The function `multiValueMarshal(metricID, cache, res, value, skey, sf)`: the buffer and the
cache afterwards. -/
def multiValueMarshal (fmt : Format) (fl : Floats) (w : Wire fl) (metricID : Int)
    (cache : metricIndexCache) (res : List Nat) (value : MultiValue fl w) (skey : String)
    (sf : fl.F64) : List Nat × metricIndexCache :=
  let ((skipMaxHost, skipMinHost, skipSumSquare), cache) := cache.skips fmt metricID
  let counter := fl.mul value.Value.Counter sf
  let res :=
    if value.Value.ValueSet then
      appendAggregates fl res counter value.Value.ValueMin value.Value.ValueMax
        (fl.mul value.Value.ValueSum sf)
        (zeroIfTrue fl (fl.mul value.Value.ValueSumSquare sf) skipSumSquare)
    else appendAggregates fl res counter fl.zero counter fl.zero fl.zero
  let res := w.AppendCentroids res value.ValueTDigest sf
  let res := w.MarshallAppend value.HLL res
  let res := w.AppendString res skey
  let res :=
    if value.Value.ValueSet then
      let res :=
        if skipMinHost then w.AppendArgMinMaxInt32Float32Empty res
        else w.AppendArgMinMaxInt32Float32 res value.Value.MinHostTag
          (fl.toFloat32 value.Value.ValueMin)
      if skipMaxHost then w.AppendArgMinMaxInt32Float32Empty res
      else w.AppendArgMinMaxInt32Float32 res value.Value.MaxHostTag
        (fl.toFloat32 value.Value.ValueMax)
    else
      let res := w.AppendArgMinMaxInt32Float32Empty res
      if skipMaxHost then w.AppendArgMinMaxInt32Float32Empty res
      else w.AppendArgMinMaxInt32Float32 res value.Value.MaxCounterHostTag
        (fl.toFloat32 counter)
  (res, cache)

/-- The 8-byte little-endian encoding of a 64-bit value, least significant byte first. -/
def le64 (v : Nat) : List Nat :=
  [v % 256, v / 2 ^ 8 % 256, v / 2 ^ 16 % 256, v / 2 ^ 24 % 256,
    v / 2 ^ 32 % 256, v / 2 ^ 40 % 256, v / 2 ^ 48 % 256, v / 2 ^ 56 % 256]

/-- The five aggregate fields `count, min, max, sum, sum_square` as the row format lays them
out: five `f64` bit patterns, little-endian. -/
def aggregateBytes (fl : Floats) (c mi ma su su2 : fl.F64) : List Nat :=
  le64 (fl.Float64bits c) ++ le64 (fl.Float64bits mi) ++ le64 (fl.Float64bits ma) ++
    le64 (fl.Float64bits su) ++ le64 (fl.Float64bits su2)

/-- The `min_host` tuple of a row as the format describes it: for a value cell the empty
placeholder when `skip_min_host` is set and `(MinHostTag, float32(min))` otherwise; for a
counter-only cell always the empty placeholder. -/
def minHostTuple (fl : Floats) (w : Wire fl) (v : ItemValue fl) (skipMinHost : Bool) :
    List Nat :=
  if v.ValueSet then
    if skipMinHost then w.argMinMaxEmpty else w.argMinMax v.MinHostTag (fl.toFloat32 v.ValueMin)
  else w.argMinMaxEmpty

/-- The `max_host` tuple of a row as the format describes it: the empty placeholder when
`skip_max_host` is set; otherwise `(MaxHostTag, float32(max))` for a value cell and
`(MaxCounterHostTag, float32(counter))` for a counter-only cell, `counter` being the count
written in the row. -/
def maxHostTuple (fl : Floats) (w : Wire fl) (v : ItemValue fl) (counter : fl.F64)
    (skipMaxHost : Bool) : List Nat :=
  if skipMaxHost then w.argMinMaxEmpty
  else if v.ValueSet then w.argMinMax v.MaxHostTag (fl.toFloat32 v.ValueMax)
  else w.argMinMax v.MaxCounterHostTag (fl.toFloat32 counter)

/-! ## Badges -/

/-- Further constants of package `format` that `appendBadge` compares with or writes: metric ids
and tag values.  Their declarations are not part of the sources at hand. -/
structure BadgeFormat where
  BuiltinMetricIDBadges : Int
  BuiltinMetricIDAgentSamplingFactor : Int
  BuiltinMetricIDAggSamplingFactor : Int
  BuiltinMetricIDAggMappingCreated : Int
  BuiltinMetricIDAggBucketReceiveDelaySec : Int
  TagValueIDSrcIngestionStatusOKCached : Int
  TagValueIDSrcIngestionStatusOKUncached : Int
  TagValueIDSrcIngestionStatusWarnDeprecatedKeyName : Int
  TagValueIDSrcIngestionStatusWarnDeprecatedT : Int
  TagValueIDSrcIngestionStatusWarnDeprecatedStop : Int
  TagValueIDSrcIngestionStatusWarnMapTagSetTwice : Int
  TagValueIDSrcIngestionStatusWarnOldCounterSemantic : Int
  TagValueIDSrcIngestionStatusWarnMapInvalidRawTagValue : Int
  TagValueIDBadgeIngestionWarnings : Int
  TagValueIDBadgeIngestionErrors : Int
  TagValueIDBadgeAgentSamplingFactor : Int
  TagValueIDBadgeAggSamplingFactor : Int
  TagValueIDBadgeAggMappingErrors : Int
  TagValueIDBadgeContributors : Int
  TagValueIDAggMappingCreatedStatusOK : Int
  TagValueIDAggMappingCreatedStatusCreated : Int

/-- The array literal `[16]int32{a, b, c}`: three leading tags, zeros after them. -/
def keys3 (a b c : Int) : Fin 16 → Int := fun i =>
  if i.val = 0 then a else if i.val = 1 then b else if i.val = 2 then c else 0

/-- The key `data_model.Key{Timestamp: ts, Metric: format.BuiltinMetricIDBadges,
Keys: [16]int32{0, badge, tag}}` of a badge row. -/
def badgeKey (bf : BadgeFormat) (ts : Nat) (badge tag : Int) : Key where
  Timestamp := ts
  Metric := bf.BuiltinMetricIDBadges
  Keys := keys3 0 badge tag

/-- The function `appendBadge(res, k, v, metricCache, usedTimestamps)`. -/
def appendBadge (fmt : Format) (bf : BadgeFormat) (fl : Floats) (w : Wire fl) (res : List Nat)
    (k : Key) (v : ItemValue fl) (metricCache : metricIndexCache)
    (usedTimestamps : Option (Finset Nat)) :
    Option (List Nat × metricIndexCache × Option (Finset Nat)) :=
  if k.Metric ≥ 0 then some (res, metricCache, usedTimestamps)
  else
    let ts := mul32 (k.Timestamp / 5) 5
    if k.Metric = fmt.BuiltinMetricIDIngestionStatus then
      if k.Keys 1 = 0 then some (res, metricCache, usedTimestamps)
      else if k.Keys 2 = bf.TagValueIDSrcIngestionStatusOKCached ∨
          k.Keys 2 = bf.TagValueIDSrcIngestionStatusOKUncached then
        some (res, metricCache, usedTimestamps)
      else if k.Keys 2 = bf.TagValueIDSrcIngestionStatusWarnDeprecatedKeyName ∨
          k.Keys 2 = bf.TagValueIDSrcIngestionStatusWarnDeprecatedT ∨
          k.Keys 2 = bf.TagValueIDSrcIngestionStatusWarnDeprecatedStop ∨
          k.Keys 2 = bf.TagValueIDSrcIngestionStatusWarnMapTagSetTwice ∨
          k.Keys 2 = bf.TagValueIDSrcIngestionStatusWarnOldCounterSemantic ∨
          k.Keys 2 = bf.TagValueIDSrcIngestionStatusWarnMapInvalidRawTagValue then
        appendValueStat fmt fl w res
          (badgeKey bf ts bf.TagValueIDBadgeIngestionWarnings (k.Keys 1)) "" v
          metricCache usedTimestamps
      else
        appendValueStat fmt fl w res
          (badgeKey bf ts bf.TagValueIDBadgeIngestionErrors (k.Keys 1)) "" v
          metricCache usedTimestamps
    else if k.Metric = bf.BuiltinMetricIDAgentSamplingFactor then
      appendValueStat fmt fl w res
        (badgeKey bf ts bf.TagValueIDBadgeAgentSamplingFactor (k.Keys 1)) "" v
        metricCache usedTimestamps
    else if k.Metric = bf.BuiltinMetricIDAggSamplingFactor then
      appendValueStat fmt fl w res
        (badgeKey bf ts bf.TagValueIDBadgeAggSamplingFactor (k.Keys 4)) "" v
        metricCache usedTimestamps
    else if k.Metric = bf.BuiltinMetricIDAggMappingCreated then
      if k.Keys 5 = bf.TagValueIDAggMappingCreatedStatusOK ∨
          k.Keys 5 = bf.TagValueIDAggMappingCreatedStatusCreated then
        some (res, metricCache, usedTimestamps)
      else
        appendValueStat fmt fl w res
          (badgeKey bf ts bf.TagValueIDBadgeAggMappingErrors (k.Keys 4)) "" v
          metricCache usedTimestamps
    else if k.Metric = bf.BuiltinMetricIDAggBucketReceiveDelaySec then
      appendValueStat fmt fl w res
        (badgeKey bf ts bf.TagValueIDBadgeContributors 0) "" v
        metricCache usedTimestamps
    else some (res, metricCache, usedTimestamps)

/-- The function `appendMultiBadge(res, k, v, metricCache, usedTimestamps)`. -/
def appendMultiBadge (fmt : Format) (bf : BadgeFormat) (fl : Floats) (w : Wire fl)
    (res : List Nat) (k : Key) (v : MultiItem fl w) (metricCache : metricIndexCache)
    (usedTimestamps : Option (Finset Nat)) :
    Option (List Nat × metricIndexCache × Option (Finset Nat)) :=
  if k.Metric ≥ 0 then some (res, metricCache, usedTimestamps)
  else do
    let st ← v.Top.foldlM
      (fun (st : List Nat × metricIndexCache × Option (Finset Nat))
          (t : String × MultiValue fl w) =>
        appendBadge fmt bf fl w st.1 k t.2.Value st.2.1 st.2.2)
      (res, metricCache, usedTimestamps)
    appendBadge fmt bf fl w st.1 k v.Tail.Value st.2.1 st.2.2

/-! ## `insertItem` -/

/-- The record `insertSize`. -/
structure insertSize where
  counters : Int
  values : Int
  percentiles : Int
  uniques : Int
  stringTops : Int
  builtin : Int
deriving DecidableEq, Repr

/-- The closure `addSizes(bucketTs, is)` on the map `insertSizes` (a missing key reads as the
zero record). -/
def addSizes (insertSizes : Nat → insertSize) (bucketTs : Nat) (is : insertSize) :
    Nat → insertSize := fun t =>
  if t = bucketTs then
    { counters := (insertSizes bucketTs).counters + is.counters
      values := (insertSizes bucketTs).values + is.values
      percentiles := (insertSizes bucketTs).percentiles + is.percentiles
      uniques := (insertSizes bucketTs).uniques + is.uniques
      stringTops := (insertSizes bucketTs).stringTops + is.stringTops
      builtin := (insertSizes bucketTs).builtin + is.builtin }
  else insertSizes t

/-- The closure `insertItem(k, item, sf, bucketTs)` of `RowDataMarshalAppendPositions`, with the
captured variables `res`, `metricCache`, `usedTimestamps`, `insertSizes` passed in and returned.
`Empty` is the method `MultiValue.Empty`, which is not part of the sources at hand. -/
def insertItem (fmt : Format) (fl : Floats) (w : Wire fl) (Empty : MultiValue fl w → Bool)
    (res : List Nat) (metricCache : metricIndexCache) (usedTimestamps : Option (Finset Nat))
    (insertSizes : Nat → insertSize)
    (k : Key) (item : MultiItem fl w) (sf : fl.F64) (bucketTs : Nat) :
    Option (List Nat × metricIndexCache × Option (Finset Nat) × (Nat → insertSize)) := do
  let is : insertSize := ⟨0, 0, 0, 0, 0, 0⟩
  let resPos := res.length
  let (res, metricCache, usedTimestamps, is) ←
    if !Empty item.Tail then do
      let (res, metricCache, usedTimestamps) ← appendKeys fmt res k metricCache usedTimestamps
      let (res, metricCache) :=
        multiValueMarshal fmt fl w k.Metric metricCache res item.Tail "" sf
      let is : insertSize :=
        if k.Metric < 0 then { is with builtin := is.builtin + ((res.length : Int) - resPos) }
        else if item.Tail.ValueTDigest.isSome then
          { is with percentiles := is.percentiles + ((res.length : Int) - resPos) }
        else if w.ItemsCount item.Tail.HLL ≠ 0 then
          { is with uniques := is.uniques + ((res.length : Int) - resPos) }
        else if item.Tail.Value.ValueSet then
          { is with values := is.values + ((res.length : Int) - resPos) }
        else { is with counters := is.counters + ((res.length : Int) - resPos) }
      pure (res, metricCache, usedTimestamps, is)
    else pure (res, metricCache, usedTimestamps, is)
  let resPos := res.length
  let (res, metricCache, usedTimestamps) ← item.Top.foldlM
    (fun (st : List Nat × metricIndexCache × Option (Finset Nat))
        (e : String × MultiValue fl w) =>
      if Empty e.2 then pure st
      else do
        let (res, metricCache, usedTimestamps) ← appendKeys fmt st.1 k st.2.1 st.2.2
        let (res, metricCache) := multiValueMarshal fmt fl w k.Metric metricCache res e.2 e.1 sf
        pure (res, metricCache, usedTimestamps))
    (res, metricCache, usedTimestamps)
  let is : insertSize :=
    if k.Metric < 0 then { is with builtin := is.builtin + ((res.length : Int) - resPos) }
    else { is with stringTops := is.stringTops + ((res.length : Int) - resPos) }
  pure (res, metricCache, usedTimestamps, addSizes insertSizes bucketTs is)

/-! ## Rows as the specification describes them -/

/-- The badge rows `(badge, tag, value)` written one after the other from a state
`(res, cache, usedTimestamps)`: each is one `appendValueStat` call for the key of metric
`BuiltinMetricIDBadges` with timestamp `ts` and tags `[0, badge, tag, 0, ...]`. -/
def writeBadgeRows (fmt : Format) (bf : BadgeFormat) (fl : Floats) (w : Wire fl) (ts : Nat)
    (rows : List (Int × Int × ItemValue fl))
    (st : List Nat × metricIndexCache × Option (Finset Nat)) :
    Option (List Nat × metricIndexCache × Option (Finset Nat)) :=
  rows.foldlM
    (fun st r => appendValueStat fmt fl w st.1 (badgeKey bf ts r.1 r.2.1) "" r.2.2 st.2.1 st.2.2)
    st

/-- One row of the encoder as the specification words it:
`append_keys(key) || multi_value_marshal(metric_id, mv, skey, sf)`, written from a state
`(res, cache, usedTimestamps)`. -/
def appendRow (fmt : Format) (fl : Floats) (w : Wire fl) (k : Key) (sf : fl.F64)
    (st : List Nat × metricIndexCache × Option (Finset Nat)) (e : String × MultiValue fl w) :
    Option (List Nat × metricIndexCache × Option (Finset Nat)) :=
  match appendKeys fmt st.1 k st.2.1 st.2.2 with
  | none => none
  | some (res, cache, used) =>
    some ((multiValueMarshal fmt fl w k.Metric cache res e.2 e.1 sf).1,
      (multiValueMarshal fmt fl w k.Metric cache res e.2 e.1 sf).2, used)

/-- The rows of a kept item as the specification lists them: the tail under the empty string key
when the tail is non-empty, then every non-empty entry of `top`. -/
def rowsOf {fl : Floats} {w : Wire fl} (Empty : MultiValue fl w → Bool) (item : MultiItem fl w) :
    List (String × MultiValue fl w) :=
  (if Empty item.Tail then [] else [("", item.Tail)]) ++ item.Top.filter (fun e => !Empty e.2)

/-- The tag value is one of the six ingestion warning statuses that `appendBadge` lists. -/
def isIngestionWarning (bf : BadgeFormat) (x : Int) : Bool :=
  decide (x = bf.TagValueIDSrcIngestionStatusWarnDeprecatedKeyName ∨
    x = bf.TagValueIDSrcIngestionStatusWarnDeprecatedT ∨
    x = bf.TagValueIDSrcIngestionStatusWarnDeprecatedStop ∨
    x = bf.TagValueIDSrcIngestionStatusWarnMapTagSetTwice ∨
    x = bf.TagValueIDSrcIngestionStatusWarnOldCounterSemantic ∨
    x = bf.TagValueIDSrcIngestionStatusWarnMapInvalidRawTagValue)

/-- Every pre-key index held by the built-in table, the journal or the cache is below `16`
(the data model's `pre_key_index ∈ [0, 16) or -1`). -/
def prekeyInRange (fmt : Format) (p : metricIndexCache) : Prop :=
  (∀ m bm, fmt.BuiltinMetrics m = some bm → bm.PreKeyIndex < 16) ∧
  (∀ m mm, p.journal m = some mm → mm.PreKeyIndex < 16) ∧
  p.ingestionStatusData.lastMetricPrekey < 16 ∧ p.lastMetric.lastMetricPrekey < 16

/-! ## Concrete shard, keys and metadata used to instantiate the theorems -/

/-- A `format` package with the ingestion-status built-in at id `-10`, no built-in metadata and
one hardware metric, `-1000`. -/
def exampleFormat : Format where
  BuiltinMetricIDIngestionStatus := -10
  BuiltinMetrics := fun _ => none
  HardwareMetric := fun m => decide (m = -1000)

/-- A shard filled for resolutions `1` and `5`: current buckets at time `1000`, next buckets at
`1000 + R`; hardware metrics are published at resolution `5`. -/
def exampleShard : Shard Unit where
  hardwareMetricResolutionResolved := 5
  CurrentBuckets := fun R =>
    if R.val = 1 then [some ⟨1000, ()⟩]
    else if R.val = 5 then List.replicate 5 (some ⟨1000, ()⟩) else []
  NextBuckets := fun R =>
    if R.val = 1 then [some ⟨1001, ()⟩]
    else if R.val = 5 then List.replicate 5 (some ⟨1005, ()⟩) else []

/-- A key of metric `42` with the given timestamp and tags `[1, 2, 0, ..., 0]`. -/
def exampleKey (ts : Nat) : Key where
  Timestamp := ts
  Metric := 42
  Keys := fun i => if i.val = 0 then 1 else if i.val = 1 then 2 else 0

/-- Metadata of metric `42`: resolution `5`, no pre-key. -/
def exampleMeta : MetricMetaValue where
  MetricID := 42
  EffectiveResolution := 5
  PreKeyIndex := -1
  PreKeyOnly := false
  SkipMinHost := false
  SkipMaxHost := false
  SkipSumSquare := false

/-- A journal that knows exactly one metric, `42`, with pre-key index `1` and the pre-key-only
flag set. -/
def exampleJournal : Int → Option MetricMetaValue := fun m =>
  if m = 42 then some ⟨42, 1, 1, true, false, false, false⟩ else none

/-- A `format` package whose built-in table describes the ingestion-status metric (id `-10`) with
pre-key index `1` and the pre-key-only flag set. -/
def preKeyOnlyFormat : Format where
  BuiltinMetricIDIngestionStatus := -10
  BuiltinMetrics := fun m =>
    if m = -10 then some ⟨-10, 1, 1, true, false, false, false⟩ else none
  HardwareMetric := fun _ => false

/-- An ingestion-status key (metric `-10`) at timestamp `100` with `tags[1] = 7`. -/
def ingestionStatusKey : Key where
  Timestamp := 100
  Metric := -10
  Keys := fun i => if i.val = 1 then 7 else 0

/-- The bytes `prekey` (4 bytes) and `prekey_set` (1 byte) of the key prefix that ends a buffer:
offsets `4 .. 8` of the last 77 bytes. -/
def prekeyColumns (out : List Nat) : List Nat :=
  ((out.drop (out.length - 77)).drop 4).take 5

/-- Three consecutive `appendKeys` calls on one cache, as the encoder performs them for
consecutive rows: the buffer after the third call. -/
def appendKeysThrice (fmt : Format) (cache : metricIndexCache) (k1 k2 k3 : Key) :
    Option (List Nat) := do
  let (res, cache, used) ← appendKeys fmt [] k1 cache none
  let (res, cache, used) ← appendKeys fmt res k2 cache used
  let (res, _, _) ← appendKeys fmt res k3 cache used
  pure res

/-- Decoding of a 4-byte little-endian group into the 32-bit value it encodes. -/
def leUint32 (b : List Nat) : Nat :=
  b.getD 0 0 + b.getD 1 0 * 256 + b.getD 2 0 * 65536 + b.getD 3 0 * 16777216

/-- Reinterpretation of a `uint32` bit pattern as an `int32` (two's complement). -/
def i32 (x : Nat) : Int :=
  if x < 2 ^ 31 then (x : Int) else (x : Int) - 2 ^ 32

/-- An exact-arithmetic interpretation of the float interface over the integers, used to run the
encoder on concrete rows. -/
def exactFloats : Floats where
  F64 := Int
  F32 := Int
  zero := 0
  le := fun a b => decide (a ≤ b)
  mul := fun a b => a * b
  toFloat32 := fun x => x
  Float64bits := u64

/-- Payload encoders used to run the encoder on concrete rows: one-byte markers for the empty
sketches, a length byte for strings, and a 10-byte arg-min/arg-max tuple. -/
def exampleWire : Wire exactFloats where
  Digest := Unit
  HLL := Nat
  emptyCentroids := [0]
  emptyUnique := [0]
  string := fun s => [s.length]
  argMinMaxEmpty := [0, 0]
  argMinMax := fun tag v => 1 :: le32 (u32 tag) ++ 1 :: le32 (u32 v)
  centroids := fun d _ => if d.isSome then [1] else [0]
  hll := fun n => [n]
  ItemsCount := fun n => (n : Int)

/-- A counter-only cell with the given counter and host tag `7`; its value fields hold junk that
a counter-only row must not show. -/
def counterCell (c : Int) : ItemValue exactFloats where
  Counter := c
  ValueMin := (11 : Int)
  ValueMax := (12 : Int)
  ValueSum := (13 : Int)
  ValueSumSquare := (14 : Int)
  MinHostTag := 5
  MaxHostTag := 6
  MaxCounterHostTag := 7
  ValueSet := false

/-- A value cell: counter `3`, min `2`, max `9`, sum `15`, sum of squares `89`. -/
def valueCell : ItemValue exactFloats where
  Counter := (3 : Int)
  ValueMin := (2 : Int)
  ValueMax := (9 : Int)
  ValueSum := (15 : Int)
  ValueSumSquare := (89 : Int)
  MinHostTag := 5
  MaxHostTag := 6
  MaxCounterHostTag := 7
  ValueSet := true

/-- A journal that knows exactly one metric, `42`, without pre-key and with all three skip flags
set. -/
def skipJournal : Int → Option MetricMetaValue := fun m =>
  if m = 42 then some ⟨42, 1, -1, false, true, true, true⟩ else none

/-- The multi-value around the value cell: no digest, empty HLL. -/
def valueMulti : MultiValue exactFloats exampleWire where
  Value := valueCell
  ValueTDigest := none
  HLL := (0 : Nat)

/-- The multi-value around a counter-only cell: no digest, empty HLL. -/
def counterMulti (c : Int) : MultiValue exactFloats exampleWire where
  Value := counterCell c
  ValueTDigest := none
  HLL := (0 : Nat)

/-- Badge constants: the built-in metric ids are negative and pairwise different, the tag values
pairwise different within each tag. -/
def exampleBadges : BadgeFormat where
  BuiltinMetricIDBadges := -11
  BuiltinMetricIDAgentSamplingFactor := -12
  BuiltinMetricIDAggSamplingFactor := -13
  BuiltinMetricIDAggMappingCreated := -14
  BuiltinMetricIDAggBucketReceiveDelaySec := -15
  TagValueIDSrcIngestionStatusOKCached := 10
  TagValueIDSrcIngestionStatusOKUncached := 11
  TagValueIDSrcIngestionStatusWarnDeprecatedKeyName := 40
  TagValueIDSrcIngestionStatusWarnDeprecatedT := 41
  TagValueIDSrcIngestionStatusWarnDeprecatedStop := 42
  TagValueIDSrcIngestionStatusWarnMapTagSetTwice := 43
  TagValueIDSrcIngestionStatusWarnOldCounterSemantic := 44
  TagValueIDSrcIngestionStatusWarnMapInvalidRawTagValue := 45
  TagValueIDBadgeIngestionWarnings := 2
  TagValueIDBadgeIngestionErrors := 1
  TagValueIDBadgeAgentSamplingFactor := 3
  TagValueIDBadgeAggSamplingFactor := 4
  TagValueIDBadgeAggMappingErrors := 5
  TagValueIDBadgeContributors := 6
  TagValueIDAggMappingCreatedStatusOK := 1
  TagValueIDAggMappingCreatedStatusCreated := 2

/-- An ingestion-status row (metric `-10`) at timestamp `103` for metric `tags[1] = 7` with
status `tags[2] = 41`, the warning `WarnDeprecatedT` of `exampleBadges`. -/
def warnKey : Key where
  Timestamp := 103
  Metric := -10
  Keys := fun i => if i.val = 1 then 7 else if i.val = 2 then 41 else 0

/-- A built-in key with a negative metric id and a negative tag. -/
def negativeKey : Key where
  Timestamp := 4000000000
  Metric := -10
  Keys := fun i => if i.val = 3 then -5 else if i.val = 15 then 2147483647 else 0

/-- The emptiness test used to run `insertItem`: a multi-value is empty when its counter is
`<= 0`. -/
def exampleEmpty (mv : MultiValue exactFloats exampleWire) : Bool :=
  exactFloats.le mv.Value.Counter exactFloats.zero

/-- An item with a non-empty tail and two top entries, the second of which is empty. -/
def exampleItem : MultiItem exactFloats exampleWire where
  Top := [("a", valueMulti), ("b", counterMulti 0)]
  Tail := counterMulti 3
  SF := (1 : Int)

/-! ## Built-in self metrics of the agent: `Shard.addBuiltInsLocked` -/

/-- Further `float64` operations and constants, as an interface like `Floats`: the constant `1`,
the comparison `<`, sum and quotient, the conversions `float64(n)` of an integer and `int(x)` of
a float.  Nothing is assumed about them. -/
structure FloatOps (fl : Floats) where
  one : fl.F64
  lt : fl.F64 → fl.F64 → Bool
  add : fl.F64 → fl.F64 → fl.F64
  div : fl.F64 → fl.F64 → fl.F64
  ofInt : Int → fl.F64
  toInt : fl.F64 → Int

/-- Constants of package `format` used by `addBuiltInsLocked`; their declarations are not part
of the sources at hand. -/
structure BuiltinFormat where
  BuiltinMetricIDJournalVersions : Int
  BuiltinMetricIDUsageCPU : Int
  BuiltinMetricIDUsageMemory : Int
  BuiltinMetricIDHeartbeatVersion : Int
  BuiltinMetricIDHeartbeatArgs : Int
  TagValueIDHeartbeatEventHeartbeat : Int
  TagValueIDCPUUsageUser : Int
  TagValueIDCPUUsageSys : Int

/-- The fields of `agent.Agent` that `addBuiltInsLocked` reads or writes; the method `AggKey`,
which is not part of the sources at hand, is a field; `rUsage` is kept as its user and system
time in nanoseconds. -/
structure Agent where
  heartBeatEventType : Int
  componentTag : Int
  startTimestamp : Nat
  heartBeatSecondBucket : Int
  argsHash : Int
  argsLen : Int
  args : String
  rUsageUtime : Int
  rUsageStime : Int
  AggKey : Nat → Int → (Fin 16 → Int) → Key

/-- The fields of `agent.Shard` that `addBuiltInsLocked` reads or writes besides the lattice.
`currentJournalHashSeconds` is a `float64` that only ever holds a whole number of seconds: it is
kept as that number. -/
structure ShardBuiltins (fl : Floats) where
  ShardNum : Int
  BuiltInItemValues : List (Key × ItemValue fl)
  currentJournalVersion : Int
  currentJournalHash : String
  currentJournalHashTag : Int
  currentJournalHashSeconds : Nat

/-- What one run of `addBuiltInsLocked` obtains from outside: the metric storage (`none` is nil,
else `Version()` and `StateHash()`), the times `Getrusage` reports in nanoseconds, and the
resident size of `GetMemStat` (`none` is nil). -/
structure TickInput where
  metricStorage : Option (Int × String)
  rUsageUtime : Int
  rUsageStime : Int
  memStatRes : Option Int

/-- An update of a bucket's `MultiItems`.  The map and its item methods are not part of the
sources at hand, and `addBuiltInsLocked` never reads a bucket's items: a run is described by the
updates it performs, each with the place `CurrentBuckets[R][r]` of its bucket.  Counts are
`float64` arguments that hold whole numbers and are kept as those numbers.
* `mergeTail`: `MapKeyItemMultiItem(key).Tail.Value.Merge(&value)`
* `topCounter`: `MapKeyItemMultiItem(key).MapStringTop(str, count).AddCounterHost(count, 0)`
* `tailValue`: `MapKeyItemMultiItem(key).Tail.AddValueCounterHost(value, count, 0)`
* `topValue`: `MapKeyItemMultiItem(key).MapStringTop(str, count).AddValueCounterHost(value,
  count, 0)` -/
inductive BuiltinWrite (fl : Floats) where
  | mergeTail (R r : Int) (key : Key) (value : ItemValue fl)
  | topCounter (R r : Int) (key : Key) (str : String) (count : Nat)
  | tailValue (R r : Int) (key : Key) (value : fl.F64) (count : Nat)
  | topValue (R r : Int) (key : Key) (str : String) (value : fl.F64) (count : Nat)

/-- The array literal `[16]int32{...}`: the listed tags, zeros after them. -/
def keysOf (l : List Int) : Fin 16 → Int := fun i => l.getD i.val 0

/-- The zero value `data_model.ItemValue{}`. -/
def zeroItemValue (fl : Floats) : ItemValue fl where
  Counter := fl.zero
  ValueMin := fl.zero
  ValueMax := fl.zero
  ValueSum := fl.zero
  ValueSumSquare := fl.zero
  MinHostTag := 0
  MaxHostTag := 0
  MaxCounterHostTag := 0
  ValueSet := false

/-- The entry of Go's `reverseHexTable` for a character: its value as a hexadecimal digit, or
`none` for an invalid character. -/
def hexVal (c : Char) : Option Nat :=
  if 48 ≤ c.toNat ∧ c.toNat ≤ 57 then some (c.toNat - 48)
  else if 97 ≤ c.toNat ∧ c.toNat ≤ 102 then some (c.toNat - 87)
  else if 65 ≤ c.toNat ∧ c.toNat ≤ 70 then some (c.toNat - 55)
  else none

/-- The bytes returned by Go's `hex.DecodeString`, whose error is discarded by the caller: the
pairs of hexadecimal digits decoded before the first invalid character or the end of the input
(a trailing single character decodes to nothing). -/
def hexDecode : List Char → List Nat
  | p :: q :: rest =>
    match hexVal p, hexVal q with
    | some a, some b => ((a <<< 4) ||| b) :: hexDecode rest
    | _, _ => []
  | _ => []

/-- Go's `binary.BigEndian.Uint32(b)` for a slice of at least four bytes. -/
def BigEndianUint32 (b : List Nat) : Nat :=
  b.getD 3 0 ||| (b.getD 2 0 <<< 8) ||| (b.getD 1 0 <<< 16) ||| (b.getD 0 0 <<< 24)

/-- Lines 323-327: the journal hash tag computed from the state hash of the metric storage. -/
def journalHashTag (metricJournalHash : String) : Int :=
  let metricJournalHashRaw := hexDecode metricJournalHash.toList
  if metricJournalHashRaw.length ≥ 4 then i32 (BigEndianUint32 metricJournalHashRaw) else 0

/-- The increment `currentJournalHashSeconds++` of a `float64` holding a whole number: exact
below `2^53`, absorbed by rounding at `2^53`. -/
def incrSeconds (n : Nat) : Nat := if n < 2 ^ 53 then n + 1 else n

/-- The dereference `resolutionShard.Time` of the bucket pointer at `CurrentBuckets[R][r]`;
`none` is the panic on a nil pointer. -/
def bucketTime {Items : Type} (s : Shard Items) (R r : Int) : Option Nat :=
  match indexBuckets s.CurrentBuckets R r with
  | some (some bucket) => some bucket.Time
  | _ => none

/-- The closure `writeJournalVersion(version, hash, hashTag, count)` while the variable
`resolutionShard` points to `CurrentBuckets[R][r]`. -/
def writeJournalVersion {Items : Type} (fl : Floats) (bfmt : BuiltinFormat) (s : Shard Items)
    (ag : Agent) (R r : Int) (version : Int) (hash : String) (hashTag : Int) (count : Nat) :
    Option (BuiltinWrite fl) := do
  let time ← bucketTime s R r
  pure (BuiltinWrite.topCounter R r
    (ag.AggKey time bfmt.BuiltinMetricIDJournalVersions
      (keysOf [0, ag.componentTag, 0, 0, 0, i32 (u32 version), hashTag])) hash count)

/-- The method `Shard.addBuiltInsHeartbeatsLocked(resolutionShard, nowUnix, count)` for the
bucket at `CurrentBuckets[R][r]`; `commit` is `build.Commit()`. -/
def addBuiltInsHeartbeatsLocked {Items : Type} (fl : Floats) (fo : FloatOps fl)
    (bfmt : BuiltinFormat) (commit : String) (s : Shard Items) (ag : Agent) (R r : Int)
    (nowUnix : Nat) (count : Nat) : Option (List (BuiltinWrite fl)) := do
  let uptimeSec := fo.ofInt (sub32 nowUnix ag.startTimestamp)
  let time ← bucketTime s R r
  pure [BuiltinWrite.topValue R r
      (ag.AggKey time bfmt.BuiltinMetricIDHeartbeatVersion
        (keysOf [0, ag.componentTag, ag.heartBeatEventType])) commit uptimeSec count,
    BuiltinWrite.topValue R r
      (ag.AggKey time bfmt.BuiltinMetricIDHeartbeatArgs
        (keysOf [0, ag.componentTag, ag.heartBeatEventType, ag.argsHash, 0, 0, 0, 0, 0,
          ag.argsLen])) ag.args uptimeSec count]

/-- Lines 295-303: the loop over `BuiltInItemValues`, for the bucket pointer `p` read from
`CurrentBuckets[1][0]`: the entries afterwards and the updates performed.  Using a nil bucket is
a panic. -/
def drainBuiltIns (fl : Floats) (fo : FloatOps fl) {Items : Type}
    (p : Option (MetricsBucket Items)) :
    List (Key × ItemValue fl) → Option (List (Key × ItemValue fl) × List (BuiltinWrite fl))
  | [] => some ([], [])
  | v :: rest =>
    if fo.lt fl.zero v.2.Counter then
      match p with
      | none => none
      | some _ =>
        match drainBuiltIns fl fo p rest with
        | none => none
        | some (entries, ws) =>
          some ((v.1, zeroItemValue fl) :: entries, BuiltinWrite.mergeTail 1 0 v.1 v.2 :: ws)
    else
      match drainBuiltIns fl fo p rest with
      | none => none
      | some (entries, ws) => some (v :: entries, ws)

/-- Lines 319-341: the journal-version step while `resolutionShard` is `CurrentBuckets[1][0]`:
the shard fields afterwards and the updates performed. -/
def journalVersionStep {Items : Type} (fl : Floats) (bfmt : BuiltinFormat) (s : Shard Items)
    (b : ShardBuiltins fl) (ag : Agent) (metricStorage : Option (Int × String)) :
    Option (ShardBuiltins fl × List (BuiltinWrite fl)) :=
  match metricStorage with
  | none => some (b, [])
  | some (metricJournalVersion, metricJournalHash) =>
    let metricJournalHashTag := journalHashTag metricJournalHash
    if metricJournalHash ≠ b.currentJournalHash then do
      let ws ←
        if b.currentJournalHashSeconds ≠ 0 then do
          let w ← writeJournalVersion fl bfmt s ag 1 0 b.currentJournalVersion
            b.currentJournalHash b.currentJournalHashTag b.currentJournalHashSeconds
          pure [w]
        else pure []
      let w ← writeJournalVersion fl bfmt s ag 1 0 metricJournalVersion metricJournalHash
        metricJournalHashTag 1
      pure ({ b with
          currentJournalHashSeconds := 0
          currentJournalVersion := metricJournalVersion
          currentJournalHash := metricJournalHash
          currentJournalHashTag := metricJournalHashTag }, ws ++ [w])
    else
      some ({ b with currentJournalHashSeconds := incrSeconds b.currentJournalHashSeconds }, [])

/-- The method `Shard.addBuiltInsLocked(nowUnix)`: the shard fields and the agent afterwards and
the bucket updates performed, in order. -/
def addBuiltInsLocked {Items : Type} (fl : Floats) (fo : FloatOps fl) (bfmt : BuiltinFormat)
    (commit : String) (s : Shard Items) (b : ShardBuiltins fl) (ag : Agent) (nowUnix : Nat)
    (inp : TickInput) : Option (ShardBuiltins fl × Agent × List (BuiltinWrite fl)) := do
  let p ← indexBuckets s.CurrentBuckets 1 0
  let (entries, ws) ← drainBuiltIns fl fo p b.BuiltInItemValues
  let b := { b with BuiltInItemValues := entries }
  if b.ShardNum ≠ 0 then pure (b, ag, ws)
  else
    let (ag, ws) ←
      if ag.heartBeatEventType ≠ bfmt.TagValueIDHeartbeatEventHeartbeat then do
        let hs ← addBuiltInsHeartbeatsLocked fl fo bfmt commit s ag 1 0 nowUnix 1
        pure ({ ag with heartBeatEventType := bfmt.TagValueIDHeartbeatEventHeartbeat }, ws ++ hs)
      else pure (ag, ws)
    let (b, js) ← journalVersionStep fl bfmt s b ag inp.metricStorage
    let ws := ws ++ js
    let hb := ag.heartBeatSecondBucket
    let _ ← indexBuckets s.CurrentBuckets 60 hb
    let userTime := fo.div (fo.ofInt (inp.rUsageUtime - ag.rUsageUtime)) (fo.ofInt 1000000000)
    let sysTime := fo.div (fo.ofInt (inp.rUsageStime - ag.rUsageStime)) (fo.ofInt 1000000000)
    let ag := { ag with rUsageUtime := inp.rUsageUtime, rUsageStime := inp.rUsageStime }
    let time ← bucketTime s 60 hb
    let ws := ws ++ [
      BuiltinWrite.tailValue 60 hb
        (ag.AggKey time bfmt.BuiltinMetricIDUsageCPU
          (keysOf [0, ag.componentTag, bfmt.TagValueIDCPUUsageUser])) userTime 1,
      BuiltinWrite.tailValue 60 hb
        (ag.AggKey time bfmt.BuiltinMetricIDUsageCPU
          (keysOf [0, ag.componentTag, bfmt.TagValueIDCPUUsageSys])) sysTime 1]
    if nowUnix % 60 ≠ 0 then pure (b, ag, ws)
    else
      let (b, ws) ←
        if b.currentJournalHashSeconds ≠ 0 then do
          let w ← writeJournalVersion fl bfmt s ag 60 hb b.currentJournalVersion
            b.currentJournalHash b.currentJournalHashTag b.currentJournalHashSeconds
          pure ({ b with currentJournalHashSeconds := 0 }, ws ++ [w])
        else pure (b, ws)
      let rss : fl.F64 :=
        match inp.memStatRes with
        | some res => fo.ofInt res
        | none => fl.zero
      let ws := ws ++ [
        BuiltinWrite.tailValue 60 hb
          (ag.AggKey time bfmt.BuiltinMetricIDUsageMemory (keysOf [0, ag.componentTag])) rss 60]
      let hs ← addBuiltInsHeartbeatsLocked fl fo bfmt commit s ag 60 hb nowUnix 60
      pure (b, ag, ws ++ hs)

/-- A run of `addBuiltInsLocked`, one per second: the lattice at that moment, the time and what
the run obtains from outside. -/
structure Tick (Items : Type) where
  s : Shard Items
  nowUnix : Nat
  inp : TickInput

/-- Successive runs of `addBuiltInsLocked` on one shard: the shard fields and the agent after
the last run, and the updates of each run. -/
def runTicks {Items : Type} (fl : Floats) (fo : FloatOps fl) (bfmt : BuiltinFormat)
    (commit : String) (b : ShardBuiltins fl) (ag : Agent) :
    List (Tick Items) → Option (ShardBuiltins fl × Agent × List (List (BuiltinWrite fl)))
  | [] => some (b, ag, [])
  | t :: rest =>
    match addBuiltInsLocked fl fo bfmt commit t.s b ag t.nowUnix t.inp with
    | none => none
    | some (b1, ag1, ws) =>
      match runTicks fl fo bfmt commit b1 ag1 rest with
      | none => none
      | some (b2, ag2, wss) => some (b2, ag2, ws :: wss)

/-- The journal-version rows among the updates of a run: the `topCounter` updates, which only
the closure `writeJournalVersion` performs. -/
def journalRows {fl : Floats} (ws : List (BuiltinWrite fl)) : List (BuiltinWrite fl) :=
  ws.filter fun
    | BuiltinWrite.topCounter _ _ _ _ _ => true
    | _ => false

/-- The counts of the journal-version rows among the updates of a run. -/
def journalCounts {fl : Floats} (ws : List (BuiltinWrite fl)) : List Nat :=
  ws.filterMap fun
    | BuiltinWrite.topCounter _ _ _ _ count => some count
    | _ => none

/-- The heartbeat rows with the given count among the updates of a run: the `topValue` updates,
which only `addBuiltInsHeartbeatsLocked` performs. -/
def heartbeatRows {fl : Floats} (count : Nat) (ws : List (BuiltinWrite fl)) :
    List (BuiltinWrite fl) :=
  ws.filter fun
    | BuiltinWrite.topValue _ _ _ _ _ c => c == count
    | _ => false

/-- The merges into a tail among the updates of a run. -/
def tailMerges {fl : Floats} (ws : List (BuiltinWrite fl)) : List (BuiltinWrite fl) :=
  ws.filter fun
    | BuiltinWrite.mergeTail _ _ _ _ => true
    | _ => false

/-- The journal-version row for a version, hash and hash tag with a count, in the bucket
`CurrentBuckets[R][r]` whose time is `time`. -/
def journalVersionRow (fl : Floats) (bfmt : BuiltinFormat) (ag : Agent) (R r : Int) (time : Nat)
    (version : Int) (hash : String) (hashTag : Int) (count : Nat) : BuiltinWrite fl :=
  BuiltinWrite.topCounter R r
    (ag.AggKey time bfmt.BuiltinMetricIDJournalVersions
      (keysOf [0, ag.componentTag, 0, 0, 0, i32 (u32 version), hashTag])) hash count

/-- The two heartbeat rows for an event type with a count, in the bucket `CurrentBuckets[R][r]`
whose time is `time`. -/
def heartbeatPair (fl : Floats) (fo : FloatOps fl) (bfmt : BuiltinFormat) (commit : String)
    (ag : Agent) (eventType : Int) (R r : Int) (time : Nat) (nowUnix : Nat) (count : Nat) :
    List (BuiltinWrite fl) :=
  [BuiltinWrite.topValue R r
      (ag.AggKey time bfmt.BuiltinMetricIDHeartbeatVersion
        (keysOf [0, ag.componentTag, eventType])) commit
      (fo.ofInt (sub32 nowUnix ag.startTimestamp)) count,
    BuiltinWrite.topValue R r
      (ag.AggKey time bfmt.BuiltinMetricIDHeartbeatArgs
        (keysOf [0, ag.componentTag, eventType, ag.argsHash, 0, 0, 0, 0, 0, ag.argsLen]))
      ag.args (fo.ofInt (sub32 nowUnix ag.startTimestamp)) count]

/-! ## The pool of unique-value buffers (agent) -/

/-- A slice `[]int64`: the backing array from the start of the slice up to its capacity, and
the length of the slice. -/
structure Int64Slice where
  array : List Int
  len : Nat
deriving DecidableEq, Repr

/-- The nil slice, the element of a fresh `make([][]int64, n)`. -/
def Int64Slice.nil : Int64Slice := ⟨[], 0⟩

/-- The reslice `s[:0]`: same backing array, length zero. -/
def Int64Slice.truncate (s : Int64Slice) : Int64Slice := { s with len := 0 }

/-- The method `Shard.getUniqueValuesCache(notSkippedShards)` on the pool `uniqueValuePool`:
the returned buffer and the pool afterwards; `none` is the panic of `make` on a negative
length. -/
def getUniqueValuesCache (uniqueValuePool : List (List Int64Slice)) (notSkippedShards : Int) :
    Option (List Int64Slice × List (List Int64Slice)) :=
  let l := uniqueValuePool.length
  let (uniqueValues, uniqueValuePool) :=
    if l ≠ 0 then (uniqueValuePool.getD (l - 1) [], uniqueValuePool.take (l - 1))
    else (([] : List Int64Slice), uniqueValuePool)
  if (uniqueValues.length : Int) ≠ notSkippedShards then
    if notSkippedShards < 0 then none
    else some (List.replicate notSkippedShards.toNat Int64Slice.nil, uniqueValuePool)
  else some (uniqueValues.map Int64Slice.truncate, uniqueValuePool)

/-- The method `Shard.putUniqueValuesCache(uniqueValues)`: the pool afterwards. -/
def putUniqueValuesCache (uniqueValuePool : List (List Int64Slice))
    (uniqueValues : List Int64Slice) : List (List Int64Slice) :=
  uniqueValuePool ++ [uniqueValues]

/-! ## The environment file (package `env`) -/

/-- The record `env.Env`. -/
structure Env where
  Hostname : String
  EnvT : String
  Group : String
  DC : String
  Region : String
  Cluster : String
  Owner : String
deriving DecidableEq, Repr

/-- The zero value `Env{}`. -/
def Env.empty : Env := ⟨"", "", "", "", "", "", ""⟩

/-- The record `env.Loader`, without its lock. -/
structure Loader where
  env : Env
deriving DecidableEq, Repr

/-- The method `Loader.Load()`. -/
def Loader.Load (l : Loader) : Env := l.env

/-- What the operating system and the libraries answer to the calls made by `ReadEnvFile` and
`ListenEnvFile`; an error is its message, `none` is the nil error.
* `Open`: the error of `os.Open(filePath)`
* `ReadAll`: the result of `io.ReadAll` on the opened file
* `Unmarshal`: the result of `yaml.Unmarshal(data, &env)` for `env` initially `Env{}`
* `NewWatcher`: the error of `fsnotify.NewWatcher()`
* `WatcherAdd`: the error of `w.Add(filePath)` -/
structure EnvOutside where
  Open : String → Option String
  ReadAll : String → Except String (List Nat)
  Unmarshal : List Nat → Except String Env
  NewWatcher : Option String
  WatcherAdd : String → Option String

/-- The function `ReadEnvFile(filePath)`: the `Env` and the error it returns. -/
def ReadEnvFile (o : EnvOutside) (filePath : String) : Env × Option String :=
  match o.Open filePath with
  | some err => (Env.empty, some ("failed to open file: " ++ err))
  | none =>
    match o.ReadAll filePath with
    | Except.error err => (Env.empty, some ("failed to read env file: " ++ err))
    | Except.ok data =>
      match o.Unmarshal data with
      | Except.error err => (Env.empty, some ("failed to unmarshal env: " ++ err))
      | Except.ok env => (env, none)

/-- The function `ListenEnvFile(filePath)` up to its return: the loader as returned and the
error returned.  The watching goroutine, started only on the path without error, and the close
function are left out. -/
def ListenEnvFile (o : EnvOutside) (filePath : String) : Loader × Option String :=
  let l : Loader := ⟨Env.empty⟩
  if filePath = "" then (l, none)
  else
    let l : Loader := { l with env := (ReadEnvFile o filePath).1 }
    match o.NewWatcher with
    | some err => (l, some err)
    | none =>
      match o.WatcherAdd filePath with
      | some err => (l, some err)
      | none => (l, none)

/-! ## Classification and budget in `RowDataMarshalAppendPositions` (aggregator) -/

/-- The record `data_model.SamplingMultiItemPair` as the loop fills it. -/
structure SamplingMultiItemPair (fl : Floats) (w : Wire fl) where
  Key : Key
  Item : MultiItem fl w
  WhaleWeight : fl.F64
  Size : Int
  MetricID : Int
  BucketTs : Nat

/-- Methods of `data_model.MultiItem` and `data_model.MultiValue` that are not part of the
sources at hand: `MultiValue.Empty`, `MultiItem.FinishStringTop` (which changes the item in
place and returns the whale weight) and `MultiItem.RowBinarySizeEstimate`. -/
structure ItemOps (fl : Floats) (w : Wire fl) where
  Empty : MultiValue fl w → Bool
  FinishStringTop : MultiItem fl w → Int → MultiItem fl w × fl.F64
  RowBinarySizeEstimate : MultiItem fl w → Int

/-- The variables the classification loop works on: the encoder state, the map `insertSizes`,
the pairs handed to `sampler.Add` and the pairs handed to `samplerStat.Keep`, in order. -/
structure MarshalState (fl : Floats) (w : Wire fl) where
  res : List Nat
  metricCache : metricIndexCache
  usedTimestamps : Option (Finset Nat)
  insertSizes : Nat → insertSize
  samplerAdded : List (SamplingMultiItemPair fl w)
  samplerStatKept : List (SamplingMultiItemPair fl w)

/-- Lines 381-418: the body of the loop over the items of a bucket, for the key `k` and the item
`item0` of a bucket with time `bTime`; `is` is the size record of the bucket. -/
def marshalItem (fmt : Format) (bf : BadgeFormat) (fl : Floats) (fo : FloatOps fl) (w : Wire fl)
    (ops : ItemOps fl w) (StringTopCountInsert : Int) (bTime : Nat) (st : MarshalState fl w)
    (is : insertSize) (k : Key) (item0 : MultiItem fl w) :
    Option (MarshalState fl w × insertSize) := do
  let (item, whaleWeight) := ops.FinishStringTop item0 StringTopCountInsert
  let resPos := st.res.length
  let (res, metricCache, usedTimestamps) ←
    appendMultiBadge fmt bf fl w st.res k item st.metricCache st.usedTimestamps
  let is : insertSize := { is with builtin := is.builtin + ((res.length : Int) - resPos) }
  let ingestionStatus : Bool := decide (k.Metric = fmt.BuiltinMetricIDIngestionStatus)
  let hardwareMetric : Bool := fmt.HardwareMetric k.Metric
  if k.Metric < 0 ∧ (!ingestionStatus && !hardwareMetric) = true then do
    let (res, metricCache, usedTimestamps, insertSizes) ←
      insertItem fmt fl w ops.Empty res metricCache usedTimestamps st.insertSizes k item fo.one
        bTime
    pure ({ res := res, metricCache := metricCache, usedTimestamps := usedTimestamps,
            insertSizes := insertSizes, samplerAdded := st.samplerAdded,
            samplerStatKept := st.samplerStatKept ++
              [⟨k, item, whaleWeight, ops.RowBinarySizeEstimate item, k.Metric, bTime⟩] }, is)
  else
    let accountMetric : Int :=
      if k.Metric < 0 ∧ (ingestionStatus = true ∧ k.Keys 1 ≠ 0) then k.Keys 1 else k.Metric
    let sz := ops.RowBinarySizeEstimate item
    pure ({ res := res, metricCache := metricCache, usedTimestamps := usedTimestamps,
            insertSizes := st.insertSizes,
            samplerAdded := st.samplerAdded ++
              [⟨k, item, whaleWeight, sz, accountMetric, bTime⟩],
            samplerStatKept := st.samplerStatKept }, is)

/-- The fields of `aggregatorBucket` read by `RowDataMarshalAppendPositions`; each shard is the
list of the entries of its map `multiItems` in iteration order. -/
structure aggregatorBucket (fl : Floats) (w : Wire fl) where
  time : Nat
  shards : List (List (Key × MultiItem fl w))
  contributorsOriginal : ItemValue fl
  contributorsSpare : ItemValue fl

/-- Lines 377-422: the classification loop over the buckets. -/
def marshalBuckets (fmt : Format) (bf : BadgeFormat) (fl : Floats) (fo : FloatOps fl)
    (w : Wire fl) (ops : ItemOps fl w) (StringTopCountInsert : Int) (st : MarshalState fl w)
    (buckets : List (aggregatorBucket fl w)) : Option (MarshalState fl w) :=
  buckets.foldlM
    (fun (st : MarshalState fl w) (b : aggregatorBucket fl w) => do
      let (st, is) ← b.shards.flatten.foldlM
        (fun (acc : MarshalState fl w × insertSize) (e : Key × MultiItem fl w) =>
          marshalItem fmt bf fl fo w ops StringTopCountInsert b.time acc.1 acc.2 e.1 e.2)
        (st, (⟨0, 0, 0, 0, 0, 0⟩ : insertSize))
      pure { st with insertSizes := addSizes st.insertSizes b.time is })
    st

/-- Wrap-around of a 64-bit signed integer (`int` and `int64` arithmetic). -/
def wrap64 (x : Int) : Int := (x + 2 ^ 63) % 2 ^ 64 - 2 ^ 63

/-- Lines 428-431: the variable `numContributors` after the loop over the buckets. -/
def numContributors (fl : Floats) (fo : FloatOps fl) {w : Wire fl}
    (buckets : List (aggregatorBucket fl w)) : Int :=
  buckets.foldl
    (fun n b =>
      wrap64 (n + fo.toInt (fo.add b.contributorsOriginal.Counter b.contributorsSpare.Counter)))
    0

/-- Line 432: the budget `remainingBudget` passed to `sampler.Run`; `InsertBudgetFixed` is the
constant of `data_model`, `InsertBudget` the field of the configuration. -/
def remainingBudget (fl : Floats) (fo : FloatOps fl) {w : Wire fl} (InsertBudgetFixed : Int)
    (InsertBudget : Int) (buckets : List (aggregatorBucket fl w)) : Int :=
  wrap64 (InsertBudgetFixed + wrap64 (InsertBudget * numContributors fl fo buckets))

/-- The budget as the specification derives it: the fixed part plus the budget per contributor
times the sum over the buckets of the contributor counters. -/
def budgetSpec (fl : Floats) (fo : FloatOps fl) {w : Wire fl} (InsertBudgetFixed : Int)
    (InsertBudget : Int) (buckets : List (aggregatorBucket fl w)) : Int :=
  InsertBudgetFixed + InsertBudget *
    (buckets.map fun b =>
      fo.toInt (fo.add b.contributorsOriginal.Counter b.contributorsSpare.Counter)).sum

/-! ## The sampler hand-over, the budget and the hash tag as the specification describes them -/

/-- The contribution of a bucket to `numContributors`. -/
def bucketContributors (fl : Floats) (fo : FloatOps fl) {w : Wire fl}
    (b : aggregatorBucket fl w) : Int :=
  fo.toInt (fo.add b.contributorsOriginal.Counter b.contributorsSpare.Counter)

/-- The integer is in the range of `int64` (and of `int` on a 64-bit platform). -/
def inInt64 (x : Int) : Prop := -2 ^ 63 ≤ x ∧ x < 2 ^ 63

instance inInt64.decidable (x : Int) : Decidable (inInt64 x) :=
  inferInstanceAs (Decidable (-2 ^ 63 ≤ x ∧ x < 2 ^ 63))

/-- The classification of the specification: a candidate is kept unconditionally when its metric
id is negative and it is neither an ingestion-status row nor a hardware metric. -/
def keptUnconditionally (fmt : Format) (k : Key) : Bool :=
  decide (k.Metric < 0) && (!decide (k.Metric = fmt.BuiltinMetricIDIngestionStatus) &&
    !fmt.HardwareMetric k.Metric)

/-- The accounting metric of the specification: an ingestion-status row with `tags[1] != 0` is
charged to `tags[1]`, every other row to its own metric. -/
def accountMetric (fmt : Format) (k : Key) : Int :=
  if k.Metric = fmt.BuiltinMetricIDIngestionStatus ∧ k.Keys 1 ≠ 0 then k.Keys 1 else k.Metric

/-- The pair built by the loop for an entry of a bucket with time `bTime`, charged to
`metricID` of its key: the key, the item as `FinishStringTop` left it, its whale weight and its
size estimate. -/
def samplerPair {fl : Floats} {w : Wire fl} (ops : ItemOps fl w)
    (StringTopCountInsert : Int) (bTime : Nat) (metricID : Key → Int)
    (e : Key × MultiItem fl w) : SamplingMultiItemPair fl w :=
  ⟨e.1, (ops.FinishStringTop e.2 StringTopCountInsert).1,
    (ops.FinishStringTop e.2 StringTopCountInsert).2,
    ops.RowBinarySizeEstimate (ops.FinishStringTop e.2 StringTopCountInsert).1,
    metricID e.1, bTime⟩

/-- The big-endian reading of the first four bytes as an `int32`, as the specification words
it (`i32::from_be_bytes`). -/
def beInt32 (b : List Nat) : Int :=
  i32 (b.getD 0 0 * 2 ^ 24 + b.getD 1 0 * 2 ^ 16 + b.getD 2 0 * 2 ^ 8 + b.getD 3 0)

/-! ## The updates of a run of `addBuiltInsLocked` as the specification describes them -/

/-- The entry of `BuiltInItemValues` after the drain: reset when its counter is `> 0`. -/
def drainedEntry (fl : Floats) (fo : FloatOps fl) (v : Key × ItemValue fl) : Key × ItemValue fl :=
  if fo.lt fl.zero v.2.Counter then (v.1, zeroItemValue fl) else v

/-- The merges of the drain: one for each entry whose counter is `> 0`, under the entry's key,
into the bucket `CurrentBuckets[1][0]`. -/
def drainMerges (fl : Floats) (fo : FloatOps fl) (vs : List (Key × ItemValue fl)) :
    List (BuiltinWrite fl) :=
  (vs.filter fun v => fo.lt fl.zero v.2.Counter).map fun v => BuiltinWrite.mergeTail 1 0 v.1 v.2

/-- The start event: the two heartbeat rows with count `1` in the bucket `CurrentBuckets[1][0]`
when the event type of the agent is not yet `heartbeat`. -/
def startRows (fl : Floats) (fo : FloatOps fl) (bfmt : BuiltinFormat) (commit : String)
    (ag : Agent) (time1 : Nat) (nowUnix : Nat) : List (BuiltinWrite fl) :=
  if ag.heartBeatEventType ≠ bfmt.TagValueIDHeartbeatEventHeartbeat then
    heartbeatPair fl fo bfmt commit ag ag.heartBeatEventType 1 0 time1 nowUnix 1
  else []

/-- The journal version on a run: when the hash changed, the pending seconds of the old hash
are written as one row and the new hash is written with count `1`; when it did not, one more
second is pending.  Without metric storage nothing happens. -/
def journalOnChange (fl : Floats) (bfmt : BuiltinFormat) (ag : Agent) (time1 : Nat)
    (b : ShardBuiltins fl) (metricStorage : Option (Int × String)) :
    ShardBuiltins fl × List (BuiltinWrite fl) :=
  match metricStorage with
  | none => (b, [])
  | some (version, hash) =>
    if hash ≠ b.currentJournalHash then
      ({ b with
          currentJournalHashSeconds := 0
          currentJournalVersion := version
          currentJournalHash := hash
          currentJournalHashTag := journalHashTag hash },
        (if b.currentJournalHashSeconds ≠ 0 then
          [journalVersionRow fl bfmt ag 1 0 time1 b.currentJournalVersion b.currentJournalHash
            b.currentJournalHashTag b.currentJournalHashSeconds]
        else []) ++
        [journalVersionRow fl bfmt ag 1 0 time1 version hash (journalHashTag hash) 1])
    else ({ b with currentJournalHashSeconds := incrSeconds b.currentJournalHashSeconds }, [])

/-- The journal version at a minute mark: the pending seconds are written as one row, which
goes to the bucket `CurrentBuckets[60][heartBeatSecondBucket]`. -/
def journalOnMinute (fl : Floats) (bfmt : BuiltinFormat) (ag : Agent) (time60 : Nat)
    (b : ShardBuiltins fl) (nowUnix : Nat) : ShardBuiltins fl × List (BuiltinWrite fl) :=
  if nowUnix % 60 = 0 ∧ b.currentJournalHashSeconds ≠ 0 then
    ({ b with currentJournalHashSeconds := 0 },
      [journalVersionRow fl bfmt ag 60 ag.heartBeatSecondBucket time60 b.currentJournalVersion
        b.currentJournalHash b.currentJournalHashTag b.currentJournalHashSeconds])
  else (b, [])

/-- The two CPU usage rows of a run. -/
def cpuRows (fl : Floats) (fo : FloatOps fl) (bfmt : BuiltinFormat) (ag : Agent)
    (time60 : Nat) (inp : TickInput) : List (BuiltinWrite fl) :=
  [BuiltinWrite.tailValue 60 ag.heartBeatSecondBucket
      (ag.AggKey time60 bfmt.BuiltinMetricIDUsageCPU
        (keysOf [0, ag.componentTag, bfmt.TagValueIDCPUUsageUser]))
      (fo.div (fo.ofInt (inp.rUsageUtime - ag.rUsageUtime)) (fo.ofInt 1000000000)) 1,
    BuiltinWrite.tailValue 60 ag.heartBeatSecondBucket
      (ag.AggKey time60 bfmt.BuiltinMetricIDUsageCPU
        (keysOf [0, ag.componentTag, bfmt.TagValueIDCPUUsageSys]))
      (fo.div (fo.ofInt (inp.rUsageStime - ag.rUsageStime)) (fo.ofInt 1000000000)) 1]

/-- The memory row and the two heartbeat rows with count `60` of a run at a minute mark. -/
def minuteRows (fl : Floats) (fo : FloatOps fl) (bfmt : BuiltinFormat) (commit : String)
    (ag : Agent) (time60 : Nat) (nowUnix : Nat) (inp : TickInput) : List (BuiltinWrite fl) :=
  if nowUnix % 60 = 0 then
    BuiltinWrite.tailValue 60 ag.heartBeatSecondBucket
      (ag.AggKey time60 bfmt.BuiltinMetricIDUsageMemory (keysOf [0, ag.componentTag]))
      (match inp.memStatRes with
        | some res => fo.ofInt res
        | none => fl.zero) 60 ::
    heartbeatPair fl fo bfmt commit ag bfmt.TagValueIDHeartbeatEventHeartbeat 60
      ag.heartBeatSecondBucket time60 nowUnix 60
  else []

/-- The agent after a run on shard `0`. -/
def agentAfter (bfmt : BuiltinFormat) (ag : Agent) (inp : TickInput) : Agent :=
  { ag with
    heartBeatEventType := bfmt.TagValueIDHeartbeatEventHeartbeat
    rUsageUtime := inp.rUsageUtime
    rUsageStime := inp.rUsageStime }

/-- The shard fields after a run on shard `0`. -/
def shardAfter (fl : Floats) (fo : FloatOps fl) (bfmt : BuiltinFormat) (ag : Agent)
    (time1 time60 : Nat) (b : ShardBuiltins fl) (nowUnix : Nat) (inp : TickInput) :
    ShardBuiltins fl :=
  (journalOnMinute fl bfmt ag time60
    (journalOnChange fl bfmt ag time1
      { b with BuiltInItemValues := b.BuiltInItemValues.map (drainedEntry fl fo) }
      inp.metricStorage).1 nowUnix).1

/-- The updates of a run on shard `0`, in order. -/
def updatesOfRun (fl : Floats) (fo : FloatOps fl) (bfmt : BuiltinFormat) (commit : String)
    (ag : Agent) (time1 time60 : Nat) (b : ShardBuiltins fl) (nowUnix : Nat) (inp : TickInput) :
    List (BuiltinWrite fl) :=
  drainMerges fl fo b.BuiltInItemValues ++ startRows fl fo bfmt commit ag time1 nowUnix ++
    (journalOnChange fl bfmt ag time1 b inp.metricStorage).2 ++
    cpuRows fl fo bfmt ag time60 inp ++
    (journalOnMinute fl bfmt ag time60
      (journalOnChange fl bfmt ag time1 b inp.metricStorage).1 nowUnix).2 ++
    minuteRows fl fo bfmt commit ag time60 nowUnix inp

/-! ## The size record of `insertItem` as the specification describes it -/

/-- The sum of the six fields of a size record. -/
def insertSize.total (is : insertSize) : Int :=
  is.counters + is.values + is.percentiles + is.uniques + is.stringTops + is.builtin

/-- The size record of one `insertItem` call as the specification describes it, for a tail row
of `tailBytes` bytes and top rows of `topBytes` bytes: everything is `builtin` for a negative
metric id; otherwise the tail bytes go to `percentiles` when the tail has a digest, else to
`uniques` when its HLL is not empty, else to `values` when its value is set, else to `counters`,
and the top bytes go to `stringTops`. -/
def sizeRecord {fl : Floats} (w : Wire fl) (k : Key) (item : MultiItem fl w)
    (tailBytes topBytes : Int) : insertSize :=
  if k.Metric < 0 then ⟨0, 0, 0, 0, 0, tailBytes + topBytes⟩
  else if item.Tail.ValueTDigest.isSome then ⟨0, 0, tailBytes, 0, topBytes, 0⟩
  else if w.ItemsCount item.Tail.HLL ≠ 0 then ⟨0, 0, 0, tailBytes, topBytes, 0⟩
  else if item.Tail.Value.ValueSet then ⟨0, tailBytes, 0, 0, topBytes, 0⟩
  else ⟨tailBytes, 0, 0, 0, topBytes, 0⟩

/-! ## The metadata of a metric and the bytes of a row -/

/-- The metadata `metricIndexCache.metric` finds for a metric id: the entry of
`format.BuiltinMetrics` when there is one, the journal's `GetMetaMetric` answer otherwise; `none`
for a metric in neither. -/
def metricMeta (fmt : Format) (journal : Int → Option MetricMetaValue) (m : Int) :
    Option MetricMetaValue :=
  match fmt.BuiltinMetrics m with
  | some bm => some bm
  | none => journal m

/-- The skip flags `(skip_max_host, skip_min_host, skip_sum_square)` in force when a row of
metric `m` is written with the cache `p`: the ingestion-status data for the ingestion-status
metric; the flags stored in the slot when `m` is the metric id the cache looked up last; the
metric's own flags from its metadata otherwise, all unset for a metric without metadata. -/
def flagsInForce (fmt : Format) (p : metricIndexCache) (m : Int) : Bool × Bool × Bool :=
  if m = fmt.BuiltinMetricIDIngestionStatus then
    (p.ingestionStatusData.lastMetricSkipMaxHost, p.ingestionStatusData.lastMetricSkipMinHost,
      p.ingestionStatusData.lastMetricSkipSumSquare)
  else if m = p.lastMetricID then
    (p.lastMetric.lastMetricSkipMaxHost, p.lastMetric.lastMetricSkipMinHost,
      p.lastMetric.lastMetricSkipSumSquare)
  else
    match metricMeta fmt p.journal m with
    | some mm => (mm.SkipMaxHost, mm.SkipMinHost, mm.SkipSumSquare)
    | none => (false, false, false)

/-- The 77 bytes of the key prefix of a row of key `k`, for the pre-key the cache reports for the
metric of the key: metric, pre-key, pre-key marker, timestamp and the 16 tags, each 32-bit field
little-endian. -/
def keyBytes (fmt : Format) (cache : metricIndexCache) (k : Key) : List Nat :=
  le32 (u32 k.Metric) ++
    le32 (if 0 ≤ (cache.getPrekeyIndex fmt k.Metric).1.1 then
      u32 ((k.tag (cache.getPrekeyIndex fmt k.Metric).1.1).getD 0) else 0) ++
    [if 0 ≤ (cache.getPrekeyIndex fmt k.Metric).1.1 then
      (if (cache.getPrekeyIndex fmt k.Metric).1.2 then 2 else 1) else 0] ++
    le32 k.Timestamp ++
    (List.ofFn fun i => le32 (u32 (k.Keys i))).flatten

/-- The bytes that follow the key prefix in a row written by `appendValueStat` for the item
value `v` under the string key `skey`, for the skip flags
`(skip_max_host, skip_min_host, skip_sum_square)` given: the five aggregates, the empty digest and
the empty unique state, the string key and the two host tuples. -/
def statBytes (fl : Floats) (w : Wire fl) (skey : String) (v : ItemValue fl)
    (flags : Bool × Bool × Bool) : List Nat :=
  (if v.ValueSet then
      aggregateBytes fl v.Counter v.ValueMin v.ValueMax v.ValueSum
        (zeroIfTrue fl v.ValueSumSquare flags.2.2)
    else aggregateBytes fl v.Counter fl.zero v.Counter fl.zero fl.zero) ++
    w.emptyCentroids ++ w.emptyUnique ++ w.string skey ++
    minHostTuple fl w v flags.2.1 ++ maxHostTuple fl w v v.Counter flags.1

/-! ## Concrete agents, buckets and files used to instantiate the theorems -/

/-- The further float operations over the integers, to go with `exactFloats`: exact comparison,
sum and integer quotient; the conversions are the identity. -/
def exactOps : FloatOps exactFloats where
  one := (1 : Int)
  lt := fun (a b : Int) => decide (a < b)
  add := fun (a b : Int) => a + b
  div := fun (a b : Int) => a / b
  ofInt := fun n => n
  toInt := fun (x : Int) => x

/-- Two buckets without items whose contributor counters are `3 + 2` and `4 + 0`. -/
def exampleBuckets : List (aggregatorBucket exactFloats exampleWire) :=
  [⟨1000, [], counterCell 3, counterCell 2⟩, ⟨940, [], counterCell 4, counterCell 0⟩]

/-- The environment file is read and parsed (`env: production`), and creating the file watcher
fails. -/
def watcherFails : EnvOutside where
  Open := fun _ => none
  ReadAll := fun _ => Except.ok [101]
  Unmarshal := fun _ => Except.ok ⟨"", "production", "", "", "", "", ""⟩
  NewWatcher := some "too many open files"
  WatcherAdd := fun _ => none

/-- The environment file cannot be opened; the watcher works. -/
def fileMissing : EnvOutside where
  Open := fun _ => some "no such file or directory"
  ReadAll := fun _ => Except.ok [101]
  Unmarshal := fun _ => Except.ok ⟨"", "production", "", "", "", "", ""⟩
  NewWatcher := none
  WatcherAdd := fun _ => none

/-- Item methods used to run the loop: `exampleEmpty`, a `FinishStringTop` that leaves the
item alone with whale weight `0`, and a size estimate of `100`. -/
def exampleOps : ItemOps exactFloats exampleWire where
  Empty := exampleEmpty
  FinishStringTop := fun item _ => (item, (0 : Int))
  RowBinarySizeEstimate := fun _ => 100

/-- A key of a built-in self metric, `-5`, that is neither the ingestion status (`-10`) nor a
hardware metric (`-1000`). -/
def selfKey : Key where
  Timestamp := 103
  Metric := -5
  Keys := fun i => if i.val = 1 then 7 else 0

/-- A key of the hardware metric `-1000`. -/
def hardwareKey : Key where
  Timestamp := 103
  Metric := -1000
  Keys := fun i => if i.val = 1 then 7 else 0

/-- The loop variables before the first item: empty buffer, fresh cache, nothing handed over. -/
def emptyState : MarshalState exactFloats exampleWire where
  res := []
  metricCache := makeMetricCache exampleFormat exampleJournal
  usedTimestamps := some ∅
  insertSizes := fun _ => ⟨0, 0, 0, 0, 0, 0⟩
  samplerAdded := []
  samplerStatKept := []

/-- Two buckets: the first with a user metric, a self metric, an ingestion-status row for
metric `7` and a hardware metric in two shards, the second with a self metric. -/
def exampleAggBuckets : List (aggregatorBucket exactFloats exampleWire) :=
  [⟨103, [[(exampleKey 103, exampleItem), (selfKey, exampleItem)],
      [(warnKey, exampleItem), (hardwareKey, exampleItem)]], counterCell 3, counterCell 2⟩,
    ⟨43, [[(selfKey, exampleItem)]], counterCell 4, counterCell 0⟩]

/-- Constants for the built-in metrics: negative pairwise different ids; the event type
`heartbeat` is `2` (the start event is `1`). -/
def exampleBuiltinFormat : BuiltinFormat where
  BuiltinMetricIDJournalVersions := -20
  BuiltinMetricIDUsageCPU := -21
  BuiltinMetricIDUsageMemory := -22
  BuiltinMetricIDHeartbeatVersion := -23
  BuiltinMetricIDHeartbeatArgs := -24
  TagValueIDHeartbeatEventHeartbeat := 2
  TagValueIDCPUUsageUser := 1
  TagValueIDCPUUsageSys := 2

/-- An agent that has not yet sent its start event (event type `1`), with component tag `4`,
started at time `50`, whose heartbeat second bucket is `7`. -/
def exampleAgent : Agent where
  heartBeatEventType := 1
  componentTag := 4
  startTimestamp := 50
  heartBeatSecondBucket := 7
  argsHash := 99
  argsLen := 3
  args := "-a"
  rUsageUtime := 0
  rUsageStime := 0
  AggKey := fun ts metric keys => ⟨ts, metric, keys⟩

/-- A lattice at time `now` with the one-second row and the sixty-second row filled. -/
def builtinShard (now : Nat) : Shard Unit where
  hardwareMetricResolutionResolved := 1
  CurrentBuckets := fun R =>
    if R.val = 1 then [some ⟨now, ()⟩]
    else if R.val = 60 then List.replicate 60 (some ⟨now / 60 * 60, ()⟩)
    else []
  NextBuckets := fun _ => []

/-- Shard fields of shard `0`: three built-in entries with counters `3`, `0` and `-2`, journal
version `5` with hash `0a0b0c0d`, nothing pending. -/
def exampleBuiltins : ShardBuiltins exactFloats where
  ShardNum := 0
  BuiltInItemValues := [(exampleKey 0, counterCell 3), (exampleKey 1, counterCell 0),
    (exampleKey 2, counterCell (-2))]
  currentJournalVersion := 5
  currentJournalHash := "0a0b0c0d"
  currentJournalHashTag := 168496141
  currentJournalHashSeconds := 0

/-- The run at time `now` that finds the journal at the given version and hash. -/
def exampleTick (now : Nat) (version : Int) (hash : String) : Tick Unit where
  s := builtinShard now
  nowUnix := now
  inp := ⟨some (version, hash), 0, 0, none⟩

/-- The runs at the times `start + 1, ..., start + n`, all finding the journal at version `5`
with hash `0a0b0c0d`. -/
def unchangedTicks (start n : Nat) : List (Tick Unit) :=
  (List.range n).map fun i => exampleTick (start + 1 + i) 5 "0a0b0c0d"

/-- A key of metric `77`, which neither `exampleFormat` nor any of the example journals knows. -/
def unknownKey : Key where
  Timestamp := 100
  Metric := 77
  Keys := fun i => if i.val = 0 then 1 else if i.val = 1 then 2 else 0

/-- An item whose only row is the tail with the value cell. -/
def valueItem : MultiItem exactFloats exampleWire where
  Top := []
  Tail := valueMulti
  SF := (1 : Int)

/-! ## Arithmetic of the machine conversions -/

theorem u32_of_lt {R : Int} (h0 : 0 ≤ R) (h1 : R < 2 ^ 32) : u32 R = R.toNat := by
  unfold u32
  rw [Int.emod_eq_of_lt h0 h1]

theorem u64_of_lt {R : Int} (h0 : 0 ≤ R) (h1 : R < 2 ^ 64) : u64 R = R.toNat := by
  unfold u64
  rw [Int.emod_eq_of_lt h0 h1]

theorem toInt_of_lt {x : Nat} (h : x < 2 ^ 63) : toInt x = (x : Int) := by
  unfold toInt
  have h1 : x % 2 ^ 64 = x := Nat.mod_eq_of_lt (by omega)
  rw [h1, if_pos h]

theorem mask_eq_mod (keyHash : Nat) : keyHash &&& 0xFFFFFFFF = keyHash % 2 ^ 32 := by
  have h := Nat.and_pow_two_sub_one_eq_mod keyHash 32
  norm_num at h
  simpa using h

theorem sub32_of_le {a b : Nat} (ha : a < 2 ^ 32) (hb : b ≤ a) : sub32 a b = a - b := by
  unfold sub32
  omega

/-- The fixed-point product for a resolution up to `2^32`, as a natural number. -/
theorem resolutionShardNumOf_nat (keyHash : Nat) {R : Int} (h1 : 1 < R) (h2 : R ≤ 2 ^ 32) :
    resolutionShardNumOf keyHash R = (((keyHash % 2 ^ 32) * R.toNat / 2 ^ 32 : Nat) : Int) := by
  unfold resolutionShardNumOf
  rw [if_pos h1, mask_eq_mod, u64_of_lt (by omega) (by omega), Nat.shiftRight_eq_div_pow]
  have hR : R.toNat ≤ 2 ^ 32 := by omega
  have hm : keyHash % 2 ^ 32 < 2 ^ 32 := Nat.mod_lt _ (by norm_num)
  have hprod : keyHash % 2 ^ 32 * R.toNat < 2 ^ 64 := by
    calc keyHash % 2 ^ 32 * R.toNat ≤ keyHash % 2 ^ 32 * 2 ^ 32 := Nat.mul_le_mul_left _ hR
      _ < 2 ^ 32 * 2 ^ 32 := Nat.mul_lt_mul_of_pos_right hm (by norm_num)
      _ = 2 ^ 64 := by norm_num
  rw [Nat.mod_eq_of_lt hprod]
  apply toInt_of_lt
  have : keyHash % 2 ^ 32 * R.toNat / 2 ^ 32 < 2 ^ 32 := by
    apply Nat.div_lt_of_lt_mul
    calc keyHash % 2 ^ 32 * R.toNat < 2 ^ 64 := hprod
      _ = 2 ^ 32 * 2 ^ 32 := by norm_num
  omega

/-- The rounding step for a resolution below `2^32`, as a natural number. -/
theorem roundTimestamp_nat {t : Nat} {R : Int} (h1 : 1 < R) (h2 : R < 2 ^ 32) (ht : t < 2 ^ 32) :
    roundTimestamp t R = some (t / R.toNat * R.toNat) := by
  unfold roundTimestamp
  rw [if_pos h1, u32_of_lt (by omega) h2]
  have hR : R.toNat ≠ 0 := by omega
  rw [if_neg hR]
  unfold mul32
  have hle : t / R.toNat * R.toNat ≤ t := Nat.div_mul_le_self t R.toNat
  rw [Nat.mod_eq_of_lt (by omega)]

/-! ## The resolution-shard index and the rounding step -/

/-- C4: for every key hash and every resolution `R > 1` (proved for every `R` up to `2^32`, which
covers every resolution the 61-row lattice can be indexed with), the resolution-shard index is
`floor(((keyHash mod 2^32) * R) / 2^32)`; hash `0x40000000` with `R = 5` gives `1`; for `R = 1`
the index is `0` for every hash. -/
theorem resolutionShardNumOf_fixed_point (keyHash : Nat) :
    (∀ R : Int, 1 < R → R ≤ 2 ^ 32 →
      resolutionShardNumOf keyHash R = ((keyHash % 2 ^ 32 : Nat) : Int) * R / 2 ^ 32) ∧
    resolutionShardNumOf 0x40000000 5 = 1 ∧
    resolutionShardNumOf keyHash 1 = 0 := by
  refine ⟨?_, ?_, ?_⟩
  · intro R h1 h2
    rw [resolutionShardNumOf_nat keyHash h1 h2]
    have hR : ((R.toNat : Nat) : Int) = R := Int.toNat_of_nonneg (by omega)
    rw [Int.ofNat_ediv, Int.ofNat_mul, hR]
    norm_num
  · rw [resolutionShardNumOf_nat 0x40000000 (by norm_num) (by norm_num)]
    decide
  · unfold resolutionShardNumOf
    rw [if_neg (by norm_num)]

/-- C5: for every resolution `R > 1` (below `2^32`, as every resolution is) and every `uint32`
timestamp `t`, the rounding step yields `(t / R) * R`, the largest multiple of `R` not exceeding
`t`, so `t - R < result <= t`; `t = 103`, `R = 5` gives `100`; for `R = 1` the timestamp is kept. -/
theorem roundTimestamp_largest_multiple (t : Nat) (ht : t < 2 ^ 32) :
    (∀ R : Int, 1 < R → R < 2 ^ 32 →
      ∃ ts : Nat, roundTimestamp t R = some ts ∧ ts = t / R.toNat * R.toNat ∧
        ts ≤ t ∧ t < ts + R.toNat ∧ R.toNat ∣ ts ∧
        ∀ m : Nat, R.toNat ∣ m → m ≤ t → m ≤ ts) ∧
    roundTimestamp 103 5 = some 100 ∧
    roundTimestamp t 1 = some t := by
  refine ⟨?_, ?_, ?_⟩
  · intro R h1 h2
    have hpos : 0 < R.toNat := by omega
    refine ⟨t / R.toNat * R.toNat, roundTimestamp_nat h1 h2 ht, rfl,
      Nat.div_mul_le_self t R.toNat, ?_, Dvd.intro_left _ rfl, ?_⟩
    · have := Nat.div_add_mod t R.toNat
      have hm := Nat.mod_lt t hpos
      rw [Nat.mul_comm] at this
      omega
    · rintro m ⟨c, rfl⟩ hm
      have hc : c ≤ t / R.toNat := by
        rw [Nat.le_div_iff_mul_le hpos, Nat.mul_comm]
        exact hm
      rw [Nat.mul_comm]
      exact Nat.mul_le_mul_right _ hc
  · rw [roundTimestamp_nat (by norm_num) (by norm_num) (by norm_num)]
    rfl
  · unfold roundTimestamp
    rw [if_neg (by norm_num)]

theorem indexBuckets_bounds {Items : Type} {lattice : Lattice Items} {R r : Int}
    {p : Option (MetricsBucket Items)} (h : indexBuckets lattice R r = some p) :
    0 ≤ R ∧ R < 61 := by
  unfold indexBuckets at h
  by_cases hR : 0 ≤ R ∧ R < 61
  · exact hR
  · rw [dif_neg hR] at h
    cases h

theorem roundTimestamp_zero {R : Int} (h0 : 0 ≤ R) (h1 : R < 2 ^ 32) :
    roundTimestamp 0 R = some 0 := by
  unfold roundTimestamp
  by_cases hR : R > 1
  · rw [if_pos hR, u32_of_lt h0 h1, if_neg (by omega)]
    simp [mul32]
  · rw [if_neg hR]

/-- C8: for every key hash and every resolution `2 <= R <= 60` the product
`(keyHash & 0xFFFFFFFF) * R` stays below `2^64` and the resolution-shard index `r` satisfies
`0 <= r < R`, so indexing a lattice whose row `R` has length `R` is never out of bounds. -/
theorem resolutionShardNumOf_in_bounds (keyHash : Nat) (R : Int) (h2 : 2 ≤ R) (h60 : R ≤ 60) :
    (keyHash &&& 0xFFFFFFFF) * u64 R < 2 ^ 64 ∧
    0 ≤ resolutionShardNumOf keyHash R ∧ resolutionShardNumOf keyHash R < R ∧
    ∀ (Items : Type) (lattice : Lattice Items),
      (∀ hR : R.toNat < 61, (lattice ⟨R.toNat, hR⟩).length = R.toNat) →
      (indexBuckets lattice R (resolutionShardNumOf keyHash R)).isSome = true := by
  have hm : keyHash % 2 ^ 32 < 2 ^ 32 := Nat.mod_lt _ (by norm_num)
  have hRn : R.toNat ≤ 60 := by omega
  have hRc : ((R.toNat : Nat) : Int) = R := Int.toNat_of_nonneg (by omega)
  have hidx : keyHash % 2 ^ 32 * R.toNat / 2 ^ 32 < R.toNat := by
    apply Nat.div_lt_of_lt_mul
    exact Nat.mul_lt_mul_of_pos_right hm (by omega)
  have hnat := resolutionShardNumOf_nat keyHash (show 1 < R by omega) (show R ≤ 2 ^ 32 by omega)
  refine ⟨?_, ?_, ?_, ?_⟩
  · have hu : u64 R = R.toNat := u64_of_lt (show 0 ≤ R by omega) (show R < 2 ^ 64 by omega)
    rw [mask_eq_mod, hu]
    calc keyHash % 2 ^ 32 * R.toNat ≤ keyHash % 2 ^ 32 * 60 := Nat.mul_le_mul_left _ hRn
      _ < 2 ^ 64 := by omega
  · rw [hnat]
    exact Int.ofNat_nonneg _
  · rw [hnat]
    omega
  · intro Items lattice hlen
    unfold indexBuckets
    rw [dif_pos (by omega), hnat, if_pos (Int.ofNat_nonneg _)]
    have hl := hlen (by omega)
    rw [Int.toNat_ofNat, List.getElem?_eq_getElem (by rw [hl]; exact hidx)]
    rfl

/-! ## Timestamp reconciliation -/

/-- C1: a key whose rounded timestamp `t` is non-zero, at most `current.time` and lags by more
than `BelieveTimestampWindow` is routed to the current bucket with its timestamp set to exactly
`current.time - BelieveTimestampWindow`; the `uint32` subtraction does not wrap, because the
window is then smaller than `current.time`. -/
theorem route_clamps_to_window {Items : Type} (fmt : Format) (dm : DataModel) (s : Shard Items)
    (key : Key) (keyHash : Nat) (metricInfo : Option MetricMetaValue)
    (cur : MetricsBucket Items) (t : Nat)
    (hround : roundTimestamp key.Timestamp (resolutionOf fmt s metricInfo) = some t)
    (hcur : indexBuckets s.CurrentBuckets (resolutionOf fmt s metricInfo)
      (resolutionShardNumOf keyHash (resolutionOf fmt s metricInfo)) = some (some cur))
    (hct : cur.Time < 2 ^ 32)
    (ht0 : t ≠ 0) (htle : t ≤ cur.Time) (hlag : cur.Time - t > dm.BelieveTimestampWindow) :
    resolutionShardFromHashLocked fmt dm s key keyHash metricInfo =
      some (some cur, { key with Timestamp := cur.Time - dm.BelieveTimestampWindow }) ∧
    dm.BelieveTimestampWindow < cur.Time ∧
    sub32 cur.Time dm.BelieveTimestampWindow = cur.Time - dm.BelieveTimestampWindow := by
  have hW : dm.BelieveTimestampWindow < cur.Time := by omega
  have hsub := sub32_of_le hct (Nat.le_of_lt hW)
  refine ⟨?_, hW, hsub⟩
  unfold resolutionShardFromHashLocked routeAtResolution
  rw [hround]
  simp only [hcur]
  rw [if_neg ht0, if_pos htle, hsub, if_pos ⟨hW, by omega⟩]

/-- C2: a key whose timestamp is `0` is, for every resolution and key hash, routed to the current
bucket `CurrentBuckets[R][r]` and gets that bucket's `Time` as its timestamp. -/
theorem route_zero_timestamp {Items : Type} (fmt : Format) (dm : DataModel) (s : Shard Items)
    (key : Key) (keyHash : Nat) (metricInfo : Option MetricMetaValue)
    (cur : MetricsBucket Items)
    (hzero : key.Timestamp = 0)
    (hcur : indexBuckets s.CurrentBuckets (resolutionOf fmt s metricInfo)
      (resolutionShardNumOf keyHash (resolutionOf fmt s metricInfo)) = some (some cur)) :
    resolutionShardFromHashLocked fmt dm s key keyHash metricInfo =
      some (some cur, { key with Timestamp := cur.Time }) := by
  have hb := indexBuckets_bounds hcur
  unfold resolutionShardFromHashLocked routeAtResolution
  rw [hzero, roundTimestamp_zero hb.1 (by omega)]
  simp only [hcur]
  rw [if_pos trivial]

/-- C3: a key whose rounded timestamp `t` is greater than `current.time` is routed to
`NextBuckets[R][r]` and keeps `t` as its timestamp, whatever the time of the next bucket is: a
future timestamp is never clamped down. -/
theorem route_future_timestamp {Items : Type} (fmt : Format) (dm : DataModel) (s : Shard Items)
    (key : Key) (keyHash : Nat) (metricInfo : Option MetricMetaValue)
    (cur : MetricsBucket Items) (nxt : Option (MetricsBucket Items)) (t : Nat)
    (hround : roundTimestamp key.Timestamp (resolutionOf fmt s metricInfo) = some t)
    (hcur : indexBuckets s.CurrentBuckets (resolutionOf fmt s metricInfo)
      (resolutionShardNumOf keyHash (resolutionOf fmt s metricInfo)) = some (some cur))
    (hnext : indexBuckets s.NextBuckets (resolutionOf fmt s metricInfo)
      (resolutionShardNumOf keyHash (resolutionOf fmt s metricInfo)) = some nxt)
    (hgt : cur.Time < t) :
    resolutionShardFromHashLocked fmt dm s key keyHash metricInfo =
      some (nxt, { key with Timestamp := t }) := by
  unfold resolutionShardFromHashLocked routeAtResolution
  rw [hround]
  simp only [hcur, hnext]
  rw [if_neg (by omega), if_neg (by omega)]

/-- C6: if `current.time % R = 0`, `BelieveTimestampWindow` is a whole number of minutes and `R`
divides `60`, then the router returns and the timestamp it leaves in the key is a multiple of
`R`, on every path (timestamp `0`, window clamp, kept rounded timestamp, next bucket). -/
theorem route_timestamp_multiple_of_resolution {Items : Type} (fmt : Format) (dm : DataModel)
    (s : Shard Items) (key : Key) (keyHash : Nat) (metricInfo : Option MetricMetaValue)
    (cur : MetricsBucket Items) (nxt : Option (MetricsBucket Items))
    (hkey : key.Timestamp < 2 ^ 32) (hct : cur.Time < 2 ^ 32)
    (hcur : indexBuckets s.CurrentBuckets (resolutionOf fmt s metricInfo)
      (resolutionShardNumOf keyHash (resolutionOf fmt s metricInfo)) = some (some cur))
    (hnext : indexBuckets s.NextBuckets (resolutionOf fmt s metricInfo)
      (resolutionShardNumOf keyHash (resolutionOf fmt s metricInfo)) = some nxt)
    (hlat : (cur.Time : Int) % resolutionOf fmt s metricInfo = 0)
    (hmin : 60 ∣ dm.BelieveTimestampWindow)
    (hdiv : resolutionOf fmt s metricInfo ∣ 60) :
    ∃ (b : Option (MetricsBucket Items)) (k : Key),
      resolutionShardFromHashLocked fmt dm s key keyHash metricInfo = some (b, k) ∧
      (k.Timestamp : Int) % resolutionOf fmt s metricInfo = 0 := by
  have hb := indexBuckets_bounds hcur
  generalize hR : resolutionOf fmt s metricInfo = R at *
  have hRc : ((R.toNat : Nat) : Int) = R := Int.toNat_of_nonneg hb.1
  have hn60 : R.toNat ∣ 60 := by
    have : ((R.toNat : Nat) : Int) ∣ ((60 : Nat) : Int) := by rw [hRc]; exact hdiv
    exact Int.natCast_dvd_natCast.mp this
  have hnW : R.toNat ∣ dm.BelieveTimestampWindow := Nat.dvd_trans hn60 hmin
  have hncur : R.toNat ∣ cur.Time := by
    have : ((R.toNat : Nat) : Int) ∣ ((cur.Time : Nat) : Int) := by
      rw [hRc]; exact Int.dvd_of_emod_eq_zero hlat
    exact Int.natCast_dvd_natCast.mp this
  have hfin : ∀ m : Nat, R.toNat ∣ m → (m : Int) % R = 0 := by
    intro m hm
    apply Int.emod_eq_zero_of_dvd
    rw [← hRc]
    exact Int.natCast_dvd_natCast.mpr hm
  have hts : ∃ ts : Nat, roundTimestamp key.Timestamp R = some ts ∧ R.toNat ∣ ts := by
    by_cases h1 : 1 < R
    · exact ⟨_, roundTimestamp_nat h1 (by omega) hkey, Dvd.intro_left _ rfl⟩
    · have hne : R ≠ 0 := by
        rintro rfl
        have h60 : (60 : Int) = 0 := zero_dvd_iff.mp hdiv
        omega
      have hR1 : R.toNat = 1 := by omega
      refine ⟨key.Timestamp, ?_, by rw [hR1]; exact one_dvd _⟩
      unfold roundTimestamp
      rw [if_neg (by omega)]
  obtain ⟨ts, hround, hdts⟩ := hts
  unfold resolutionShardFromHashLocked routeAtResolution
  rw [hR, hround]
  simp only [hcur, hnext]
  split_ifs with h0 hle hclamp
  · exact ⟨_, _, rfl, hfin _ hncur⟩
  · refine ⟨_, _, rfl, hfin _ ?_⟩
    rw [sub32_of_le hct (Nat.le_of_lt hclamp.1)]
    exact Nat.dvd_sub' hncur hnW
  · exact ⟨_, _, rfl, hfin _ hdts⟩
  · exact ⟨_, _, rfl, hfin _ hdts⟩

/-- C7: the router uses resolution `1` when the metric metadata is absent, the metadata's
`EffectiveResolution` when the metric is not a hardware metric, and the shard's published
`hardwareMetricResolutionResolved` when it is a hardware metric. -/
theorem route_resolution_choice {Items : Type} (fmt : Format) (dm : DataModel) (s : Shard Items)
    (key : Key) (keyHash : Nat) :
    resolutionShardFromHashLocked fmt dm s key keyHash none =
      routeAtResolution dm s key keyHash 1 ∧
    (∀ mi : MetricMetaValue, fmt.HardwareMetric mi.MetricID = false →
      resolutionShardFromHashLocked fmt dm s key keyHash (some mi) =
        routeAtResolution dm s key keyHash mi.EffectiveResolution) ∧
    (∀ mi : MetricMetaValue, fmt.HardwareMetric mi.MetricID = true →
      resolutionShardFromHashLocked fmt dm s key keyHash (some mi) =
        routeAtResolution dm s key keyHash s.hardwareMetricResolutionResolved) := by
  refine ⟨rfl, ?_, ?_⟩
  · intro mi h
    simp [resolutionShardFromHashLocked, resolutionOf, h]
  · intro mi h
    simp [resolutionShardFromHashLocked, resolutionOf, h]

/-! ## The key prefix written by `appendKeys` -/

theorem PutUint32_append (pre post : List Nat) (a b c d v : Nat) :
    PutUint32 (pre ++ a :: b :: c :: d :: post) pre.length v = some (pre ++ le32 v ++ post) := by
  unfold PutUint32
  rw [if_pos (by simp)]
  simp [List.set_append, le32, Nat.shiftRight_eq_div_pow]

/-- The loop over the tags fills a zeroed region that starts at offset `13 + j * 4` with the
little-endian encodings of the tags, in index order, and touches nothing else. -/
theorem PutUint32_tags (vs : List Int) :
    ∀ (j : Nat) (pre post : List Nat), pre.length = 13 + j * 4 →
      (vs.enumFrom j).foldlM (fun tmp (p : Nat × Int) => PutUint32 tmp (13 + p.1 * 4) (u32 p.2))
        (pre ++ List.replicate (4 * vs.length) 0 ++ post) =
      some (pre ++ (vs.map fun v => le32 (u32 v)).flatten ++ post) := by
  induction vs with
  | nil => intro j pre post _; simp
  | cons v vs ih =>
    intro j pre post hpre
    have hrep : List.replicate (4 * (v :: vs).length) 0 =
        0 :: 0 :: 0 :: 0 :: List.replicate (4 * vs.length) (0 : Nat) := by
      rw [List.length_cons, Nat.mul_succ]
      rfl
    rw [hrep, List.enumFrom_cons, List.foldlM_cons]
    have hput := PutUint32_append pre (List.replicate (4 * vs.length) 0 ++ post) 0 0 0 0 (u32 v)
    rw [hpre] at hput
    simp only [List.append_assoc, List.cons_append] at hput ⊢
    rw [hput]
    have := ih (j + 1) (pre ++ le32 (u32 v)) post (by simp [le32, hpre]; ring)
    simp only [List.append_assoc] at this
    simp [this]

theorem appendKeys_step0 (m : Nat) :
    PutUint32 (List.replicate (4 + 4 + 1 + 4 + MaxTags * 4) 0) 0 m =
      some (le32 m ++ List.replicate 73 0) := by
  simp [PutUint32, MaxTags, List.replicate, le32, Nat.shiftRight_eq_div_pow]

theorem appendKeys_step1 (m pk x : Nat) :
    (PutUint32 (le32 m ++ List.replicate 73 0) 4 pk).map (fun tmp => tmp.set 8 x) =
      some (le32 m ++ le32 pk ++ [x] ++ List.replicate 68 0) := by
  simp [PutUint32, List.replicate, le32, Nat.shiftRight_eq_div_pow]

theorem appendKeys_step2 (m pk x ts : Nat) :
    PutUint32 (le32 m ++ le32 pk ++ [x] ++ List.replicate 68 0) 9 ts =
      some ((le32 m ++ le32 pk ++ [x] ++ le32 ts) ++ List.replicate (4 * 16) 0) := by
  simp [PutUint32, List.replicate, le32, Nat.shiftRight_eq_div_pow]

theorem appendKeys_step2_no_prekey (m ts : Nat) :
    PutUint32 (le32 m ++ List.replicate 73 0) 9 ts =
      some ((le32 m ++ le32 0 ++ [0] ++ le32 ts) ++ List.replicate (4 * 16) 0) := by
  simp [PutUint32, List.replicate, le32, Nat.shiftRight_eq_div_pow]

/-- The buffer, cache and timestamp set that `appendKeys` returns when the pre-key index reported
by the cache is below `16`. -/
theorem appendKeys_eq (fmt : Format) (res : List Nat) (k : Key)
    (metricCache : metricIndexCache) (usedTimestamps : Option (Finset Nat))
    (hidx : (metricCache.getPrekeyIndex fmt k.Metric).1.1 < 16) :
    appendKeys fmt res k metricCache usedTimestamps =
      some (res ++ (le32 (u32 k.Metric) ++
        le32 (if 0 ≤ (metricCache.getPrekeyIndex fmt k.Metric).1.1 then
          u32 ((k.tag (metricCache.getPrekeyIndex fmt k.Metric).1.1).getD 0) else 0) ++
        [if 0 ≤ (metricCache.getPrekeyIndex fmt k.Metric).1.1 then
          (if (metricCache.getPrekeyIndex fmt k.Metric).1.2 then 2 else 1) else 0] ++
        le32 k.Timestamp ++
        (List.ofFn fun i => le32 (u32 (k.Keys i))).flatten),
        (metricCache.getPrekeyIndex fmt k.Metric).2,
        usedTimestamps.map (fun m => insert k.Timestamp m)) := by
  rcases h : metricCache.getPrekeyIndex fmt k.Metric with ⟨⟨idx, only⟩, cache⟩
  rw [h] at hidx
  simp only at hidx
  have hloop := fun pre hpre => PutUint32_tags (List.ofFn k.Keys) 0 pre [] hpre
  simp only [List.length_ofFn, List.append_nil, List.map_ofFn] at hloop
  by_cases h0 : 0 ≤ idx
  · have htag : k.tag idx = some (k.Keys ⟨idx.toNat, by omega⟩) := by
      unfold Key.tag
      rw [dif_pos ⟨h0, hidx⟩]
    have e1 := appendKeys_step1 (u32 k.Metric) (u32 (k.Keys ⟨idx.toNat, by omega⟩))
      (if only then 2 else 1)
    cases hp : PutUint32 (le32 (u32 k.Metric) ++ List.replicate 73 0) 4
        (u32 (k.Keys ⟨idx.toNat, by omega⟩)) with
    | none => rw [hp] at e1; cases e1
    | some tmp1 =>
      rw [hp] at e1
      simp only [Option.map_some', Option.some.injEq] at e1
      have hl := hloop (le32 (u32 k.Metric) ++ le32 (u32 (k.Keys ⟨idx.toNat, by omega⟩)) ++
        [if only then 2 else 1] ++ le32 k.Timestamp) (by simp [le32])
      simp only [appendKeys, h, htag, h0, if_true, appendKeys_step0, bind, Option.bind, hp, pure,
        e1, appendKeys_step2, List.enum, hl, Option.getD_some, Function.comp_def]
  · have hl := hloop (le32 (u32 k.Metric) ++ le32 0 ++ [0] ++ le32 k.Timestamp)
      (by simp [le32])
    simp only [appendKeys, h, h0, if_false, ge_iff_le, appendKeys_step0, bind, Option.bind, pure,
      appendKeys_step2_no_prekey, List.enum, hl, Function.comp_def]

/-- A key prefix is 77 bytes long. -/
theorem keyPrefix_length (m prekey prekeySet ts : Nat) (tags : Fin 16 → Int) :
    (le32 m ++ le32 prekey ++ [prekeySet] ++ le32 ts ++
      (List.ofFn fun i => le32 (u32 (tags i))).flatten).length = 77 := by
  simp [le32, List.length_flatten, List.map_ofFn, Function.comp_def]

/-- C9: for every buffer `res` and every key (whose pre-key index, as the cache reports it, is a
valid tag index or negative), `appendKeys` returns `res` followed by exactly 77 bytes: metric as
4-byte little-endian, prekey as 4-byte little-endian, prekey_set as one byte, timestamp as 4-byte
little-endian, then the 16 tags in index order each as 4-byte little-endian; the bytes of `res`
are unchanged. -/
theorem appendKeys_layout (fmt : Format) (res : List Nat) (k : Key)
    (metricCache : metricIndexCache) (usedTimestamps : Option (Finset Nat))
    (hidx : (metricCache.getPrekeyIndex fmt k.Metric).1.1 < 16) :
    appendKeys fmt res k metricCache usedTimestamps =
      some (res ++ (le32 (u32 k.Metric) ++
        le32 (if 0 ≤ (metricCache.getPrekeyIndex fmt k.Metric).1.1 then
          u32 ((k.tag (metricCache.getPrekeyIndex fmt k.Metric).1.1).getD 0) else 0) ++
        [if 0 ≤ (metricCache.getPrekeyIndex fmt k.Metric).1.1 then
          (if (metricCache.getPrekeyIndex fmt k.Metric).1.2 then 2 else 1) else 0] ++
        le32 k.Timestamp ++
        (List.ofFn fun i => le32 (u32 (k.Keys i))).flatten),
        (metricCache.getPrekeyIndex fmt k.Metric).2,
        usedTimestamps.map (fun m => insert k.Timestamp m)) ∧
    ∀ prekey prekeySet : Nat,
      (le32 (u32 k.Metric) ++ le32 prekey ++ [prekeySet] ++ le32 k.Timestamp ++
        (List.ofFn fun i => le32 (u32 (k.Keys i))).flatten).length = 77 ∧
      (res ++ (le32 (u32 k.Metric) ++ le32 prekey ++ [prekeySet] ++ le32 k.Timestamp ++
        (List.ofFn fun i => le32 (u32 (k.Keys i))).flatten)).take res.length = res := by
  exact ⟨appendKeys_eq fmt res k metricCache usedTimestamps hidx,
    fun prekey prekeySet => ⟨keyPrefix_length _ prekey prekeySet _ k.Keys, by simp⟩⟩

/-- C10 (the code departs from the claim): (1) for an ingestion-status key whose built-in metadata
has pre-key index `1` and the pre-key-only flag set, `appendKeys` on a fresh cache writes
`prekey = tags[1] = 7` but `prekey_set = 1`, not `2`; (2) after a row of the known metric `42`
(pre-key index `1`, pre-key-only), the first row of the unknown metric `77` gets `prekey = 0`,
`prekey_set = 0`, but the second row of the same unknown metric gets `prekey = tags[1] = 2` and
`prekey_set = 2`, left over from metric `42`. -/
theorem appendKeys_prekey_departs :
    (appendKeys preKeyOnlyFormat [] ingestionStatusKey
      (makeMetricCache preKeyOnlyFormat (fun _ => none)) none).map
        (fun r => prekeyColumns r.1) = some [7, 0, 0, 0, 1] ∧
    (makeMetricCache preKeyOnlyFormat (fun _ => none)).ingestionStatusData.lastMetricPrekeyOnly
      = true ∧
    (appendKeysThrice exampleFormat (makeMetricCache exampleFormat exampleJournal)
      (exampleKey 100) (exampleKey 100) { exampleKey 100 with Metric := 77 }).map prekeyColumns
        = some [0, 0, 0, 0, 0] ∧
    (appendKeysThrice exampleFormat (makeMetricCache exampleFormat exampleJournal)
      (exampleKey 100) { exampleKey 100 with Metric := 77 }
      { exampleKey 100 with Metric := 77 }).map prekeyColumns = some [2, 0, 0, 0, 2] := by
  set_option maxRecDepth 100000 in
  refine ⟨?_, ?_, ?_, ?_⟩ <;> decide

/-! ## Round trip of the key prefix -/

theorem leUint32_le32 {v : Nat} (h : v < 2 ^ 32) : leUint32 (le32 v) = v := by
  simp only [leUint32, le32, List.getD_cons_zero, List.getD_cons_succ]
  omega

theorem i32_u32 {x : Int} (h0 : -2 ^ 31 ≤ x) (h1 : x < 2 ^ 31) : i32 (u32 x) = x := by
  unfold i32 u32
  split_ifs with h <;> omega

theorem u32_lt (x : Int) : u32 x < 2 ^ 32 := by
  unfold u32
  omega

/-- In a concatenation of 4-byte groups, the group number `i` sits at offset `4 * i`. -/
theorem flatten_group (l : List (List Nat)) (hl : ∀ x ∈ l, x.length = 4) :
    ∀ (i : Nat) (hi : i < l.length), (l.flatten.drop (4 * i)).take 4 = l[i] := by
  induction l with
  | nil => intro i hi; simp at hi
  | cons a l ih =>
    intro i hi
    have ha : a.length = 4 := hl a (List.mem_cons_self _ _)
    cases i with
    | zero =>
      simp only [List.flatten_cons, Nat.mul_zero, List.drop_zero, List.getElem_cons_zero]
      rw [List.take_append_of_le_length (by omega), List.take_of_length_le (by omega)]
    | succ i =>
      have h4 : 4 * (i + 1) = a.length + 4 * i := by omega
      simp only [List.flatten_cons, List.getElem_cons_succ]
      rw [h4, List.drop_append]
      exact ih (fun x hx => hl x (List.mem_cons_of_mem _ hx)) i (by simpa using hi)

/-- C11: for every key whose metric id and tags are `int32` values and whose timestamp is a
`uint32` (negative metric ids and negative tags included), decoding the 77 bytes appended by
`appendKeys` - bytes `0..4` as little-endian `u32` read as `i32`, bytes `9..13` as little-endian
`u32`, each of the 16 following 4-byte groups as little-endian `u32` read as `i32` - gives back
the key's metric id, timestamp and tags. -/
theorem appendKeys_roundtrip (fmt : Format) (res : List Nat) (k : Key)
    (metricCache : metricIndexCache) (usedTimestamps : Option (Finset Nat))
    (hidx : (metricCache.getPrekeyIndex fmt k.Metric).1.1 < 16)
    (hmetric : -2 ^ 31 ≤ k.Metric ∧ k.Metric < 2 ^ 31)
    (hts : k.Timestamp < 2 ^ 32)
    (htags : ∀ i : Fin 16, -2 ^ 31 ≤ k.Keys i ∧ k.Keys i < 2 ^ 31) :
    ∃ (out : List Nat) (cache : metricIndexCache) (used : Option (Finset Nat)),
      appendKeys fmt res k metricCache usedTimestamps = some (out, cache, used) ∧
      (out.drop res.length).length = 77 ∧
      i32 (leUint32 ((out.drop res.length).take 4)) = k.Metric ∧
      leUint32 (((out.drop res.length).drop 9).take 4) = k.Timestamp ∧
      ∀ i : Fin 16,
        i32 (leUint32 (((out.drop res.length).drop (13 + 4 * i.val)).take 4)) = k.Keys i := by
  have hlay := appendKeys_eq fmt res k metricCache usedTimestamps hidx
  refine ⟨_, _, _, hlay, ?_, ?_, ?_, ?_⟩
  · rw [List.drop_left]
    exact keyPrefix_length _ _ _ _ k.Keys
  · rw [List.drop_left]
    simp only [le32, List.cons_append, List.nil_append, List.take_succ_cons, List.take_zero]
    exact (leUint32_le32 (u32_lt _)).symm ▸ i32_u32 hmetric.1 hmetric.2
  · rw [List.drop_left]
    simp only [le32, List.cons_append, List.nil_append, List.drop_succ_cons, List.drop_zero,
      List.take_succ_cons, List.take_zero]
    exact leUint32_le32 hts
  · intro i
    rw [List.drop_left]
    have hgrp := flatten_group (List.ofFn fun j => le32 (u32 (k.Keys j)))
      (by
        intro x hx
        obtain ⟨j, rfl⟩ := (List.mem_ofFn _ _).mp hx
        rfl)
      i.val (by simp)
    rw [List.getElem_ofFn] at hgrp
    have hdrop : ∀ (a b x c : Nat) (tl : List Nat),
        (le32 a ++ le32 b ++ [x] ++ le32 c ++ tl).drop (13 + 4 * i.val) =
          tl.drop (4 * i.val) := by
      intro a b x c tl
      have : (le32 a ++ le32 b ++ [x] ++ le32 c).length = 13 := by simp [le32]
      rw [← this, ← List.drop_drop, List.drop_left]
    rw [hdrop, hgrp, leUint32_le32 (u32_lt _)]
    exact i32_u32 (htags i).1 (htags i).2

/-! ## Rows written by `appendValueStat` and `multiValueMarshal` -/

theorem appendAggregates_layout (fl : Floats) (res : List Nat) (c mi ma su su2 : fl.F64) :
    appendAggregates fl res c mi ma su su2 = res ++ aggregateBytes fl c mi ma su su2 := by
  simp [appendAggregates, PutUint64, List.replicate, aggregateBytes, le64,
    Nat.shiftRight_eq_div_pow]

/-- The whole row payload of `multiValueMarshal`, for the skip flags the cache reports. -/
theorem multiValueMarshal_row (fmt : Format) (fl : Floats) (w : Wire fl) (metricID : Int)
    (cache cache1 : metricIndexCache) (res : List Nat) (value : MultiValue fl w) (skey : String)
    (sf : fl.F64) (skipMaxHost skipMinHost skipSumSquare : Bool)
    (hskips : cache.skips fmt metricID = ((skipMaxHost, skipMinHost, skipSumSquare), cache1)) :
    multiValueMarshal fmt fl w metricID cache res value skey sf =
      (res ++ ((if value.Value.ValueSet then
            aggregateBytes fl (fl.mul value.Value.Counter sf) value.Value.ValueMin
              value.Value.ValueMax (fl.mul value.Value.ValueSum sf)
              (zeroIfTrue fl (fl.mul value.Value.ValueSumSquare sf) skipSumSquare)
          else aggregateBytes fl (fl.mul value.Value.Counter sf) fl.zero
              (fl.mul value.Value.Counter sf) fl.zero fl.zero) ++
        w.centroids value.ValueTDigest sf ++ w.hll value.HLL ++ w.string skey ++
        minHostTuple fl w value.Value skipMinHost ++
        maxHostTuple fl w value.Value (fl.mul value.Value.Counter sf) skipMaxHost), cache1) := by
  unfold multiValueMarshal
  rw [hskips]
  simp only [appendAggregates_layout, Wire.AppendCentroids, Wire.MarshallAppend,
    Wire.AppendString, Wire.AppendArgMinMaxInt32Float32Empty, Wire.AppendArgMinMaxInt32Float32,
    minHostTuple, maxHostTuple]
  cases value.Value.ValueSet <;> cases skipMinHost <;> cases skipMaxHost <;>
    simp [List.append_assoc]

/-- The whole row of `appendValueStat` for a counter that is not `<= 0`, for the key prefix that
`appendKeys` returns and the skip flags the cache reports afterwards. -/
theorem appendValueStat_row (fmt : Format) (fl : Floats) (w : Wire fl) (res out : List Nat)
    (key : Key) (skey : String) (v : ItemValue fl) (cache cache1 cache2 : metricIndexCache)
    (usedTimestamps used1 : Option (Finset Nat)) (skipMaxHost skipMinHost skipSumSquare : Bool)
    (hpos : fl.le v.Counter fl.zero = false)
    (hkeys : appendKeys fmt res key cache usedTimestamps = some (out, cache1, used1))
    (hskips : cache1.skips fmt key.Metric = ((skipMaxHost, skipMinHost, skipSumSquare), cache2)) :
    appendValueStat fmt fl w res key skey v cache usedTimestamps =
      some (out ++ ((if v.ValueSet then
            aggregateBytes fl v.Counter v.ValueMin v.ValueMax v.ValueSum
              (zeroIfTrue fl v.ValueSumSquare skipSumSquare)
          else aggregateBytes fl v.Counter fl.zero v.Counter fl.zero fl.zero) ++
        w.emptyCentroids ++ w.emptyUnique ++ w.string skey ++
        minHostTuple fl w v skipMinHost ++ maxHostTuple fl w v v.Counter skipMaxHost),
        cache2, used1) := by
  unfold appendValueStat
  rw [hpos, hkeys]
  simp only [Bool.false_eq_true, if_false, bind, Option.bind, hskips, pure,
    appendAggregates_layout, Wire.AppendEmptyCentroids, Wire.AppendEmptyUnique,
    Wire.AppendString, Wire.AppendArgMinMaxInt32Float32Empty, Wire.AppendArgMinMaxInt32Float32,
    minHostTuple, maxHostTuple]
  cases v.ValueSet <;> cases skipMinHost <;> cases skipMaxHost <;>
    simp [List.append_assoc]

/-- A counter that is not `<= 0` makes `appendValueStat` write the key prefix of `appendKeys`
followed by the rest of one row. -/
theorem appendValueStat_one_row (fmt : Format) (fl : Floats) (w : Wire fl)
    (res : List Nat) (key : Key) (skey : String) (v : ItemValue fl) (cache : metricIndexCache)
    (usedTimestamps : Option (Finset Nat))
    (h : fl.le v.Counter fl.zero = false)
    (hidx : (cache.getPrekeyIndex fmt key.Metric).1.1 < 16) :
    ∃ (out rest : List Nat) (cache1 cache2 : metricIndexCache),
      appendKeys fmt res key cache usedTimestamps =
        some (out, cache1, usedTimestamps.map (fun m => insert key.Timestamp m)) ∧
      appendValueStat fmt fl w res key skey v cache usedTimestamps =
        some (out ++ rest, cache2, usedTimestamps.map (fun m => insert key.Timestamp m)) := by
  have hkeys := appendKeys_eq fmt res key cache usedTimestamps hidx
  rcases hsk : (cache.getPrekeyIndex fmt key.Metric).2.skips fmt key.Metric with
    ⟨⟨skipMaxHost, skipMinHost, skipSumSquare⟩, cache2⟩
  exact ⟨_, _, _, cache2, hkeys,
    appendValueStat_row fmt fl w res _ key skey v cache _ cache2 usedTimestamps _
      skipMaxHost skipMinHost skipSumSquare h hkeys hsk⟩

/-- C12: for every buffer, key, string key and item value, `appendValueStat` returns the
buffer and the timestamp set unchanged when `v.Counter <= 0`; when the counter is not `<= 0`
(every counter `> 0`) it returns the buffer of `appendKeys(res, key)` followed by the rest of the
row, and the timestamp set as `appendKeys` leaves it. -/
theorem appendValueStat_counter_gate (fmt : Format) (fl : Floats) (w : Wire fl)
    (res : List Nat) (key : Key) (skey : String) (v : ItemValue fl) (cache : metricIndexCache)
    (usedTimestamps : Option (Finset Nat)) :
    (fl.le v.Counter fl.zero = true →
      appendValueStat fmt fl w res key skey v cache usedTimestamps =
        some (res, cache, usedTimestamps)) ∧
    (fl.le v.Counter fl.zero = false → (cache.getPrekeyIndex fmt key.Metric).1.1 < 16 →
      ∃ (out rest : List Nat) (cache1 cache2 : metricIndexCache),
        appendKeys fmt res key cache usedTimestamps =
          some (out, cache1, usedTimestamps.map (fun m => insert key.Timestamp m)) ∧
        appendValueStat fmt fl w res key skey v cache usedTimestamps =
          some (out ++ rest, cache2, usedTimestamps.map (fun m => insert key.Timestamp m))) := by
  constructor
  · intro h
    unfold appendValueStat
    rw [if_pos h]
  · intro h hidx
    exact appendValueStat_one_row fmt fl w res key skey v cache usedTimestamps h hidx

/-- C13: for every counter-only cell (`ValueSet = false`) the five aggregate fields written are
`(c, 0, c, 0, 0)`, with `c = Counter * sf` in `multiValueMarshal` and `c = Counter` in
`appendValueStat`; the stored min, max, sum and sum_square do not influence the output. -/
theorem counter_only_aggregates (fmt : Format) (fl : Floats) (w : Wire fl) (metricID : Int)
    (cache : metricIndexCache) (res : List Nat) (value : MultiValue fl w) (v : ItemValue fl)
    (key : Key) (skey : String) (sf : fl.F64) (usedTimestamps : Option (Finset Nat))
    (hvalue : value.Value.ValueSet = false) (hv : v.ValueSet = false) :
    (∃ (rest : List Nat) (cache1 : metricIndexCache),
      multiValueMarshal fmt fl w metricID cache res value skey sf =
        (res ++ aggregateBytes fl (fl.mul value.Value.Counter sf) fl.zero
          (fl.mul value.Value.Counter sf) fl.zero fl.zero ++ rest, cache1)) ∧
    (∀ a b c d : fl.F64,
      multiValueMarshal fmt fl w metricID cache res
        { value with Value := { value.Value with
            ValueMin := a, ValueMax := b, ValueSum := c, ValueSumSquare := d } } skey sf =
      multiValueMarshal fmt fl w metricID cache res value skey sf) ∧
    (∀ (out : List Nat) (cache1 : metricIndexCache) (used1 : Option (Finset Nat)),
      fl.le v.Counter fl.zero = false →
      appendKeys fmt res key cache usedTimestamps = some (out, cache1, used1) →
      ∃ (rest : List Nat) (cache2 : metricIndexCache),
        appendValueStat fmt fl w res key skey v cache usedTimestamps =
          some (out ++ aggregateBytes fl v.Counter fl.zero v.Counter fl.zero fl.zero ++ rest,
            cache2, used1)) ∧
    (∀ a b c d : fl.F64,
      appendValueStat fmt fl w res key skey
        { v with ValueMin := a, ValueMax := b, ValueSum := c, ValueSumSquare := d }
        cache usedTimestamps =
      appendValueStat fmt fl w res key skey v cache usedTimestamps) := by
  refine ⟨?_, ?_, ?_, ?_⟩
  · rcases hsk : cache.skips fmt metricID with ⟨⟨skipMaxHost, skipMinHost, skipSumSquare⟩, cache1⟩
    refine ⟨(w.centroids value.ValueTDigest sf ++ w.hll value.HLL ++ w.string skey ++
      minHostTuple fl w value.Value skipMinHost ++
      maxHostTuple fl w value.Value (fl.mul value.Value.Counter sf) skipMaxHost), cache1, ?_⟩
    rw [multiValueMarshal_row fmt fl w metricID cache cache1 res value skey sf _ _ _ hsk, hvalue]
    simp only [Bool.false_eq_true, if_false, List.append_assoc]
  · intro a b c d
    simp only [multiValueMarshal, hvalue, Bool.false_eq_true, if_false]
  · intro out cache1 used1 hpos hkeys
    rcases hsk : cache1.skips fmt key.Metric with
      ⟨⟨skipMaxHost, skipMinHost, skipSumSquare⟩, cache2⟩
    refine ⟨w.emptyCentroids ++ w.emptyUnique ++ w.string skey ++
      minHostTuple fl w v skipMinHost ++ maxHostTuple fl w v v.Counter skipMaxHost, cache2, ?_⟩
    rw [appendValueStat_row fmt fl w res out key skey v cache cache1 cache2 usedTimestamps used1
      _ _ _ hpos hkeys hsk, hv]
    simp only [Bool.false_eq_true, if_false, List.append_assoc]
  · intro a b c d
    simp only [appendValueStat, hv, Bool.false_eq_true, if_false]

/-- The flags `skips` returns are the flags in force. -/
theorem skips_flagsInForce (fmt : Format) (p : metricIndexCache) (m : Int) :
    (p.skips fmt m).1 = flagsInForce fmt p m := by
  unfold metricIndexCache.skips flagsInForce metricIndexCache.metric metricMeta
  by_cases hi : m = fmt.BuiltinMetricIDIngestionStatus
  · simp [hi]
  · by_cases hl : m = p.lastMetricID
    · have hi2 : ¬ p.lastMetricID = fmt.BuiltinMetricIDIngestionStatus := fun h => hi (hl.trans h)
      simp only [hl, hi2, if_false, if_true]
    · simp only [hi, hl, if_false]
      cases fmt.BuiltinMetrics m with
      | some bm => rfl
      | none =>
        cases p.journal m with
        | some mm => rfl
        | none => rfl

/-- A metric without metadata is in neither table. -/
theorem metricMeta_none {fmt : Format} {journal : Int → Option MetricMetaValue} {m : Int}
    (h : metricMeta fmt journal m = none) : fmt.BuiltinMetrics m = none ∧ journal m = none := by
  unfold metricMeta at h
  cases hb : fmt.BuiltinMetrics m with
  | some bm => simp [hb] at h
  | none =>
    rw [hb] at h
    exact ⟨rfl, h⟩

/-- Once the key prefix of a metric without metadata has been written, the flags in force for it
are the flags the cache stored for the metric it looked up before. -/
theorem flagsInForce_after_unknown (fmt : Format) (p : metricIndexCache) (m : Int)
    (hi : m ≠ fmt.BuiltinMetricIDIngestionStatus) (hl : m ≠ p.lastMetricID)
    (hmeta : metricMeta fmt p.journal m = none) :
    flagsInForce fmt (p.getPrekeyIndex fmt m).2 m =
      (p.lastMetric.lastMetricSkipMaxHost, p.lastMetric.lastMetricSkipMinHost,
        p.lastMetric.lastMetricSkipSumSquare) ∧
    flagsInForce fmt p m = (false, false, false) := by
  obtain ⟨hb, hj⟩ := metricMeta_none hmeta
  have hq : (p.getPrekeyIndex fmt m).2 = { p with lastMetricID := m } := by
    unfold metricIndexCache.getPrekeyIndex metricIndexCache.metric
    simp only [hi, hl, if_false, hb, hj]
  constructor
  · rw [hq]
    unfold flagsInForce
    simp only [hi, if_false, if_true]
  · unfold flagsInForce
    simp only [hi, hl, if_false, hmeta]

/-- Once the key prefix of a metric with metadata has been written by a cache that looked up
another metric before, the flags in force are the metric's own. -/
theorem flagsInForce_after_known (fmt : Format) (p : metricIndexCache) (m : Int)
    (mm : MetricMetaValue)
    (hi : m ≠ fmt.BuiltinMetricIDIngestionStatus) (hl : m ≠ p.lastMetricID)
    (hmeta : metricMeta fmt p.journal m = some mm) :
    flagsInForce fmt (p.getPrekeyIndex fmt m).2 m =
      (mm.SkipMaxHost, mm.SkipMinHost, mm.SkipSumSquare) ∧
    flagsInForce fmt p m = (mm.SkipMaxHost, mm.SkipMinHost, mm.SkipSumSquare) := by
  have hq : (p.getPrekeyIndex fmt m).2 = { p with lastMetricID := m, lastMetric :=
      { lastMetricPrekey := mm.PreKeyIndex
        lastMetricPrekeyOnly := mm.PreKeyOnly
        lastMetricSkipMinHost := mm.SkipMinHost
        lastMetricSkipMaxHost := mm.SkipMaxHost
        lastMetricSkipSumSquare := mm.SkipSumSquare } } := by
    unfold metricMeta at hmeta
    unfold metricIndexCache.getPrekeyIndex metricIndexCache.metric
    cases hb : fmt.BuiltinMetrics m with
    | some bm =>
      rw [hb] at hmeta
      simp only [Option.some.injEq] at hmeta
      subst hmeta
      simp only [hi, hl, if_false]
    | none =>
      rw [hb] at hmeta
      simp only at hmeta
      simp only [hi, hl, if_false, hmeta]
  constructor
  · rw [hq]
    unfold flagsInForce
    simp only [hi, if_false, if_true]
  · unfold flagsInForce
    simp only [hi, hl, if_false, hmeta]

/-- The flags `skips` returns after the key prefix of a metric without metadata was written are
the flags of the metric the cache looked up before. -/
theorem skips_after_unknown (fmt : Format) (p : metricIndexCache) (m : Int)
    (hi : m ≠ fmt.BuiltinMetricIDIngestionStatus) (hl : m ≠ p.lastMetricID)
    (hmeta : metricMeta fmt p.journal m = none) :
    ((p.getPrekeyIndex fmt m).2.skips fmt m).1 =
      (p.lastMetric.lastMetricSkipMaxHost, p.lastMetric.lastMetricSkipMinHost,
        p.lastMetric.lastMetricSkipSumSquare) := by
  rw [skips_flagsInForce]
  exact (flagsInForce_after_unknown fmt p m hi hl hmeta).1

/-- The flags `skips` returns after the key prefix of a metric with metadata was written by a
cache that looked up another metric before are the metric's own. -/
theorem skips_after_known (fmt : Format) (p : metricIndexCache) (m : Int) (mm : MetricMetaValue)
    (hi : m ≠ fmt.BuiltinMetricIDIngestionStatus) (hl : m ≠ p.lastMetricID)
    (hmeta : metricMeta fmt p.journal m = some mm) :
    ((p.getPrekeyIndex fmt m).2.skips fmt m).1 =
      (mm.SkipMaxHost, mm.SkipMinHost, mm.SkipSumSquare) := by
  rw [skips_flagsInForce]
  exact (flagsInForce_after_known fmt p m mm hi hl hmeta).1

/-- For a metric without metadata and a cache that looked up another metric before, no pre-key
is written. -/
theorem getPrekeyIndex_unknown (fmt : Format) (p : metricIndexCache) (m : Int)
    (hi : m ≠ fmt.BuiltinMetricIDIngestionStatus) (hl : m ≠ p.lastMetricID)
    (hmeta : metricMeta fmt p.journal m = none) :
    (p.getPrekeyIndex fmt m).1 = (-1, false) := by
  obtain ⟨hb, hj⟩ := metricMeta_none hmeta
  unfold metricIndexCache.getPrekeyIndex metricIndexCache.metric
  simp only [hi, hl, if_false, hb, hj]

/-- The row `appendValueStat` writes when the counter is `> 0`: the key prefix, then the value
bytes for the flags `skips` returns once the key prefix was written. -/
theorem appendValueStat_bytes (fmt : Format) (fl : Floats) (w : Wire fl) (res : List Nat)
    (key : Key) (skey : String) (v : ItemValue fl) (cache : metricIndexCache)
    (usedTimestamps : Option (Finset Nat))
    (hpos : fl.le v.Counter fl.zero = false)
    (hidx : (cache.getPrekeyIndex fmt key.Metric).1.1 < 16) :
    appendValueStat fmt fl w res key skey v cache usedTimestamps =
      some (res ++ keyBytes fmt cache key ++
          statBytes fl w skey v ((cache.getPrekeyIndex fmt key.Metric).2.skips fmt key.Metric).1,
        ((cache.getPrekeyIndex fmt key.Metric).2.skips fmt key.Metric).2,
        usedTimestamps.map (fun m => insert key.Timestamp m)) := by
  have hk := appendKeys_eq fmt res key cache usedTimestamps hidx
  rw [appendValueStat_row fmt fl w res _ key skey v cache _
    ((cache.getPrekeyIndex fmt key.Metric).2.skips fmt key.Metric).2 usedTimestamps _
    ((cache.getPrekeyIndex fmt key.Metric).2.skips fmt key.Metric).1.1
    ((cache.getPrekeyIndex fmt key.Metric).2.skips fmt key.Metric).1.2.1
    ((cache.getPrekeyIndex fmt key.Metric).2.skips fmt key.Metric).1.2.2 hpos hk rfl]
  unfold keyBytes statBytes
  simp only [List.append_assoc]

/-- The key prefix has 77 bytes. -/
theorem keyBytes_length (fmt : Format) (cache : metricIndexCache) (k : Key) :
    (keyBytes fmt cache k).length = 77 := by
  unfold keyBytes
  exact keyPrefix_length _ _ _ _ _

/-- The row `multiValueMarshal` writes, for the flags `skips` returns. -/
theorem multiValueMarshal_bytes (fmt : Format) (fl : Floats) (w : Wire fl) (metricID : Int)
    (cache : metricIndexCache) (res : List Nat) (value : MultiValue fl w) (skey : String)
    (sf : fl.F64) :
    multiValueMarshal fmt fl w metricID cache res value skey sf =
      (res ++ ((if value.Value.ValueSet then
            aggregateBytes fl (fl.mul value.Value.Counter sf) value.Value.ValueMin
              value.Value.ValueMax (fl.mul value.Value.ValueSum sf)
              (zeroIfTrue fl (fl.mul value.Value.ValueSumSquare sf)
                (cache.skips fmt metricID).1.2.2)
          else aggregateBytes fl (fl.mul value.Value.Counter sf) fl.zero
              (fl.mul value.Value.Counter sf) fl.zero fl.zero) ++
        w.centroids value.ValueTDigest sf ++ w.hll value.HLL ++ w.string skey ++
        minHostTuple fl w value.Value (cache.skips fmt metricID).1.2.1 ++
        maxHostTuple fl w value.Value (fl.mul value.Value.Counter sf)
          (cache.skips fmt metricID).1.1), (cache.skips fmt metricID).2) :=
  multiValueMarshal_row fmt fl w metricID cache (cache.skips fmt metricID).2 res value skey sf
    (cache.skips fmt metricID).1.1 (cache.skips fmt metricID).1.2.1
    (cache.skips fmt metricID).1.2.2 rfl

/-- The flags `skips` returns for the ingestion-status metric are the ingestion-status data. -/
theorem skips_ingestion (fmt : Format) (p : metricIndexCache) (m : Int)
    (hi : m = fmt.BuiltinMetricIDIngestionStatus) :
    (p.skips fmt m).1 =
      (p.ingestionStatusData.lastMetricSkipMaxHost, p.ingestionStatusData.lastMetricSkipMinHost,
        p.ingestionStatusData.lastMetricSkipSumSquare) := by
  rw [skips_flagsInForce]
  unfold flagsInForce
  rw [if_pos hi]

/-- The flags `skips` returns for the metric id in the slot are the flags in the slot. -/
theorem skips_hit (fmt : Format) (p : metricIndexCache) (m : Int)
    (hi : m ≠ fmt.BuiltinMetricIDIngestionStatus) (hl : m = p.lastMetricID) :
    (p.skips fmt m).1 =
      (p.lastMetric.lastMetricSkipMaxHost, p.lastMetric.lastMetricSkipMinHost,
        p.lastMetric.lastMetricSkipSumSquare) := by
  rw [skips_flagsInForce]
  unfold flagsInForce
  rw [if_neg hi, if_pos hl]

/-- The flags `skips` returns for a metric with metadata that is not in the slot are the
metric's own. -/
theorem skips_miss_known (fmt : Format) (p : metricIndexCache) (m : Int) (mm : MetricMetaValue)
    (hi : m ≠ fmt.BuiltinMetricIDIngestionStatus) (hl : m ≠ p.lastMetricID)
    (hmeta : metricMeta fmt p.journal m = some mm) :
    (p.skips fmt m).1 = (mm.SkipMaxHost, mm.SkipMinHost, mm.SkipSumSquare) := by
  rw [skips_flagsInForce]
  exact (flagsInForce_after_known fmt p m mm hi hl hmeta).2

/-- The flags `skips` returns for a metric without metadata that is not in the slot are all
unset. -/
theorem skips_miss_unknown (fmt : Format) (p : metricIndexCache) (m : Int)
    (hi : m ≠ fmt.BuiltinMetricIDIngestionStatus) (hl : m ≠ p.lastMetricID)
    (hmeta : metricMeta fmt p.journal m = none) :
    (p.skips fmt m).1 = (false, false, false) := by
  rw [skips_flagsInForce]
  exact (flagsInForce_after_unknown fmt p m hi hl hmeta).2

/-- In both `multiValueMarshal` and `appendValueStat`, for the skip flags the cache reports,
the row ends with the two host tuples `min_host`, `max_host`: for a value cell the empty
placeholder when the corresponding flag is set and `(MinHostTag, float32(min))`,
`(MaxHostTag, float32(max))` otherwise; for a counter-only cell `min_host` is the empty
placeholder and `max_host` is `(MaxCounterHostTag, float32(counter))` unless `skip_max_host`. -/
theorem host_tuples (fmt : Format) (fl : Floats) (w : Wire fl) (metricID : Int)
    (cache cache1 : metricIndexCache) (res : List Nat) (value : MultiValue fl w) (skey : String)
    (sf : fl.F64) (skipMaxHost skipMinHost skipSumSquare : Bool)
    (hskips : cache.skips fmt metricID = ((skipMaxHost, skipMinHost, skipSumSquare), cache1)) :
    (∃ front : List Nat,
      multiValueMarshal fmt fl w metricID cache res value skey sf =
        (res ++ front ++
          (if value.Value.ValueSet then
            if skipMinHost then w.argMinMaxEmpty
            else w.argMinMax value.Value.MinHostTag (fl.toFloat32 value.Value.ValueMin)
          else w.argMinMaxEmpty) ++
          (if skipMaxHost then w.argMinMaxEmpty
          else if value.Value.ValueSet then
            w.argMinMax value.Value.MaxHostTag (fl.toFloat32 value.Value.ValueMax)
          else w.argMinMax value.Value.MaxCounterHostTag
            (fl.toFloat32 (fl.mul value.Value.Counter sf))), cache1)) ∧
    (∀ (key : Key) (v : ItemValue fl) (cache0 : metricIndexCache) (out : List Nat)
        (used0 used1 : Option (Finset Nat)),
      key.Metric = metricID → fl.le v.Counter fl.zero = false →
      appendKeys fmt res key cache0 used0 = some (out, cache, used1) →
      ∃ front : List Nat,
        appendValueStat fmt fl w res key skey v cache0 used0 =
          some (out ++ front ++
            (if v.ValueSet then
              if skipMinHost then w.argMinMaxEmpty
              else w.argMinMax v.MinHostTag (fl.toFloat32 v.ValueMin)
            else w.argMinMaxEmpty) ++
            (if skipMaxHost then w.argMinMaxEmpty
            else if v.ValueSet then w.argMinMax v.MaxHostTag (fl.toFloat32 v.ValueMax)
            else w.argMinMax v.MaxCounterHostTag (fl.toFloat32 v.Counter)), cache1, used1)) := by
  constructor
  · refine ⟨(if value.Value.ValueSet then
        aggregateBytes fl (fl.mul value.Value.Counter sf) value.Value.ValueMin
          value.Value.ValueMax (fl.mul value.Value.ValueSum sf)
          (zeroIfTrue fl (fl.mul value.Value.ValueSumSquare sf) skipSumSquare)
      else aggregateBytes fl (fl.mul value.Value.Counter sf) fl.zero
          (fl.mul value.Value.Counter sf) fl.zero fl.zero) ++
      w.centroids value.ValueTDigest sf ++ w.hll value.HLL ++ w.string skey, ?_⟩
    rw [multiValueMarshal_row fmt fl w metricID cache cache1 res value skey sf _ _ _ hskips]
    simp only [minHostTuple, maxHostTuple, List.append_assoc]
  · intro key v cache0 out used0 used1 hm hpos hkeys
    refine ⟨(if v.ValueSet then
        aggregateBytes fl v.Counter v.ValueMin v.ValueMax v.ValueSum
          (zeroIfTrue fl v.ValueSumSquare skipSumSquare)
      else aggregateBytes fl v.Counter fl.zero v.Counter fl.zero fl.zero) ++
      w.emptyCentroids ++ w.emptyUnique ++ w.string skey, ?_⟩
    rw [appendValueStat_row fmt fl w res out key skey v cache0 cache cache1 used0 used1
      skipMaxHost skipMinHost skipSumSquare hpos hkeys (hm ▸ hskips)]
    simp only [minHostTuple, maxHostTuple, List.append_assoc]

/-- For every value cell (`ValueSet = true`) and the `skip_sum_square` flag the cache
reports for the metric, the five aggregate fields written are `(count, min, max, sum, 0)` when
the flag is set and `(count, min, max, sum, sum_square)` when it is not: the flag changes the
`sum_square` field only.  In `multiValueMarshal` count, sum and sum_square are the scaled ones,
in `appendValueStat` the stored ones. -/
theorem skip_sum_square_zeroes_only_sum_square (fmt : Format) (fl : Floats) (w : Wire fl)
    (metricID : Int) (cache cache1 : metricIndexCache) (res : List Nat) (value : MultiValue fl w)
    (skey : String) (sf : fl.F64) (skipMaxHost skipMinHost skipSumSquare : Bool)
    (hskips : cache.skips fmt metricID = ((skipMaxHost, skipMinHost, skipSumSquare), cache1))
    (hset : value.Value.ValueSet = true) :
    (∃ rest : List Nat,
      multiValueMarshal fmt fl w metricID cache res value skey sf =
        (res ++ aggregateBytes fl (fl.mul value.Value.Counter sf) value.Value.ValueMin
          value.Value.ValueMax (fl.mul value.Value.ValueSum sf)
          (if skipSumSquare then fl.zero else fl.mul value.Value.ValueSumSquare sf) ++ rest,
          cache1)) ∧
    (∀ (key : Key) (cache0 : metricIndexCache) (out : List Nat)
        (used0 used1 : Option (Finset Nat)),
      key.Metric = metricID → fl.le value.Value.Counter fl.zero = false →
      appendKeys fmt res key cache0 used0 = some (out, cache, used1) →
      ∃ rest : List Nat,
        appendValueStat fmt fl w res key skey value.Value cache0 used0 =
          some (out ++ aggregateBytes fl value.Value.Counter value.Value.ValueMin
            value.Value.ValueMax value.Value.ValueSum
            (if skipSumSquare then fl.zero else value.Value.ValueSumSquare) ++ rest,
            cache1, used1)) ∧
    (∀ x : fl.F64, zeroIfTrue fl x true = fl.zero ∧ zeroIfTrue fl x false = x) := by
  refine ⟨?_, ?_, fun x => ⟨rfl, rfl⟩⟩
  · refine ⟨(w.centroids value.ValueTDigest sf ++ w.hll value.HLL ++ w.string skey ++
      minHostTuple fl w value.Value skipMinHost ++
      maxHostTuple fl w value.Value (fl.mul value.Value.Counter sf) skipMaxHost), ?_⟩
    rw [multiValueMarshal_row fmt fl w metricID cache cache1 res value skey sf _ _ _ hskips, hset]
    simp only [if_true, zeroIfTrue, List.append_assoc]
  · intro key cache0 out used0 used1 hm hpos hkeys
    refine ⟨w.emptyCentroids ++ w.emptyUnique ++ w.string skey ++
      minHostTuple fl w value.Value skipMinHost ++
      maxHostTuple fl w value.Value value.Value.Counter skipMaxHost, ?_⟩
    rw [appendValueStat_row fmt fl w res out key skey value.Value cache0 cache cache1 used0 used1
      skipMaxHost skipMinHost skipSumSquare hpos hkeys (hm ▸ hskips), hset]
    simp only [if_true, zeroIfTrue, List.append_assoc]

/-- C16 as stated fails: for the value cell with sum_square `89`, sampling factor `2` and a
metric whose `skip_sum_square` flag is set, `multiValueMarshal` writes the aggregate fields
`(6, 2, 9, 30, 0)`, so the written sum_square is `0` and not `89 * 2`. -/
theorem multiValueMarshal_scaling_counterexample :
    (multiValueMarshal exampleFormat exactFloats exampleWire 42
      (makeMetricCache exampleFormat skipJournal) [] valueMulti "" (2 : Int)).1.take 40 =
      aggregateBytes exactFloats (6 : Int) (2 : Int) (9 : Int) (30 : Int) (0 : Int) ∧
    ¬ ((multiValueMarshal exampleFormat exactFloats exampleWire 42
      (makeMetricCache exampleFormat skipJournal) [] valueMulti "" (2 : Int)).1.take 40 =
      aggregateBytes exactFloats (exactFloats.mul valueMulti.Value.Counter (2 : Int))
        valueMulti.Value.ValueMin valueMulti.Value.ValueMax
        (exactFloats.mul valueMulti.Value.ValueSum (2 : Int))
        (exactFloats.mul valueMulti.Value.ValueSumSquare (2 : Int))) := by
  set_option maxRecDepth 100000 in
  refine ⟨?_, ?_⟩ <;> decide

/-- C14 (the code departs from the claim): the two host tuples of a row follow the flags the
one-slot cache returns, and for a metric in neither metadata table these are, once `appendKeys`
has looked the metric up, the flags of the metric that was looked up before, not the unset flags
of the metric itself.  In general, for a metric without metadata that is not the id in the slot:
the row `appendValueStat` writes ends with the host tuples for the `skip_min_host` and
`skip_max_host` stored for the previous metric, and so does the row `multiValueMarshal` writes
with the cache `appendKeys` hands over; for a metric with metadata the same call of
`multiValueMarshal` uses the metric's own flags, as claimed.  At a concrete input (the journal
knows only metric `42`, all three skip flags set; the value cell has min `2` at host `5` and max
`9` at host `6`): bytes `120 ..` of the row of the unknown metric `77` are `(5, float32 2)`,
`(6, float32 9)` on a fresh cache, as claimed, and two empty placeholders after a row of metric
`42`, both for `appendValueStat` and for the tail row written by `insertItem`. -/
theorem host_tuples_departs :
    metricMeta exampleFormat skipJournal 77 = none ∧
    (∀ (fmt : Format) (fl : Floats) (w : Wire fl) (res : List Nat) (key : Key) (skey : String)
        (v : ItemValue fl) (cache : metricIndexCache) (usedTimestamps : Option (Finset Nat)),
      key.Metric ≠ fmt.BuiltinMetricIDIngestionStatus → key.Metric ≠ cache.lastMetricID →
      metricMeta fmt cache.journal key.Metric = none → fl.le v.Counter fl.zero = false →
      ∃ (front : List Nat) (cache2 : metricIndexCache),
        appendValueStat fmt fl w res key skey v cache usedTimestamps =
          some (res ++ front ++
            minHostTuple fl w v cache.lastMetric.lastMetricSkipMinHost ++
            maxHostTuple fl w v v.Counter cache.lastMetric.lastMetricSkipMaxHost,
            cache2, usedTimestamps.map (fun m => insert key.Timestamp m))) ∧
    (∀ (fmt : Format) (fl : Floats) (w : Wire fl) (res : List Nat) (metricID : Int)
        (value : MultiValue fl w) (skey : String) (sf : fl.F64) (cache : metricIndexCache),
      metricID ≠ fmt.BuiltinMetricIDIngestionStatus → metricID ≠ cache.lastMetricID →
      metricMeta fmt cache.journal metricID = none →
      ∃ (front : List Nat) (cache2 : metricIndexCache),
        multiValueMarshal fmt fl w metricID (cache.getPrekeyIndex fmt metricID).2 res value skey
            sf =
          (res ++ front ++
            minHostTuple fl w value.Value cache.lastMetric.lastMetricSkipMinHost ++
            maxHostTuple fl w value.Value (fl.mul value.Value.Counter sf)
              cache.lastMetric.lastMetricSkipMaxHost, cache2)) ∧
    (∀ (fmt : Format) (fl : Floats) (w : Wire fl) (res : List Nat) (metricID : Int)
        (value : MultiValue fl w) (skey : String) (sf : fl.F64) (cache : metricIndexCache)
        (mm : MetricMetaValue),
      metricID ≠ fmt.BuiltinMetricIDIngestionStatus → metricID ≠ cache.lastMetricID →
      metricMeta fmt cache.journal metricID = some mm →
      ∃ (front : List Nat) (cache2 : metricIndexCache),
        multiValueMarshal fmt fl w metricID (cache.getPrekeyIndex fmt metricID).2 res value skey
            sf =
          (res ++ front ++
            minHostTuple fl w value.Value mm.SkipMinHost ++
            maxHostTuple fl w value.Value (fl.mul value.Value.Counter sf) mm.SkipMaxHost,
            cache2)) ∧
    (appendValueStat exampleFormat exactFloats exampleWire [] unknownKey "" valueCell
        (makeMetricCache exampleFormat skipJournal) (some ∅)).map (fun r => r.1.drop 120) =
      some (exampleWire.argMinMax 5 (2 : Int) ++ exampleWire.argMinMax 6 (9 : Int)) ∧
    ((appendValueStat exampleFormat exactFloats exampleWire [] (exampleKey 100) "" valueCell
        (makeMetricCache exampleFormat skipJournal) (some ∅)).bind fun r =>
      appendValueStat exampleFormat exactFloats exampleWire [] unknownKey "" valueCell
        r.2.1 r.2.2).map (fun r => r.1.drop 120) =
      some (exampleWire.argMinMaxEmpty ++ exampleWire.argMinMaxEmpty) ∧
    (insertItem exampleFormat exactFloats exampleWire exampleEmpty []
        (makeMetricCache exampleFormat skipJournal) (some ∅) (fun _ => ⟨0, 0, 0, 0, 0, 0⟩)
        unknownKey valueItem (2 : Int) 100).map (fun r => r.1.drop 120) =
      some (exampleWire.argMinMax 5 (2 : Int) ++ exampleWire.argMinMax 6 (9 : Int)) ∧
    ((insertItem exampleFormat exactFloats exampleWire exampleEmpty []
        (makeMetricCache exampleFormat skipJournal) (some ∅) (fun _ => ⟨0, 0, 0, 0, 0, 0⟩)
        (exampleKey 100) valueItem (2 : Int) 100).bind fun r =>
      insertItem exampleFormat exactFloats exampleWire exampleEmpty [] r.2.1 r.2.2.1 r.2.2.2
        unknownKey valueItem (2 : Int) 100).map (fun r => r.1.drop 120) =
      some (exampleWire.argMinMaxEmpty ++ exampleWire.argMinMaxEmpty) := by
  refine ⟨rfl, ?_, ?_, ?_, ?_, ?_, ?_, ?_⟩
  · intro fmt fl w res key skey v cache usedTimestamps hi hl hmeta hpos
    have hidx : (cache.getPrekeyIndex fmt key.Metric).1.1 < 16 := by
      rw [getPrekeyIndex_unknown fmt cache key.Metric hi hl hmeta]
      decide
    have hb := appendValueStat_bytes fmt fl w res key skey v cache usedTimestamps hpos hidx
    rw [skips_after_unknown fmt cache key.Metric hi hl hmeta] at hb
    refine ⟨keyBytes fmt cache key ++
      ((if v.ValueSet then
          aggregateBytes fl v.Counter v.ValueMin v.ValueMax v.ValueSum
            (zeroIfTrue fl v.ValueSumSquare cache.lastMetric.lastMetricSkipSumSquare)
        else aggregateBytes fl v.Counter fl.zero v.Counter fl.zero fl.zero) ++
        w.emptyCentroids ++ w.emptyUnique ++ w.string skey),
      ((cache.getPrekeyIndex fmt key.Metric).2.skips fmt key.Metric).2, ?_⟩
    rw [hb]
    unfold statBytes
    simp only [List.append_assoc]
  · intro fmt fl w res metricID value skey sf cache hi hl hmeta
    have hb := multiValueMarshal_bytes fmt fl w metricID (cache.getPrekeyIndex fmt metricID).2
      res value skey sf
    rw [skips_after_unknown fmt cache metricID hi hl hmeta] at hb
    refine ⟨(if value.Value.ValueSet then
          aggregateBytes fl (fl.mul value.Value.Counter sf) value.Value.ValueMin
            value.Value.ValueMax (fl.mul value.Value.ValueSum sf)
            (zeroIfTrue fl (fl.mul value.Value.ValueSumSquare sf)
              cache.lastMetric.lastMetricSkipSumSquare)
        else aggregateBytes fl (fl.mul value.Value.Counter sf) fl.zero
            (fl.mul value.Value.Counter sf) fl.zero fl.zero) ++
        w.centroids value.ValueTDigest sf ++ w.hll value.HLL ++ w.string skey,
      ((cache.getPrekeyIndex fmt metricID).2.skips fmt metricID).2, ?_⟩
    rw [hb]
    simp only [List.append_assoc]
  · intro fmt fl w res metricID value skey sf cache mm hi hl hmeta
    have hb := multiValueMarshal_bytes fmt fl w metricID (cache.getPrekeyIndex fmt metricID).2
      res value skey sf
    rw [skips_after_known fmt cache metricID mm hi hl hmeta] at hb
    refine ⟨(if value.Value.ValueSet then
          aggregateBytes fl (fl.mul value.Value.Counter sf) value.Value.ValueMin
            value.Value.ValueMax (fl.mul value.Value.ValueSum sf)
            (zeroIfTrue fl (fl.mul value.Value.ValueSumSquare sf) mm.SkipSumSquare)
        else aggregateBytes fl (fl.mul value.Value.Counter sf) fl.zero
            (fl.mul value.Value.Counter sf) fl.zero fl.zero) ++
        w.centroids value.ValueTDigest sf ++ w.hll value.HLL ++ w.string skey,
      ((cache.getPrekeyIndex fmt metricID).2.skips fmt metricID).2, ?_⟩
    rw [hb]
    simp only [List.append_assoc]
  · set_option maxRecDepth 100000 in decide
  · set_option maxRecDepth 100000 in decide
  · set_option maxRecDepth 100000 in decide
  · set_option maxRecDepth 100000 in decide

/-- C15 (the code departs from the claim): the `sum_square` field of a value cell follows the
`skip_sum_square` flag the one-slot cache returns, and for a metric in neither metadata table
this is, once `appendKeys` has looked the metric up, the flag of the metric that was looked up
before, not the unset flag of the metric itself.  In general, for a value cell of a metric
without metadata that is not the id in the slot: the five aggregates `appendValueStat` writes
after the key prefix are `(count, min, max, sum, 0)` when the previous metric's flag is set, and
so are the ones `multiValueMarshal` writes with the cache `appendKeys` hands over (count, sum and
sum_square scaled); for a metric with metadata the same call of `multiValueMarshal` uses the
metric's own flag, as claimed.  At a concrete input (the journal knows only metric `42`, all
three skip flags set; the value cell is `(3, 2, 9, 15, 89)`): bytes `77 .. 116` of the row of the
unknown metric `77` are `(3, 2, 9, 15, 89)` on a fresh cache, as claimed, and `(3, 2, 9, 15, 0)`
after a row of metric `42`; for the tail row written by `insertItem` with sampling factor `2`
they are `(6, 2, 9, 30, 178)` and `(6, 2, 9, 30, 0)`. -/
theorem skip_sum_square_departs :
    metricMeta exampleFormat skipJournal 77 = none ∧
    (∀ (fmt : Format) (fl : Floats) (w : Wire fl) (res : List Nat) (key : Key) (skey : String)
        (v : ItemValue fl) (cache : metricIndexCache) (usedTimestamps : Option (Finset Nat)),
      key.Metric ≠ fmt.BuiltinMetricIDIngestionStatus → key.Metric ≠ cache.lastMetricID →
      metricMeta fmt cache.journal key.Metric = none → fl.le v.Counter fl.zero = false →
      v.ValueSet = true →
      ∃ (rest : List Nat) (cache2 : metricIndexCache),
        appendValueStat fmt fl w res key skey v cache usedTimestamps =
          some (res ++ keyBytes fmt cache key ++
            aggregateBytes fl v.Counter v.ValueMin v.ValueMax v.ValueSum
              (if cache.lastMetric.lastMetricSkipSumSquare then fl.zero
                else v.ValueSumSquare) ++ rest,
            cache2, usedTimestamps.map (fun m => insert key.Timestamp m))) ∧
    (∀ (fmt : Format) (fl : Floats) (w : Wire fl) (res : List Nat) (metricID : Int)
        (value : MultiValue fl w) (skey : String) (sf : fl.F64) (cache : metricIndexCache),
      metricID ≠ fmt.BuiltinMetricIDIngestionStatus → metricID ≠ cache.lastMetricID →
      metricMeta fmt cache.journal metricID = none → value.Value.ValueSet = true →
      ∃ (rest : List Nat) (cache2 : metricIndexCache),
        multiValueMarshal fmt fl w metricID (cache.getPrekeyIndex fmt metricID).2 res value skey
            sf =
          (res ++ aggregateBytes fl (fl.mul value.Value.Counter sf) value.Value.ValueMin
              value.Value.ValueMax (fl.mul value.Value.ValueSum sf)
              (if cache.lastMetric.lastMetricSkipSumSquare then fl.zero
                else fl.mul value.Value.ValueSumSquare sf) ++ rest, cache2)) ∧
    (∀ (fmt : Format) (fl : Floats) (w : Wire fl) (res : List Nat) (metricID : Int)
        (value : MultiValue fl w) (skey : String) (sf : fl.F64) (cache : metricIndexCache)
        (mm : MetricMetaValue),
      metricID ≠ fmt.BuiltinMetricIDIngestionStatus → metricID ≠ cache.lastMetricID →
      metricMeta fmt cache.journal metricID = some mm → value.Value.ValueSet = true →
      ∃ (rest : List Nat) (cache2 : metricIndexCache),
        multiValueMarshal fmt fl w metricID (cache.getPrekeyIndex fmt metricID).2 res value skey
            sf =
          (res ++ aggregateBytes fl (fl.mul value.Value.Counter sf) value.Value.ValueMin
              value.Value.ValueMax (fl.mul value.Value.ValueSum sf)
              (if mm.SkipSumSquare then fl.zero
                else fl.mul value.Value.ValueSumSquare sf) ++ rest, cache2)) ∧
    (appendValueStat exampleFormat exactFloats exampleWire [] unknownKey "" valueCell
        (makeMetricCache exampleFormat skipJournal) (some ∅)).map
        (fun r => (r.1.drop 77).take 40) =
      some (aggregateBytes exactFloats (3 : Int) (2 : Int) (9 : Int) (15 : Int) (89 : Int)) ∧
    ((appendValueStat exampleFormat exactFloats exampleWire [] (exampleKey 100) "" valueCell
        (makeMetricCache exampleFormat skipJournal) (some ∅)).bind fun r =>
      appendValueStat exampleFormat exactFloats exampleWire [] unknownKey "" valueCell
        r.2.1 r.2.2).map (fun r => (r.1.drop 77).take 40) =
      some (aggregateBytes exactFloats (3 : Int) (2 : Int) (9 : Int) (15 : Int) (0 : Int)) ∧
    (insertItem exampleFormat exactFloats exampleWire exampleEmpty []
        (makeMetricCache exampleFormat skipJournal) (some ∅) (fun _ => ⟨0, 0, 0, 0, 0, 0⟩)
        unknownKey valueItem (2 : Int) 100).map (fun r => (r.1.drop 77).take 40) =
      some (aggregateBytes exactFloats (6 : Int) (2 : Int) (9 : Int) (30 : Int) (178 : Int)) ∧
    ((insertItem exampleFormat exactFloats exampleWire exampleEmpty []
        (makeMetricCache exampleFormat skipJournal) (some ∅) (fun _ => ⟨0, 0, 0, 0, 0, 0⟩)
        (exampleKey 100) valueItem (2 : Int) 100).bind fun r =>
      insertItem exampleFormat exactFloats exampleWire exampleEmpty [] r.2.1 r.2.2.1 r.2.2.2
        unknownKey valueItem (2 : Int) 100).map (fun r => (r.1.drop 77).take 40) =
      some (aggregateBytes exactFloats (6 : Int) (2 : Int) (9 : Int) (30 : Int) (0 : Int)) := by
  refine ⟨rfl, ?_, ?_, ?_, ?_, ?_, ?_, ?_⟩
  · intro fmt fl w res key skey v cache usedTimestamps hi hl hmeta hpos hset
    have hidx : (cache.getPrekeyIndex fmt key.Metric).1.1 < 16 := by
      rw [getPrekeyIndex_unknown fmt cache key.Metric hi hl hmeta]
      decide
    have hb := appendValueStat_bytes fmt fl w res key skey v cache usedTimestamps hpos hidx
    rw [skips_after_unknown fmt cache key.Metric hi hl hmeta] at hb
    refine ⟨w.emptyCentroids ++ w.emptyUnique ++ w.string skey ++
      minHostTuple fl w v cache.lastMetric.lastMetricSkipMinHost ++
      maxHostTuple fl w v v.Counter cache.lastMetric.lastMetricSkipMaxHost,
      ((cache.getPrekeyIndex fmt key.Metric).2.skips fmt key.Metric).2, ?_⟩
    rw [hb]
    unfold statBytes zeroIfTrue
    simp only [hset, if_true, List.append_assoc]
  · intro fmt fl w res metricID value skey sf cache hi hl hmeta hset
    have hb := multiValueMarshal_bytes fmt fl w metricID (cache.getPrekeyIndex fmt metricID).2
      res value skey sf
    rw [skips_after_unknown fmt cache metricID hi hl hmeta] at hb
    refine ⟨w.centroids value.ValueTDigest sf ++ w.hll value.HLL ++ w.string skey ++
      minHostTuple fl w value.Value cache.lastMetric.lastMetricSkipMinHost ++
      maxHostTuple fl w value.Value (fl.mul value.Value.Counter sf)
        cache.lastMetric.lastMetricSkipMaxHost,
      ((cache.getPrekeyIndex fmt metricID).2.skips fmt metricID).2, ?_⟩
    rw [hb]
    unfold zeroIfTrue
    simp only [hset, if_true, List.append_assoc]
  · intro fmt fl w res metricID value skey sf cache mm hi hl hmeta hset
    have hb := multiValueMarshal_bytes fmt fl w metricID (cache.getPrekeyIndex fmt metricID).2
      res value skey sf
    rw [skips_after_known fmt cache metricID mm hi hl hmeta] at hb
    refine ⟨w.centroids value.ValueTDigest sf ++ w.hll value.HLL ++ w.string skey ++
      minHostTuple fl w value.Value mm.SkipMinHost ++
      maxHostTuple fl w value.Value (fl.mul value.Value.Counter sf) mm.SkipMaxHost,
      ((cache.getPrekeyIndex fmt metricID).2.skips fmt metricID).2, ?_⟩
    rw [hb]
    unfold zeroIfTrue
    simp only [hset, if_true, List.append_assoc]
  · set_option maxRecDepth 100000 in decide
  · set_option maxRecDepth 100000 in decide
  · set_option maxRecDepth 100000 in decide
  · set_option maxRecDepth 100000 in decide

/-- C16, amended: for every value cell and sampling factor `sf`, `multiValueMarshal` writes
`count = Counter * sf` and `sum = ValueSum * sf`, and `sum_square = ValueSumSquare * sf` unless
the `skip_sum_square` flag that `metricCache.skips(metricID)` returns is set, in which case `0`
is written; min, max and the values in the two host tuples are the stored, unscaled ones; when
multiplying by `sf` changes nothing (as for `sf = 1`) the written count and sum are the stored
ones, and so is sum_square when that flag is not set.  The flag returned is: the ingestion-status
data for the ingestion-status metric; the flag in the slot when `metricID` is the id in the slot;
otherwise the flag of the metric's own metadata, unset for a metric in neither table.  With the
cache `appendKeys` hands over after it looked the metric up from a slot holding another id, it is
the metric's own flag for a metric with metadata and the flag of the previous metric for a metric
in neither table. -/
theorem multiValueMarshal_scaling (fmt : Format) (fl : Floats) (w : Wire fl)
    (metricID : Int) (cache : metricIndexCache) (res : List Nat) (value : MultiValue fl w)
    (skey : String) (sf : fl.F64)
    (hset : value.Value.ValueSet = true) :
    multiValueMarshal fmt fl w metricID cache res value skey sf =
      (res ++ (aggregateBytes fl (fl.mul value.Value.Counter sf) value.Value.ValueMin
          value.Value.ValueMax (fl.mul value.Value.ValueSum sf)
          (if (cache.skips fmt metricID).1.2.2 then fl.zero
            else fl.mul value.Value.ValueSumSquare sf) ++
        w.centroids value.ValueTDigest sf ++ w.hll value.HLL ++ w.string skey ++
        (if (cache.skips fmt metricID).1.2.1 then w.argMinMaxEmpty
          else w.argMinMax value.Value.MinHostTag (fl.toFloat32 value.Value.ValueMin)) ++
        (if (cache.skips fmt metricID).1.1 then w.argMinMaxEmpty
          else w.argMinMax value.Value.MaxHostTag (fl.toFloat32 value.Value.ValueMax))),
        (cache.skips fmt metricID).2) ∧
    ((∀ x : fl.F64, fl.mul x sf = x) →
      multiValueMarshal fmt fl w metricID cache res value skey sf =
        (res ++ (aggregateBytes fl value.Value.Counter value.Value.ValueMin
            value.Value.ValueMax value.Value.ValueSum
            (if (cache.skips fmt metricID).1.2.2 then fl.zero
              else value.Value.ValueSumSquare) ++
          w.centroids value.ValueTDigest sf ++ w.hll value.HLL ++ w.string skey ++
          (if (cache.skips fmt metricID).1.2.1 then w.argMinMaxEmpty
            else w.argMinMax value.Value.MinHostTag (fl.toFloat32 value.Value.ValueMin)) ++
          (if (cache.skips fmt metricID).1.1 then w.argMinMaxEmpty
            else w.argMinMax value.Value.MaxHostTag (fl.toFloat32 value.Value.ValueMax))),
          (cache.skips fmt metricID).2)) ∧
    (metricID = fmt.BuiltinMetricIDIngestionStatus →
      (cache.skips fmt metricID).1.2.2 = cache.ingestionStatusData.lastMetricSkipSumSquare) ∧
    (metricID ≠ fmt.BuiltinMetricIDIngestionStatus → metricID = cache.lastMetricID →
      (cache.skips fmt metricID).1.2.2 = cache.lastMetric.lastMetricSkipSumSquare) ∧
    (∀ mm : MetricMetaValue,
      metricID ≠ fmt.BuiltinMetricIDIngestionStatus → metricID ≠ cache.lastMetricID →
      metricMeta fmt cache.journal metricID = some mm →
      (cache.skips fmt metricID).1.2.2 = mm.SkipSumSquare) ∧
    (metricID ≠ fmt.BuiltinMetricIDIngestionStatus → metricID ≠ cache.lastMetricID →
      metricMeta fmt cache.journal metricID = none →
      (cache.skips fmt metricID).1.2.2 = false) ∧
    (∀ (cache0 : metricIndexCache) (mm : MetricMetaValue),
      metricID ≠ fmt.BuiltinMetricIDIngestionStatus → metricID ≠ cache0.lastMetricID →
      metricMeta fmt cache0.journal metricID = some mm →
      ((cache0.getPrekeyIndex fmt metricID).2.skips fmt metricID).1.2.2 = mm.SkipSumSquare) ∧
    (∀ cache0 : metricIndexCache,
      metricID ≠ fmt.BuiltinMetricIDIngestionStatus → metricID ≠ cache0.lastMetricID →
      metricMeta fmt cache0.journal metricID = none →
      ((cache0.getPrekeyIndex fmt metricID).2.skips fmt metricID).1.2.2 =
        cache0.lastMetric.lastMetricSkipSumSquare) := by
  have hrow : multiValueMarshal fmt fl w metricID cache res value skey sf =
      (res ++ (aggregateBytes fl (fl.mul value.Value.Counter sf) value.Value.ValueMin
          value.Value.ValueMax (fl.mul value.Value.ValueSum sf)
          (if (cache.skips fmt metricID).1.2.2 then fl.zero
            else fl.mul value.Value.ValueSumSquare sf) ++
        w.centroids value.ValueTDigest sf ++ w.hll value.HLL ++ w.string skey ++
        (if (cache.skips fmt metricID).1.2.1 then w.argMinMaxEmpty
          else w.argMinMax value.Value.MinHostTag (fl.toFloat32 value.Value.ValueMin)) ++
        (if (cache.skips fmt metricID).1.1 then w.argMinMaxEmpty
          else w.argMinMax value.Value.MaxHostTag (fl.toFloat32 value.Value.ValueMax))),
        (cache.skips fmt metricID).2) := by
    rw [multiValueMarshal_bytes]
    simp only [hset, if_true, zeroIfTrue, minHostTuple, maxHostTuple]
  refine ⟨hrow, fun hone => ?_, fun hi => ?_, fun hi hl => ?_, fun mm hi hl hmeta => ?_,
    fun hi hl hmeta => ?_, fun cache0 mm hi hl hmeta => ?_, fun cache0 hi hl hmeta => ?_⟩
  · rw [hrow, hone, hone, hone]
  · rw [skips_ingestion fmt cache metricID hi]
  · rw [skips_hit fmt cache metricID hi hl]
  · rw [skips_miss_known fmt cache metricID mm hi hl hmeta]
  · rw [skips_miss_unknown fmt cache metricID hi hl hmeta]
  · rw [skips_after_known fmt cache0 metricID mm hi hl hmeta]
  · rw [skips_after_unknown fmt cache0 metricID hi hl hmeta]

/-- C17 (the code departs from the claim): on a fresh cache over a journal that knows only metric
`42` (all three skip flags set; in the second journal pre-key index `1`, pre-key-only), a query
for metric `42` returns its flags, the first query for the unknown metric `77` returns
`(false, false, false)` and `(-1, false)`, but the second query for the same unknown metric
returns the data of metric `42`: `(true, true, true)` and `(1, true)`. -/
theorem metricIndexCache_repeated_unknown :
    exampleFormat.BuiltinMetrics 77 = none ∧ skipJournal 77 = none ∧ exampleJournal 77 = none ∧
    ((makeMetricCache exampleFormat skipJournal).skips exampleFormat 42).1 =
      (true, true, true) ∧
    ((((makeMetricCache exampleFormat skipJournal).skips exampleFormat 42).2.skips
      exampleFormat 77).1 = (false, false, false)) ∧
    (((((makeMetricCache exampleFormat skipJournal).skips exampleFormat 42).2.skips
      exampleFormat 77).2.skips exampleFormat 77).1 = (true, true, true)) ∧
    ((((makeMetricCache exampleFormat exampleJournal).getPrekeyIndex exampleFormat
      42).2.getPrekeyIndex exampleFormat 77).1 = (-1, false)) ∧
    (((((makeMetricCache exampleFormat exampleJournal).getPrekeyIndex exampleFormat
      42).2.getPrekeyIndex exampleFormat 77).2.getPrekeyIndex exampleFormat 77).1 =
        (1, true)) := by
  decide

/-! ## Badge rows -/

/-- For an ingestion-status key with `tags[1] != 0` and a status that is not one of the two OK
statuses, `appendBadge` is the `appendValueStat` call for the warnings badge or the errors badge,
according to whether the status is one of the six warning statuses. -/
theorem appendBadge_ingestion_status_row (fmt : Format) (bf : BadgeFormat) (fl : Floats)
    (w : Wire fl) (res : List Nat) (k : Key) (v : ItemValue fl) (cache : metricIndexCache)
    (usedTimestamps : Option (Finset Nat))
    (hneg : fmt.BuiltinMetricIDIngestionStatus < 0)
    (hk : k.Metric = fmt.BuiltinMetricIDIngestionStatus)
    (h1 : k.Keys 1 ≠ 0)
    (hc : k.Keys 2 ≠ bf.TagValueIDSrcIngestionStatusOKCached)
    (hu : k.Keys 2 ≠ bf.TagValueIDSrcIngestionStatusOKUncached) :
    appendBadge fmt bf fl w res k v cache usedTimestamps =
      appendValueStat fmt fl w res
        (badgeKey bf (mul32 (k.Timestamp / 5) 5)
          (if isIngestionWarning bf (k.Keys 2) then bf.TagValueIDBadgeIngestionWarnings
            else bf.TagValueIDBadgeIngestionErrors) (k.Keys 1)) "" v cache usedTimestamps := by
  have hlt : ¬ k.Metric ≥ 0 := by omega
  have hok : ¬ (k.Keys 2 = bf.TagValueIDSrcIngestionStatusOKCached ∨
      k.Keys 2 = bf.TagValueIDSrcIngestionStatusOKUncached) := by
    rintro (h | h)
    · exact hc h
    · exact hu h
  unfold appendBadge
  rw [if_neg hlt]
  simp only [hk, if_true]
  rw [if_neg h1, if_neg hok]
  by_cases hw : isIngestionWarning bf (k.Keys 2) = true
  · rw [if_pos hw, if_pos (of_decide_eq_true hw)]
  · rw [if_neg hw, if_neg (fun h => hw (decide_eq_true h))]

/-- C18: for an ingestion-status key (the id being negative, as all built-in ids are) and an item
value whose counter is not `<= 0`: nothing is appended when `tags[1] = 0` or `tags[2]` is
`OKCached` / `OKUncached`; otherwise exactly one row is appended: the 77-byte key prefix of the
key with metric `BuiltinMetricIDBadges`, the timestamp aligned down to a multiple of 5 and tags
`[0, BadgeIngestionWarnings, tags[1], 0, ...]`, followed by the value bytes of the item value
under the empty string key, when `tags[2]` is one of the six warning statuses, and the same with
`BadgeIngestionErrors` for every other `tags[2]`.  The key prefix is spelled out in the last
part: metric, pre-key, pre-key marker, timestamp and the 16 tags. -/
theorem appendBadge_ingestion_status (fmt : Format) (bf : BadgeFormat) (fl : Floats)
    (w : Wire fl) (res : List Nat) (k : Key) (v : ItemValue fl) (cache : metricIndexCache)
    (usedTimestamps : Option (Finset Nat))
    (hneg : fmt.BuiltinMetricIDIngestionStatus < 0)
    (hk : k.Metric = fmt.BuiltinMetricIDIngestionStatus)
    (hpos : fl.le v.Counter fl.zero = false)
    (hidx : (cache.getPrekeyIndex fmt bf.BuiltinMetricIDBadges).1.1 < 16) :
    ((k.Keys 1 = 0 ∨ k.Keys 2 = bf.TagValueIDSrcIngestionStatusOKCached ∨
        k.Keys 2 = bf.TagValueIDSrcIngestionStatusOKUncached) →
      appendBadge fmt bf fl w res k v cache usedTimestamps =
        some (res, cache, usedTimestamps)) ∧
    (k.Keys 1 ≠ 0 → k.Keys 2 ≠ bf.TagValueIDSrcIngestionStatusOKCached →
      k.Keys 2 ≠ bf.TagValueIDSrcIngestionStatusOKUncached →
      isIngestionWarning bf (k.Keys 2) = true →
      appendBadge fmt bf fl w res k v cache usedTimestamps =
        some (res ++
          keyBytes fmt cache
            { Timestamp := mul32 (k.Timestamp / 5) 5, Metric := bf.BuiltinMetricIDBadges,
              Keys := keys3 0 bf.TagValueIDBadgeIngestionWarnings (k.Keys 1) } ++
          statBytes fl w "" v
            ((cache.getPrekeyIndex fmt bf.BuiltinMetricIDBadges).2.skips fmt
              bf.BuiltinMetricIDBadges).1,
          ((cache.getPrekeyIndex fmt bf.BuiltinMetricIDBadges).2.skips fmt
            bf.BuiltinMetricIDBadges).2,
          usedTimestamps.map (fun m => insert (mul32 (k.Timestamp / 5) 5) m))) ∧
    (k.Keys 1 ≠ 0 → k.Keys 2 ≠ bf.TagValueIDSrcIngestionStatusOKCached →
      k.Keys 2 ≠ bf.TagValueIDSrcIngestionStatusOKUncached →
      isIngestionWarning bf (k.Keys 2) = false →
      appendBadge fmt bf fl w res k v cache usedTimestamps =
        some (res ++
          keyBytes fmt cache
            { Timestamp := mul32 (k.Timestamp / 5) 5, Metric := bf.BuiltinMetricIDBadges,
              Keys := keys3 0 bf.TagValueIDBadgeIngestionErrors (k.Keys 1) } ++
          statBytes fl w "" v
            ((cache.getPrekeyIndex fmt bf.BuiltinMetricIDBadges).2.skips fmt
              bf.BuiltinMetricIDBadges).1,
          ((cache.getPrekeyIndex fmt bf.BuiltinMetricIDBadges).2.skips fmt
            bf.BuiltinMetricIDBadges).2,
          usedTimestamps.map (fun m => insert (mul32 (k.Timestamp / 5) 5) m))) ∧
    (∀ badge : Int,
      keyBytes fmt cache
          { Timestamp := mul32 (k.Timestamp / 5) 5, Metric := bf.BuiltinMetricIDBadges,
            Keys := keys3 0 badge (k.Keys 1) } =
        le32 (u32 bf.BuiltinMetricIDBadges) ++
          le32 (if 0 ≤ (cache.getPrekeyIndex fmt bf.BuiltinMetricIDBadges).1.1 then
            u32 ((Key.tag
              { Timestamp := mul32 (k.Timestamp / 5) 5, Metric := bf.BuiltinMetricIDBadges,
                Keys := keys3 0 badge (k.Keys 1) }
              (cache.getPrekeyIndex fmt bf.BuiltinMetricIDBadges).1.1).getD 0) else 0) ++
          [if 0 ≤ (cache.getPrekeyIndex fmt bf.BuiltinMetricIDBadges).1.1 then
            (if (cache.getPrekeyIndex fmt bf.BuiltinMetricIDBadges).1.2 then 2 else 1) else 0] ++
          le32 (mul32 (k.Timestamp / 5) 5) ++
          (List.ofFn fun i => le32 (u32 (keys3 0 badge (k.Keys 1) i))).flatten ∧
      (keyBytes fmt cache
          { Timestamp := mul32 (k.Timestamp / 5) 5, Metric := bf.BuiltinMetricIDBadges,
            Keys := keys3 0 badge (k.Keys 1) }).length = 77) := by
  have hlt : ¬ k.Metric ≥ 0 := by omega
  refine ⟨?_, ?_, ?_, fun badge => ⟨rfl, keyBytes_length _ _ _⟩⟩
  · intro h
    unfold appendBadge
    rw [if_neg hlt]
    simp only [hk, if_true]
    by_cases h1 : k.Keys 1 = 0
    · rw [if_pos h1]
    · rw [if_neg h1, if_pos (h.resolve_left h1)]
  · intro h1 hc hu hw
    rw [appendBadge_ingestion_status_row fmt bf fl w res k v cache usedTimestamps hneg hk h1 hc
      hu, if_pos hw]
    exact appendValueStat_bytes fmt fl w res
      (badgeKey bf (mul32 (k.Timestamp / 5) 5) bf.TagValueIDBadgeIngestionWarnings (k.Keys 1))
      "" v cache usedTimestamps hpos hidx
  · intro h1 hc hu hw
    rw [appendBadge_ingestion_status_row fmt bf fl w res k v cache usedTimestamps hneg hk h1 hc
      hu, if_neg (by rw [hw]; exact Bool.false_ne_true)]
    exact appendValueStat_bytes fmt fl w res
      (badgeKey bf (mul32 (k.Timestamp / 5) 5) bf.TagValueIDBadgeIngestionErrors (k.Keys 1))
      "" v cache usedTimestamps hpos hidx

theorem writeBadgeRows_nil (fmt : Format) (bf : BadgeFormat) (fl : Floats) (w : Wire fl)
    (ts : Nat) (st : List Nat × metricIndexCache × Option (Finset Nat)) :
    writeBadgeRows fmt bf fl w ts [] st = some st := rfl

theorem writeBadgeRows_single (fmt : Format) (bf : BadgeFormat) (fl : Floats) (w : Wire fl)
    (ts : Nat) (badge tag : Int) (v : ItemValue fl) (res : List Nat) (cache : metricIndexCache)
    (used : Option (Finset Nat)) :
    writeBadgeRows fmt bf fl w ts [(badge, tag, v)] (res, cache, used) =
      appendValueStat fmt fl w res (badgeKey bf ts badge tag) "" v cache used := by
  simp [writeBadgeRows, List.foldlM]

theorem writeBadgeRows_append (fmt : Format) (bf : BadgeFormat) (fl : Floats) (w : Wire fl)
    (ts : Nat) (rows1 rows2 : List (Int × Int × ItemValue fl))
    (st : List Nat × metricIndexCache × Option (Finset Nat)) :
    writeBadgeRows fmt bf fl w ts (rows1 ++ rows2) st =
      (writeBadgeRows fmt bf fl w ts rows1 st).bind (writeBadgeRows fmt bf fl w ts rows2) := by
  simp [writeBadgeRows, List.foldlM_append]

/-- Every `appendBadge` call writes no row or one badge row at the aligned timestamp. -/
theorem appendBadge_rows (fmt : Format) (bf : BadgeFormat) (fl : Floats) (w : Wire fl)
    (k : Key) (hts : k.Timestamp < 2 ^ 32) (v : ItemValue fl)
    (st : List Nat × metricIndexCache × Option (Finset Nat)) :
    ∃ rows : List (Int × Int × ItemValue fl), rows.length ≤ 1 ∧
      appendBadge fmt bf fl w st.1 k v st.2.1 st.2.2 =
        writeBadgeRows fmt bf fl w (k.Timestamp / 5 * 5) rows st := by
  have hmul : mul32 (k.Timestamp / 5) 5 = k.Timestamp / 5 * 5 := by
    unfold mul32
    omega
  obtain ⟨res, cache, used⟩ := st
  unfold appendBadge
  rw [hmul]
  simp only
  split_ifs
  all_goals first
    | exact ⟨[], Nat.zero_le _, (writeBadgeRows_nil fmt bf fl w _ _).symm⟩
    | exact ⟨[(_, _, v)], Nat.le_refl _, (writeBadgeRows_single fmt bf fl w _ _ _ v res cache used).symm⟩

theorem appendBadge_fold_rows (fmt : Format) (bf : BadgeFormat) (fl : Floats) (w : Wire fl)
    (k : Key) (hts : k.Timestamp < 2 ^ 32) (top : List (String × MultiValue fl w)) :
    ∀ st : List Nat × metricIndexCache × Option (Finset Nat),
      ∃ rows : List (Int × Int × ItemValue fl),
        top.foldlM (fun (st : List Nat × metricIndexCache × Option (Finset Nat))
            (t : String × MultiValue fl w) =>
          appendBadge fmt bf fl w st.1 k t.2.Value st.2.1 st.2.2) st =
        writeBadgeRows fmt bf fl w (k.Timestamp / 5 * 5) rows st := by
  induction top with
  | nil => intro st; exact ⟨[], rfl⟩
  | cons t top ih =>
    intro st
    obtain ⟨rows1, _, h1⟩ := appendBadge_rows fmt bf fl w k hts t.2.Value st
    rw [List.foldlM_cons, h1]
    cases hst : writeBadgeRows fmt bf fl w (k.Timestamp / 5 * 5) rows1 st with
    | none => exact ⟨rows1, by rw [hst]; rfl⟩
    | some st1 =>
      obtain ⟨rows2, h2⟩ := ih st1
      refine ⟨rows1 ++ rows2, ?_⟩
      rw [writeBadgeRows_append, hst]
      exact h2

/-- C19: every badge row that `appendBadge` / `appendMultiBadge` appends is written for a key
with metric `BuiltinMetricIDBadges` and timestamp `ts = (k.Timestamp / 5) * 5`, the largest
multiple of `5` not exceeding the source key's timestamp (`k.Timestamp - 5 < ts <= k.Timestamp`);
for every key with metric `>= 0` both functions return the buffer unchanged. -/
theorem badge_rows_aligned (fmt : Format) (bf : BadgeFormat) (fl : Floats) (w : Wire fl)
    (k : Key) (hts : k.Timestamp < 2 ^ 32) :
    (∀ (res : List Nat) (v : ItemValue fl) (item : MultiItem fl w) (cache : metricIndexCache)
        (used : Option (Finset Nat)), 0 ≤ k.Metric →
      appendBadge fmt bf fl w res k v cache used = some (res, cache, used) ∧
      appendMultiBadge fmt bf fl w res k item cache used = some (res, cache, used)) ∧
    (∀ (res : List Nat) (v : ItemValue fl) (cache : metricIndexCache)
        (used : Option (Finset Nat)),
      ∃ rows : List (Int × Int × ItemValue fl), rows.length ≤ 1 ∧
        appendBadge fmt bf fl w res k v cache used =
          writeBadgeRows fmt bf fl w (k.Timestamp / 5 * 5) rows (res, cache, used)) ∧
    (∀ (res : List Nat) (item : MultiItem fl w) (cache : metricIndexCache)
        (used : Option (Finset Nat)),
      ∃ rows : List (Int × Int × ItemValue fl),
        appendMultiBadge fmt bf fl w res k item cache used =
          writeBadgeRows fmt bf fl w (k.Timestamp / 5 * 5) rows (res, cache, used)) ∧
    (∀ badge tag : Int,
      (badgeKey bf (k.Timestamp / 5 * 5) badge tag).Metric = bf.BuiltinMetricIDBadges ∧
      (badgeKey bf (k.Timestamp / 5 * 5) badge tag).Timestamp = k.Timestamp / 5 * 5) ∧
    5 ∣ k.Timestamp / 5 * 5 ∧ k.Timestamp / 5 * 5 ≤ k.Timestamp ∧
    k.Timestamp < k.Timestamp / 5 * 5 + 5 ∧
    (∀ m : Nat, 5 ∣ m → m ≤ k.Timestamp → m ≤ k.Timestamp / 5 * 5) := by
  refine ⟨?_, ?_, ?_, fun _ _ => ⟨rfl, rfl⟩, Dvd.intro_left _ rfl, by omega, by omega, ?_⟩
  · intro res v item cache used h0
    constructor
    · unfold appendBadge
      rw [if_pos h0]
    · unfold appendMultiBadge
      rw [if_pos h0]
  · intro res v cache used
    exact appendBadge_rows fmt bf fl w k hts v (res, cache, used)
  · intro res item cache used
    unfold appendMultiBadge
    by_cases h0 : k.Metric ≥ 0
    · rw [if_pos h0]
      exact ⟨[], rfl⟩
    · rw [if_neg h0]
      obtain ⟨rows1, h1⟩ := appendBadge_fold_rows fmt bf fl w k hts item.Top (res, cache, used)
      simp only [bind, Option.bind]
      rw [h1]
      cases hst : writeBadgeRows fmt bf fl w (k.Timestamp / 5 * 5) rows1 (res, cache, used) with
      | none => exact ⟨rows1, by rw [hst]⟩
      | some st1 =>
        obtain ⟨rows2, _, h2⟩ := appendBadge_rows fmt bf fl w k hts item.Tail.Value st1
        refine ⟨rows1 ++ rows2, ?_⟩
        rw [writeBadgeRows_append, hst]
        exact h2
  · rintro m ⟨c, rfl⟩ hm
    omega

/-! ## Rows written by `insertItem` -/

theorem metric_prekeyInRange (fmt : Format) (p : metricIndexCache) (m : Int)
    (h : prekeyInRange fmt p) : prekeyInRange fmt (p.metric fmt m).2 := by
  obtain ⟨hb, hj, hi, hl⟩ := h
  unfold metricIndexCache.metric
  by_cases hm : m = p.lastMetricID
  · rw [if_pos hm]
    exact ⟨hb, hj, hi, hl⟩
  · rw [if_neg hm]
    cases hbm : fmt.BuiltinMetrics m with
    | some bm => exact ⟨hb, hj, hi, hb m bm hbm⟩
    | none =>
      simp only
      cases hmm : p.journal m with
      | some mm => exact ⟨hb, hj, hi, hj m mm hmm⟩
      | none => exact ⟨hb, hj, hi, hl⟩

theorem getPrekeyIndex_prekeyInRange (fmt : Format) (p : metricIndexCache) (m : Int)
    (h : prekeyInRange fmt p) :
    (p.getPrekeyIndex fmt m).1.1 < 16 ∧ prekeyInRange fmt (p.getPrekeyIndex fmt m).2 := by
  have hq := metric_prekeyInRange fmt p m h
  unfold metricIndexCache.getPrekeyIndex
  by_cases hm : m = fmt.BuiltinMetricIDIngestionStatus
  · rw [if_pos hm]
    exact ⟨h.2.2.1, h⟩
  · rw [if_neg hm]
    rcases hmet : p.metric fmt m with ⟨b, q⟩
    rw [hmet] at hq
    cases b
    · exact ⟨by norm_num, hq⟩
    · exact ⟨hq.2.2.2, hq⟩

theorem skips_prekeyInRange (fmt : Format) (p : metricIndexCache) (m : Int)
    (h : prekeyInRange fmt p) : prekeyInRange fmt (p.skips fmt m).2 := by
  have hq := metric_prekeyInRange fmt p m h
  unfold metricIndexCache.skips
  by_cases hm : m = fmt.BuiltinMetricIDIngestionStatus
  · rw [if_pos hm]
    exact h
  · rw [if_neg hm]
    rcases hmet : p.metric fmt m with ⟨b, q⟩
    rw [hmet] at hq
    cases b <;> exact hq

theorem multiValueMarshal_cache (fmt : Format) (fl : Floats) (w : Wire fl) (metricID : Int)
    (cache : metricIndexCache) (res : List Nat) (value : MultiValue fl w) (skey : String)
    (sf : fl.F64) :
    (multiValueMarshal fmt fl w metricID cache res value skey sf).2 =
      (cache.skips fmt metricID).2 := by
  rcases hsk : cache.skips fmt metricID with ⟨⟨a, b, c⟩, cache1⟩
  rw [multiValueMarshal_row fmt fl w metricID cache cache1 res value skey sf a b c hsk]

/-- With pre-key indices in range a row is always written, and the range is kept. -/
theorem appendRow_total (fmt : Format) (fl : Floats) (w : Wire fl) (k : Key) (sf : fl.F64)
    (st : List Nat × metricIndexCache × Option (Finset Nat)) (e : String × MultiValue fl w)
    (h : prekeyInRange fmt st.2.1) :
    ∃ st1, appendRow fmt fl w k sf st e = some st1 ∧ prekeyInRange fmt st1.2.1 := by
  obtain ⟨hidx, hq⟩ := getPrekeyIndex_prekeyInRange fmt st.2.1 k.Metric h
  have hkeys := appendKeys_eq fmt st.1 k st.2.1 st.2.2 hidx
  unfold appendRow
  rw [hkeys]
  refine ⟨_, rfl, ?_⟩
  simp only
  rw [multiValueMarshal_cache]
  exact skips_prekeyInRange fmt _ k.Metric hq

theorem appendRow_fold_total (fmt : Format) (fl : Floats) (w : Wire fl) (k : Key) (sf : fl.F64)
    (rows : List (String × MultiValue fl w)) :
    ∀ st : List Nat × metricIndexCache × Option (Finset Nat), prekeyInRange fmt st.2.1 →
      ∃ st1, rows.foldlM (appendRow fmt fl w k sf) st = some st1 ∧
        prekeyInRange fmt st1.2.1 := by
  induction rows with
  | nil => intro st h; exact ⟨st, rfl, h⟩
  | cons e rows ih =>
    intro st h
    obtain ⟨st1, h1, hq⟩ := appendRow_total fmt fl w k sf st e h
    rw [List.foldlM_cons, h1]
    exact ih st1 hq

theorem insertItem_top_loop (fmt : Format) (fl : Floats) (w : Wire fl)
    (Empty : MultiValue fl w → Bool) (k : Key) (sf : fl.F64)
    (top : List (String × MultiValue fl w)) :
    ∀ st : List Nat × metricIndexCache × Option (Finset Nat),
      top.foldlM
        (fun (st : List Nat × metricIndexCache × Option (Finset Nat))
            (e : String × MultiValue fl w) =>
          if Empty e.2 then pure st
          else do
            let (res, metricCache, usedTimestamps) ← appendKeys fmt st.1 k st.2.1 st.2.2
            let (res, metricCache) :=
              multiValueMarshal fmt fl w k.Metric metricCache res e.2 e.1 sf
            pure (res, metricCache, usedTimestamps)) st =
      (top.filter (fun e => !Empty e.2)).foldlM (appendRow fmt fl w k sf) st := by
  induction top with
  | nil => intro st; rfl
  | cons e top ih =>
    intro st
    rw [List.foldlM_cons]
    by_cases hE : Empty e.2 = true
    · rw [if_pos hE, List.filter_cons_of_neg (by simp [hE])]
      simp only [pure_bind]
      exact ih st
    · rw [if_neg hE, List.filter_cons_of_pos (by simp [hE]), List.foldlM_cons]
      have hrow : (do
            let (res, metricCache, usedTimestamps) ← appendKeys fmt st.1 k st.2.1 st.2.2
            let (res, metricCache) :=
              multiValueMarshal fmt fl w k.Metric metricCache res e.2 e.1 sf
            pure (res, metricCache, usedTimestamps)) = appendRow fmt fl w k sf st e := by
        unfold appendRow
        cases appendKeys fmt st.1 k st.2.1 st.2.2 <;> rfl
      rw [hrow]
      cases appendRow fmt fl w k sf st e with
      | none => rfl
      | some st1 => exact ih st1

/-- The buffer, cache and timestamp set that `insertItem` leaves are those obtained by writing
the rows of the item one after the other. -/
theorem insertItem_eq_rows (fmt : Format) (fl : Floats) (w : Wire fl)
    (Empty : MultiValue fl w → Bool) (res : List Nat) (metricCache : metricIndexCache)
    (usedTimestamps : Option (Finset Nat)) (insertSizes : Nat → insertSize) (k : Key)
    (item : MultiItem fl w) (sf : fl.F64) (bucketTs : Nat) :
    (insertItem fmt fl w Empty res metricCache usedTimestamps insertSizes k item sf bucketTs).map
        (fun r => (r.1, r.2.1, r.2.2.1)) =
      (rowsOf Empty item).foldlM (appendRow fmt fl w k sf)
        (res, metricCache, usedTimestamps) := by
  unfold insertItem rowsOf
  simp only [insertItem_top_loop]
  by_cases hE : Empty item.Tail = true
  · simp only [hE, Bool.not_true, Bool.false_eq_true, if_false, if_true, pure_bind,
      List.nil_append]
    cases (List.filter (fun e => !Empty e.2) item.Top).foldlM (appendRow fmt fl w k sf)
        (res, metricCache, usedTimestamps) with
    | none => rfl
    | some st => rfl
  · simp only [hE, Bool.not_false, if_true, if_false, Bool.false_eq_true, List.singleton_append,
      List.foldlM_cons]
    cases hk : appendKeys fmt res k metricCache usedTimestamps with
    | none => simp [appendRow, hk]
    | some r =>
      obtain ⟨out, cache1, used1⟩ := r
      simp only [appendRow, hk, bind, Option.bind, pure]
      cases (List.filter (fun e => !Empty e.2) item.Top).foldlM (appendRow fmt fl w k sf)
          ((multiValueMarshal fmt fl w k.Metric cache1 out item.Tail "" sf).1,
            (multiValueMarshal fmt fl w k.Metric cache1 out item.Tail "" sf).2, used1) with
      | none => rfl
      | some st => rfl

/-- C20: for every kept `(key, multi_item, sf)`, `insertItem` writes the rows
`appendKeys(key) || multiValueMarshal(metric, mv, skey, sf)` of the item one after the other:
the tail under the empty string key when the tail is non-empty (no tail row when it is empty),
then one row for every non-empty entry `(skey, mv)` of `top`; the number of rows is
`[tail non-empty] + number of non-empty top entries`; with pre-key indices in range every row is
written and `insertItem` returns. -/
theorem insertItem_rows (fmt : Format) (fl : Floats) (w : Wire fl)
    (Empty : MultiValue fl w → Bool) (res : List Nat) (metricCache : metricIndexCache)
    (usedTimestamps : Option (Finset Nat)) (insertSizes : Nat → insertSize) (k : Key)
    (item : MultiItem fl w) (sf : fl.F64) (bucketTs : Nat) :
    (insertItem fmt fl w Empty res metricCache usedTimestamps insertSizes k item sf bucketTs).map
        (fun r => (r.1, r.2.1, r.2.2.1)) =
      (rowsOf Empty item).foldlM (appendRow fmt fl w k sf)
        (res, metricCache, usedTimestamps) ∧
    rowsOf Empty item =
      (if Empty item.Tail then [] else [("", item.Tail)]) ++
        item.Top.filter (fun e => !Empty e.2) ∧
    (rowsOf Empty item).length =
      (if Empty item.Tail then 0 else 1) + (item.Top.filter (fun e => !Empty e.2)).length ∧
    (∀ (st : List Nat × metricIndexCache × Option (Finset Nat))
        (e : String × MultiValue fl w) (out : List Nat) (cache1 : metricIndexCache)
        (used1 : Option (Finset Nat)),
      appendKeys fmt st.1 k st.2.1 st.2.2 = some (out, cache1, used1) →
      appendRow fmt fl w k sf st e =
        some ((multiValueMarshal fmt fl w k.Metric cache1 out e.2 e.1 sf).1,
          (multiValueMarshal fmt fl w k.Metric cache1 out e.2 e.1 sf).2, used1)) ∧
    (prekeyInRange fmt metricCache →
      ∃ r, insertItem fmt fl w Empty res metricCache usedTimestamps insertSizes k item sf
        bucketTs = some r) := by
  have heq := insertItem_eq_rows fmt fl w Empty res metricCache usedTimestamps insertSizes k
    item sf bucketTs
  refine ⟨heq, rfl, ?_, ?_, ?_⟩
  · unfold rowsOf
    rw [List.length_append]
    by_cases hE : Empty item.Tail = true
    · rw [if_pos hE, if_pos hE]
      rfl
    · rw [if_neg hE, if_neg hE]
      rfl
  · intro st e out cache1 used1 hk
    unfold appendRow
    rw [hk]
  · intro h
    obtain ⟨st1, h1, _⟩ := appendRow_fold_total fmt fl w k sf (rowsOf Empty item)
      (res, metricCache, usedTimestamps) h
    rw [h1] at heq
    cases hins : insertItem fmt fl w Empty res metricCache usedTimestamps insertSizes k item sf
        bucketTs with
    | none => rw [hins] at heq; cases heq
    | some r => exact ⟨r, rfl⟩

/-! ## The insert budget -/

/-- Wrap-around leaves an integer in the `int64` range alone. -/
theorem wrap64_of_inInt64 {x : Int} (h : inInt64 x) : wrap64 x = x := by
  unfold inInt64 at h
  unfold wrap64
  norm_num at h ⊢
  omega

/-- The loop over the buckets sums the contributions as long as no partial sum leaves the
`int64` range. -/
theorem numContributors_fold (fl : Floats) (fo : FloatOps fl) {w : Wire fl} :
    ∀ (buckets : List (aggregatorBucket fl w)) (acc : Int),
      (∀ k, k ≤ buckets.length → 
        inInt64 (acc + ((buckets.take k).map (bucketContributors fl fo)).sum)) →
      buckets.foldl
        (fun n b =>
          wrap64 (n + fo.toInt (fo.add b.contributorsOriginal.Counter b.contributorsSpare.Counter)))
        acc = acc + (buckets.map (bucketContributors fl fo)).sum
  | [], acc, _ => by simp
  | b :: bs, acc, h => by
    have h1 := h 1 (by simp)
    simp only [List.take_succ_cons, List.take_zero, List.map_cons, List.map_nil, List.sum_cons,
      List.sum_nil, add_zero] at h1
    rw [List.foldl_cons]
    have hb : wrap64 (acc + fo.toInt
        (fo.add b.contributorsOriginal.Counter b.contributorsSpare.Counter)) =
        acc + bucketContributors fl fo b := wrap64_of_inInt64 h1
    rw [hb, numContributors_fold fl fo bs (acc + bucketContributors fl fo b)]
    · simp [add_assoc]
    · intro k hk
      have := h (k + 1) (by simpa using hk)
      simpa [add_assoc] using this

/-- C23: the budget passed to the sampler is `InsertBudgetFixed + InsertBudget * numContributors`,
where `numContributors` is the sum over the buckets of the contributor counters
`contributorsOriginal.Counter + contributorsSpare.Counter`, each sum converted to an integer,
as long as the partial sums, the product and the total stay in the range of `int64`. -/
theorem remainingBudget_eq (fl : Floats) (fo : FloatOps fl) {w : Wire fl}
    (InsertBudgetFixed InsertBudget : Int) (buckets : List (aggregatorBucket fl w))
    (hsum : ∀ k, k ≤ buckets.length →
      inInt64 (((buckets.take k).map (bucketContributors fl fo)).sum))
    (hmul : inInt64 (InsertBudget * (buckets.map (bucketContributors fl fo)).sum))
    (hadd : inInt64 (InsertBudgetFixed +
      InsertBudget * (buckets.map (bucketContributors fl fo)).sum)) :
    numContributors fl fo buckets = (buckets.map (bucketContributors fl fo)).sum ∧
    remainingBudget fl fo InsertBudgetFixed InsertBudget buckets =
      budgetSpec fl fo InsertBudgetFixed InsertBudget buckets := by
  have hn : numContributors fl fo buckets = (buckets.map (bucketContributors fl fo)).sum := by
    unfold numContributors
    rw [numContributors_fold fl fo buckets 0 (by simpa using hsum)]
    simp
  refine ⟨hn, ?_⟩
  unfold remainingBudget budgetSpec
  rw [hn, wrap64_of_inInt64 hmul, wrap64_of_inInt64 hadd]
  rfl

/-! ## Classification of the items and the accounting metric -/

/-- With pre-key indices in range, `appendValueStat` returns, and leaves them in range. -/
theorem appendValueStat_total (fmt : Format) (fl : Floats) (w : Wire fl) (res : List Nat)
    (key : Key) (skey : String) (v : ItemValue fl) (cache : metricIndexCache)
    (usedTimestamps : Option (Finset Nat)) (h : prekeyInRange fmt cache) :
    ∃ st1, appendValueStat fmt fl w res key skey v cache usedTimestamps = some st1 ∧
      prekeyInRange fmt st1.2.1 := by
  by_cases hle : fl.le v.Counter fl.zero = true
  · exact ⟨(res, cache, usedTimestamps), by simp [appendValueStat, hle], h⟩
  · have hidx := getPrekeyIndex_prekeyInRange fmt cache key.Metric h
    have hk := appendKeys_eq fmt res key cache usedTimestamps hidx.1
    have hrow := appendValueStat_row fmt fl w res _ key skey v cache _
      (((cache.getPrekeyIndex fmt key.Metric).2).skips fmt key.Metric).2 usedTimestamps _
      (((cache.getPrekeyIndex fmt key.Metric).2).skips fmt key.Metric).1.1
      (((cache.getPrekeyIndex fmt key.Metric).2).skips fmt key.Metric).1.2.1
      (((cache.getPrekeyIndex fmt key.Metric).2).skips fmt key.Metric).1.2.2
      (by simpa using hle) hk rfl
    exact ⟨_, hrow, skips_prekeyInRange fmt _ key.Metric hidx.2⟩

/-- With pre-key indices in range, `appendBadge` returns, and leaves them in range. -/
theorem appendBadge_total (fmt : Format) (bf : BadgeFormat) (fl : Floats) (w : Wire fl)
    (res : List Nat) (k : Key) (v : ItemValue fl) (cache : metricIndexCache)
    (usedTimestamps : Option (Finset Nat)) (h : prekeyInRange fmt cache) :
    ∃ st1, appendBadge fmt bf fl w res k v cache usedTimestamps = some st1 ∧
      prekeyInRange fmt st1.2.1 := by
  unfold appendBadge
  simp only
  split_ifs
  all_goals first
    | exact ⟨(res, cache, usedTimestamps), rfl, h⟩
    | exact appendValueStat_total fmt fl w res _ _ v cache usedTimestamps h

/-- With pre-key indices in range, the loop of `appendMultiBadge` over the top entries returns. -/
theorem appendBadge_fold_total (fmt : Format) (bf : BadgeFormat) (fl : Floats) (w : Wire fl)
    (k : Key) (top : List (String × MultiValue fl w)) :
    ∀ st : List Nat × metricIndexCache × Option (Finset Nat), prekeyInRange fmt st.2.1 →
      ∃ st1, top.foldlM (fun (st : List Nat × metricIndexCache × Option (Finset Nat))
            (t : String × MultiValue fl w) =>
          appendBadge fmt bf fl w st.1 k t.2.Value st.2.1 st.2.2) st = some st1 ∧
        prekeyInRange fmt st1.2.1 := by
  induction top with
  | nil => intro st h; exact ⟨st, rfl, h⟩
  | cons t top ih =>
    intro st h
    obtain ⟨st1, h1, hq⟩ := appendBadge_total fmt bf fl w st.1 k t.2.Value st.2.1 st.2.2 h
    rw [List.foldlM_cons, h1]
    exact ih st1 hq

/-- With pre-key indices in range, `appendMultiBadge` returns, and leaves them in range. -/
theorem appendMultiBadge_total (fmt : Format) (bf : BadgeFormat) (fl : Floats) (w : Wire fl)
    (res : List Nat) (k : Key) (v : MultiItem fl w) (cache : metricIndexCache)
    (usedTimestamps : Option (Finset Nat)) (h : prekeyInRange fmt cache) :
    ∃ st1, appendMultiBadge fmt bf fl w res k v cache usedTimestamps = some st1 ∧
      prekeyInRange fmt st1.2.1 := by
  unfold appendMultiBadge
  by_cases hm : k.Metric ≥ 0
  · exact ⟨(res, cache, usedTimestamps), by simp [hm], h⟩
  · obtain ⟨st1, h1, hq⟩ := appendBadge_fold_total fmt bf fl w k v.Top
      (res, cache, usedTimestamps) h
    simp only [hm, if_false]
    rw [h1]
    exact appendBadge_total fmt bf fl w st1.1 k v.Tail.Value st1.2.1 st1.2.2 hq

/-- With pre-key indices in range, `insertItem` returns, and leaves them in range. -/
theorem insertItem_total (fmt : Format) (fl : Floats) (w : Wire fl)
    (Empty : MultiValue fl w → Bool) (res : List Nat) (metricCache : metricIndexCache)
    (usedTimestamps : Option (Finset Nat)) (insertSizes : Nat → insertSize) (k : Key)
    (item : MultiItem fl w) (sf : fl.F64) (bucketTs : Nat)
    (h : prekeyInRange fmt metricCache) :
    ∃ r, insertItem fmt fl w Empty res metricCache usedTimestamps insertSizes k item sf
        bucketTs = some r ∧ prekeyInRange fmt r.2.1 := by
  obtain ⟨st1, h1, hq⟩ := appendRow_fold_total fmt fl w k sf (rowsOf Empty item)
    (res, metricCache, usedTimestamps) h
  have heq := insertItem_eq_rows fmt fl w Empty res metricCache usedTimestamps insertSizes k
    item sf bucketTs
  rw [h1] at heq
  cases hr : insertItem fmt fl w Empty res metricCache usedTimestamps insertSizes k item sf
      bucketTs with
  | none => rw [hr] at heq; simp at heq
  | some r =>
    rw [hr] at heq
    simp only [Option.map_some', Option.some.injEq] at heq
    refine ⟨r, rfl, ?_⟩
    rw [← heq] at hq
    exact hq

/-- The loop body for one item, case by case: after the badge rows, a candidate kept
unconditionally goes through `insertItem` with sampling factor `1` and to `samplerStat.Keep`;
every other goes to `sampler.Add` only. -/
theorem marshalItem_eq (fmt : Format) (bf : BadgeFormat) (fl : Floats) (fo : FloatOps fl)
    (w : Wire fl) (ops : ItemOps fl w) (StringTopCountInsert : Int) (bTime : Nat)
    (st : MarshalState fl w) (is : insertSize) (k : Key) (item0 : MultiItem fl w) :
    marshalItem fmt bf fl fo w ops StringTopCountInsert bTime st is k item0 =
      match appendMultiBadge fmt bf fl w st.res k
          (ops.FinishStringTop item0 StringTopCountInsert).1 st.metricCache
          st.usedTimestamps with
      | none => none
      | some bst =>
        if keptUnconditionally fmt k = true then
          match insertItem fmt fl w ops.Empty bst.1 bst.2.1 bst.2.2 st.insertSizes k
              (ops.FinishStringTop item0 StringTopCountInsert).1 fo.one bTime with
          | none => none
          | some r =>
            some (⟨r.1, r.2.1, r.2.2.1, r.2.2.2, st.samplerAdded,
              st.samplerStatKept ++
                [⟨k, (ops.FinishStringTop item0 StringTopCountInsert).1,
                  (ops.FinishStringTop item0 StringTopCountInsert).2,
                  ops.RowBinarySizeEstimate (ops.FinishStringTop item0 StringTopCountInsert).1,
                  k.Metric, bTime⟩]⟩,
              { is with builtin := is.builtin + ((bst.1.length : Int) - st.res.length) })
        else
          some (⟨bst.1, bst.2.1, bst.2.2, st.insertSizes,
            st.samplerAdded ++
              [⟨k, (ops.FinishStringTop item0 StringTopCountInsert).1,
                (ops.FinishStringTop item0 StringTopCountInsert).2,
                ops.RowBinarySizeEstimate (ops.FinishStringTop item0 StringTopCountInsert).1,
                if k.Metric < 0 ∧ k.Metric = fmt.BuiltinMetricIDIngestionStatus ∧ k.Keys 1 ≠ 0 then k.Keys 1 else k.Metric, bTime⟩],
            st.samplerStatKept⟩,
            { is with builtin := is.builtin + ((bst.1.length : Int) - st.res.length) }) := by
  unfold marshalItem keptUnconditionally
  simp only [bind, Option.bind, pure]
  cases hb : appendMultiBadge fmt bf fl w st.res k
      (ops.FinishStringTop item0 StringTopCountInsert).1 st.metricCache st.usedTimestamps with
  | none => rfl
  | some bst =>
    obtain ⟨res1, c1, u1⟩ := bst
    by_cases hneg : k.Metric < 0
    · by_cases hing : k.Metric = fmt.BuiltinMetricIDIngestionStatus
      · simp [hneg, hing]
      · cases hhw : fmt.HardwareMetric k.Metric with
        | true => simp [hneg, hing, hhw]
        | false =>
          simp only [hneg, hing, hhw]
          cases hins : insertItem fmt fl w ops.Empty res1 c1 u1 st.insertSizes k
              (ops.FinishStringTop item0 StringTopCountInsert).1 fo.one bTime with
          | none => simp [hins]
          | some r => simp [hins]
    · simp [hneg]

/-- With pre-key indices in range the loop body returns; what it hands to the sampler and to
the statistics. -/
theorem marshalItem_step (fmt : Format) (bf : BadgeFormat) (fl : Floats) (fo : FloatOps fl)
    (w : Wire fl) (ops : ItemOps fl w) (StringTopCountInsert : Int) (bTime : Nat)
    (st : MarshalState fl w) (is : insertSize) (e : Key × MultiItem fl w)
    (h : prekeyInRange fmt st.metricCache) :
    ∃ r, marshalItem fmt bf fl fo w ops StringTopCountInsert bTime st is e.1 e.2 = some r ∧
      prekeyInRange fmt r.1.metricCache ∧
      r.1.samplerAdded = st.samplerAdded ++
        ([e].filter (fun e => !keptUnconditionally fmt e.1)).map
          (samplerPair ops StringTopCountInsert bTime (fun k =>
            if k.Metric < 0 ∧ k.Metric = fmt.BuiltinMetricIDIngestionStatus ∧ k.Keys 1 ≠ 0
            then k.Keys 1 else k.Metric)) ∧
      r.1.samplerStatKept = st.samplerStatKept ++
        ([e].filter (fun e => keptUnconditionally fmt e.1)).map
          (samplerPair ops StringTopCountInsert bTime (fun k => k.Metric)) := by
  obtain ⟨bst, hb, hq⟩ := appendMultiBadge_total fmt bf fl w st.res e.1
    (ops.FinishStringTop e.2 StringTopCountInsert).1 st.metricCache st.usedTimestamps h
  have heq := marshalItem_eq fmt bf fl fo w ops StringTopCountInsert bTime st is e.1 e.2
  rw [hb] at heq
  simp only at heq
  by_cases hk : keptUnconditionally fmt e.1 = true
  · obtain ⟨r, hr, hrq⟩ := insertItem_total fmt fl w ops.Empty bst.1 bst.2.1 bst.2.2
      st.insertSizes e.1 (ops.FinishStringTop e.2 StringTopCountInsert).1 fo.one bTime hq
    rw [hr] at heq
    simp only [hk, if_true] at heq
    exact ⟨_, heq, hrq, by simp [hk], by simp [hk, samplerPair]⟩
  · simp only [hk, if_false] at heq
    exact ⟨_, heq, hq, by simp [hk, samplerPair], by simp [hk]⟩

/-- The loop over the items of a bucket: what it hands to the sampler and to the statistics. -/
theorem marshalItems_fold (fmt : Format) (bf : BadgeFormat) (fl : Floats) (fo : FloatOps fl)
    (w : Wire fl) (ops : ItemOps fl w) (StringTopCountInsert : Int) (bTime : Nat)
    (es : List (Key × MultiItem fl w)) :
    ∀ (acc : MarshalState fl w × insertSize), prekeyInRange fmt acc.1.metricCache →
      ∃ r, es.foldlM
          (fun (acc : MarshalState fl w × insertSize) (e : Key × MultiItem fl w) =>
            marshalItem fmt bf fl fo w ops StringTopCountInsert bTime acc.1 acc.2 e.1 e.2)
          acc = some r ∧
        prekeyInRange fmt r.1.metricCache ∧
        r.1.samplerAdded = acc.1.samplerAdded ++
          (es.filter (fun e => !keptUnconditionally fmt e.1)).map
            (samplerPair ops StringTopCountInsert bTime (fun k =>
              if k.Metric < 0 ∧ k.Metric = fmt.BuiltinMetricIDIngestionStatus ∧ k.Keys 1 ≠ 0
              then k.Keys 1 else k.Metric)) ∧
        r.1.samplerStatKept = acc.1.samplerStatKept ++
          (es.filter (fun e => keptUnconditionally fmt e.1)).map
            (samplerPair ops StringTopCountInsert bTime (fun k => k.Metric)) := by
  induction es with
  | nil => intro acc h; exact ⟨acc, rfl, h, by simp, by simp⟩
  | cons e es ih =>
    intro acc h
    obtain ⟨r1, h1, hq1, ha1, hs1⟩ := marshalItem_step fmt bf fl fo w ops StringTopCountInsert
      bTime acc.1 acc.2 e h
    obtain ⟨r2, h2, hq2, ha2, hs2⟩ := ih r1 hq1
    rw [List.foldlM_cons, h1]
    refine ⟨r2, h2, hq2, ?_, ?_⟩
    · rw [ha2, ha1, List.append_assoc, ← List.map_append, ← List.filter_append]
      rfl
    · rw [hs2, hs1, List.append_assoc, ← List.map_append, ← List.filter_append]
      rfl

/-- Filtering and mapping bucket by bucket, then projecting, is filtering and mapping the
concatenation. -/
theorem flatten_filter_map {α β γ δ : Type} (items : α → List β) (p : β → Bool)
    (g : α → β → γ) (proj : γ → δ) (h : β → δ) (hg : ∀ a e, proj (g a e) = h e) :
    ∀ (l : List α),
      ((l.map fun a => ((items a).filter p).map (g a)).flatten).map proj =
        ((l.map items).flatten.filter p).map h
  | [] => rfl
  | a :: l => by
    simp only [List.map_cons, List.flatten_cons, List.map_append, List.filter_append,
      flatten_filter_map items p g proj h hg l, List.map_map]
    congr 1
    apply List.map_congr_left
    intro e _
    exact hg a e

/-- The loop over the buckets: what it hands to the sampler and to the statistics. -/
theorem marshalBuckets_fold (fmt : Format) (bf : BadgeFormat) (fl : Floats) (fo : FloatOps fl)
    (w : Wire fl) (ops : ItemOps fl w) (StringTopCountInsert : Int)
    (buckets : List (aggregatorBucket fl w)) :
    ∀ (st : MarshalState fl w), prekeyInRange fmt st.metricCache →
      ∃ st1, marshalBuckets fmt bf fl fo w ops StringTopCountInsert st buckets = some st1 ∧
        prekeyInRange fmt st1.metricCache ∧
        st1.samplerAdded = st.samplerAdded ++
          (buckets.map fun b =>
            (b.shards.flatten.filter (fun e => !keptUnconditionally fmt e.1)).map
              (samplerPair ops StringTopCountInsert b.time (fun k =>
                if k.Metric < 0 ∧ k.Metric = fmt.BuiltinMetricIDIngestionStatus ∧ k.Keys 1 ≠ 0
                then k.Keys 1 else k.Metric))).flatten ∧
        st1.samplerStatKept = st.samplerStatKept ++
          (buckets.map fun b =>
            (b.shards.flatten.filter (fun e => keptUnconditionally fmt e.1)).map
              (samplerPair ops StringTopCountInsert b.time (fun k => k.Metric))).flatten := by
  induction buckets with
  | nil => intro st h; exact ⟨st, rfl, h, by simp, by simp⟩
  | cons b bs ih =>
    intro st h
    obtain ⟨r, hr, hq, ha, hs⟩ := marshalItems_fold fmt bf fl fo w ops StringTopCountInsert
      b.time b.shards.flatten (st, ⟨0, 0, 0, 0, 0, 0⟩) h
    obtain ⟨st1, h1, hq1, ha1, hs1⟩ := ih
      { r.1 with insertSizes := addSizes r.1.insertSizes b.time r.2 } hq
    refine ⟨st1, ?_, hq1, ?_, ?_⟩
    · unfold marshalBuckets at h1 ⊢
      rw [List.foldlM_cons]
      simp only [bind, Option.bind, pure] at hr ⊢
      rw [hr]
      exact h1
    · rw [ha1]; simp only [ha]; simp
    · rw [hs1]; simp only [hs]; simp

/-- The cache over `exampleJournal` holds pre-key indices in range. -/
theorem exampleCache_prekeyInRange :
    prekeyInRange exampleFormat (makeMetricCache exampleFormat exampleJournal) :=
  ⟨fun m bm h => by simp [exampleFormat] at h,
    fun m mm h => by
      simp only [makeMetricCache, exampleFormat, exampleJournal] at h
      split_ifs at h
      cases h
      decide,
    by decide, by decide⟩

/-- C21: with pre-key indices in range the classification loop returns; the pairs it hands to
`sampler.Add` are, in order, exactly the entries that are not kept unconditionally, and the
pairs it hands to `samplerStat.Keep` exactly those that are, where kept unconditionally means
a negative metric id that is neither the ingestion status nor a hardware metric.  For such an
entry the loop body leaves the sampler alone and runs `insertItem` with sampling factor `1` on
the state left by the badge rows; for every other entry the loop body adds exactly one pair to
the sampler and the encoder state is the one left by the badge rows (`insertItem` is not run,
the size map is untouched). -/
theorem marshal_classification (fmt : Format) (bf : BadgeFormat) (fl : Floats)
    (fo : FloatOps fl) (w : Wire fl) (ops : ItemOps fl w) (StringTopCountInsert : Int)
    (st : MarshalState fl w) (buckets : List (aggregatorBucket fl w))
    (h : prekeyInRange fmt st.metricCache) :
    (∃ st1, marshalBuckets fmt bf fl fo w ops StringTopCountInsert st buckets = some st1 ∧
      st1.samplerAdded.map (fun p => (p.Key, p.Item)) =
        st.samplerAdded.map (fun p => (p.Key, p.Item)) ++
          ((buckets.map fun b => b.shards.flatten).flatten.filter
            (fun e => !keptUnconditionally fmt e.1)).map
            (fun e => (e.1, (ops.FinishStringTop e.2 StringTopCountInsert).1)) ∧
      st1.samplerStatKept.map (fun p => (p.Key, p.Item)) =
        st.samplerStatKept.map (fun p => (p.Key, p.Item)) ++
          ((buckets.map fun b => b.shards.flatten).flatten.filter
            (fun e => keptUnconditionally fmt e.1)).map
            (fun e => (e.1, (ops.FinishStringTop e.2 StringTopCountInsert).1))) ∧
    (∀ (k : Key), keptUnconditionally fmt k = true ↔
      (k.Metric < 0 ∧ k.Metric ≠ fmt.BuiltinMetricIDIngestionStatus ∧
        fmt.HardwareMetric k.Metric = false)) ∧
    (∀ (bTime : Nat) (st0 : MarshalState fl w) (is : insertSize) (k : Key)
        (item0 : MultiItem fl w) (r : MarshalState fl w × insertSize),
      marshalItem fmt bf fl fo w ops StringTopCountInsert bTime st0 is k item0 = some r →
      (keptUnconditionally fmt k = true →
        r.1.samplerAdded = st0.samplerAdded ∧
        ∃ bst, appendMultiBadge fmt bf fl w st0.res k
            (ops.FinishStringTop item0 StringTopCountInsert).1 st0.metricCache
            st0.usedTimestamps = some bst ∧
          insertItem fmt fl w ops.Empty bst.1 bst.2.1 bst.2.2 st0.insertSizes k
            (ops.FinishStringTop item0 StringTopCountInsert).1 fo.one bTime =
            some (r.1.res, r.1.metricCache, r.1.usedTimestamps, r.1.insertSizes)) ∧
      (keptUnconditionally fmt k = false →
        (∃ p, r.1.samplerAdded = st0.samplerAdded ++ [p] ∧ p.Key = k ∧
          p.Item = (ops.FinishStringTop item0 StringTopCountInsert).1) ∧
        r.1.samplerStatKept = st0.samplerStatKept ∧
        r.1.insertSizes = st0.insertSizes ∧
        appendMultiBadge fmt bf fl w st0.res k
            (ops.FinishStringTop item0 StringTopCountInsert).1 st0.metricCache
            st0.usedTimestamps = some (r.1.res, r.1.metricCache, r.1.usedTimestamps))) := by
  refine ⟨?_, ?_, ?_⟩
  · obtain ⟨st1, h1, _, ha, hs⟩ := marshalBuckets_fold fmt bf fl fo w ops StringTopCountInsert
      buckets st h
    refine ⟨st1, h1, ?_, ?_⟩
    · have hf := flatten_filter_map (fun (b : aggregatorBucket fl w) => b.shards.flatten)
        (fun e => !keptUnconditionally fmt e.1)
        (fun b => samplerPair ops StringTopCountInsert b.time (fun k =>
          if k.Metric < 0 ∧ k.Metric = fmt.BuiltinMetricIDIngestionStatus ∧ k.Keys 1 ≠ 0
          then k.Keys 1 else k.Metric))
        (fun p => (p.Key, p.Item))
        (fun e => (e.1, (ops.FinishStringTop e.2 StringTopCountInsert).1)) (fun _ _ => rfl)
        buckets
      rw [ha, List.map_append, hf]
    · have hf := flatten_filter_map (fun (b : aggregatorBucket fl w) => b.shards.flatten)
        (fun e => keptUnconditionally fmt e.1)
        (fun b => samplerPair ops StringTopCountInsert b.time (fun k => k.Metric))
        (fun p => (p.Key, p.Item))
        (fun e => (e.1, (ops.FinishStringTop e.2 StringTopCountInsert).1)) (fun _ _ => rfl)
        buckets
      rw [hs, List.map_append, hf]
  · intro k
    simp [keptUnconditionally]
  · intro bTime st0 is k item0 r hr
    rw [marshalItem_eq] at hr
    cases hb : appendMultiBadge fmt bf fl w st0.res k
        (ops.FinishStringTop item0 StringTopCountInsert).1 st0.metricCache
        st0.usedTimestamps with
    | none => rw [hb] at hr; simp at hr
    | some bst =>
      rw [hb] at hr
      simp only at hr
      constructor
      · intro hk
        simp only [hk, if_true] at hr
        cases hins : insertItem fmt fl w ops.Empty bst.1 bst.2.1 bst.2.2 st0.insertSizes k
            (ops.FinishStringTop item0 StringTopCountInsert).1 fo.one bTime with
        | none => rw [hins] at hr; simp at hr
        | some q =>
          rw [hins] at hr
          simp only [Option.some.injEq] at hr
          subst hr
          exact ⟨rfl, bst, rfl, hins⟩
      · intro hk
        simp only [hk, Bool.false_eq_true, if_false, Option.some.injEq] at hr
        subst hr
        exact ⟨⟨_, rfl, rfl, rfl⟩, rfl, rfl, rfl⟩

/-- C22: every pair handed to `sampler.Add` carries the key and the item of its entry unchanged
(the item as `FinishStringTop` left it at the top of the loop body), the time of its bucket,
and as accounting metric `tags[1]` when the key is an ingestion-status row with
`tags[1] != 0` and the metric id of the key otherwise; the ingestion-status id is negative,
as every built-in id. -/
theorem marshal_account_metric (fmt : Format) (bf : BadgeFormat) (fl : Floats)
    (fo : FloatOps fl) (w : Wire fl) (ops : ItemOps fl w) (StringTopCountInsert : Int)
    (st : MarshalState fl w) (buckets : List (aggregatorBucket fl w))
    (h : prekeyInRange fmt st.metricCache) (hneg : fmt.BuiltinMetricIDIngestionStatus < 0) :
    ∃ st1, marshalBuckets fmt bf fl fo w ops StringTopCountInsert st buckets = some st1 ∧
      st1.samplerAdded = st.samplerAdded ++
        (buckets.map fun b =>
          (b.shards.flatten.filter (fun e => !keptUnconditionally fmt e.1)).map
            (samplerPair ops StringTopCountInsert b.time (accountMetric fmt))).flatten ∧
      (∀ p ∈ st1.samplerAdded, p ∈ st.samplerAdded ∨
        ∃ b ∈ buckets, ∃ e ∈ b.shards.flatten,
          p.Key = e.1 ∧ p.Item = (ops.FinishStringTop e.2 StringTopCountInsert).1 ∧
          p.BucketTs = b.time ∧
          p.MetricID =
            (if e.1.Metric = fmt.BuiltinMetricIDIngestionStatus ∧ e.1.Keys 1 ≠ 0 then e.1.Keys 1
            else e.1.Metric)) := by
  obtain ⟨st1, h1, _, ha, _⟩ := marshalBuckets_fold fmt bf fl fo w ops StringTopCountInsert
    buckets st h
  have hacc : (fun (k : Key) =>
      if k.Metric < 0 ∧ k.Metric = fmt.BuiltinMetricIDIngestionStatus ∧ k.Keys 1 ≠ 0
      then k.Keys 1 else k.Metric) = accountMetric fmt := by
    funext k
    unfold accountMetric
    by_cases hi : k.Metric = fmt.BuiltinMetricIDIngestionStatus
    · have : k.Metric < 0 := by rw [hi]; exact hneg
      by_cases h1 : k.Keys 1 = 0
      · simp [hi, h1]
      · simp [hi, h1, hneg]
    · simp [hi]
  rw [hacc] at ha
  refine ⟨st1, h1, ha, ?_⟩
  intro p hp
  rw [ha, List.mem_append] at hp
  rcases hp with hp | hp
  · exact Or.inl hp
  · right
    simp only [List.mem_flatten, List.mem_map] at hp
    obtain ⟨l, ⟨b, hb, rfl⟩, hp⟩ := hp
    obtain ⟨e, he, rfl⟩ := List.mem_map.mp hp
    exact ⟨b, hb, e, (List.mem_filter.mp he).1, rfl, rfl, rfl, rfl⟩

/-! ## The journal hash tag -/

/-- A hexadecimal digit is below `16`. -/
theorem hexVal_lt {c : Char} {a : Nat} (h : hexVal c = some a) : a < 16 := by
  unfold hexVal at h
  split_ifs at h <;> simp at h <;> omega

/-- Bitwise or with a value shifted beyond the low bits is addition. -/
theorem or_shiftLeft (lo hi i : Nat) (h : lo < 2 ^ i) : lo ||| (hi <<< i) = hi * 2 ^ i + lo := by
  rw [Nat.shiftLeft_eq, Nat.or_comm, Nat.mul_comm, ← Nat.mul_add_lt_is_or h]

/-- Every decoded value is a byte. -/
theorem hexDecode_lt : ∀ (cs : List Char) (x : Nat), x ∈ hexDecode cs → x < 256
  | [], x, h => by simp [hexDecode] at h
  | [_], x, h => by simp [hexDecode] at h
  | p :: q :: rest, x, h => by
    unfold hexDecode at h
    cases hp : hexVal p with
    | none => simp [hp] at h
    | some a =>
      cases hq : hexVal q with
      | none => simp [hp, hq] at h
      | some b =>
        simp only [hp, hq, List.mem_cons] at h
        rcases h with h | h
        · have ha := hexVal_lt hp
          have hb := hexVal_lt hq
          rw [h, Nat.or_comm, or_shiftLeft b a 4 (by omega)]
          omega
        · exact hexDecode_lt rest x h

/-- Reading a list of bytes with default `0` gives a byte. -/
theorem getD_lt (b : List Nat) (h : ∀ x ∈ b, x < 256) (i : Nat) : b.getD i 0 < 256 := by
  by_cases hi : i < b.length
  · rw [List.getD_eq_getElem b 0 hi]
    exact h _ (List.getElem_mem hi)
  · rw [List.getD_eq_default b 0 (by omega)]
    omega

/-- The shifts and ors of `BigEndianUint32` on bytes are the big-endian positional value, a
32-bit value. -/
theorem BigEndianUint32_eq (b : List Nat) (h : ∀ x ∈ b, x < 256) :
    BigEndianUint32 b = b.getD 0 0 * 2 ^ 24 + b.getD 1 0 * 2 ^ 16 + b.getD 2 0 * 2 ^ 8 + b.getD 3 0
      ∧ BigEndianUint32 b < 2 ^ 32 := by
  have h0 := getD_lt b h 0
  have h1 := getD_lt b h 1
  have h2 := getD_lt b h 2
  have h3 := getD_lt b h 3
  unfold BigEndianUint32
  rw [or_shiftLeft _ _ 8 (by omega), or_shiftLeft _ _ 16 (by omega),
    or_shiftLeft _ _ 24 (by omega)]
  omega

/-! ## Runs of `addBuiltInsLocked` -/

/-- The drain loop for an existing bucket, as the specification describes it. -/
theorem drainBuiltIns_some (fl : Floats) (fo : FloatOps fl) {Items : Type}
    (bucket : MetricsBucket Items) :
    ∀ (vs : List (Key × ItemValue fl)),
      drainBuiltIns fl fo (some bucket) vs =
        some (vs.map (drainedEntry fl fo), drainMerges fl fo vs)
  | [] => rfl
  | v :: vs => by
    unfold drainBuiltIns
    rw [drainBuiltIns_some fl fo bucket vs]
    by_cases h : fo.lt fl.zero v.2.Counter = true
    · simp [h, drainedEntry, drainMerges]
    · simp [h, drainedEntry, drainMerges]

/-- A bucket time was read only from an existing bucket. -/
theorem bucketTime_some {Items : Type} (s : Shard Items) (R r : Int) (time : Nat)
    (h : bucketTime s R r = some time) :
    ∃ bucket, indexBuckets s.CurrentBuckets R r = some (some bucket) ∧ bucket.Time = time := by
  unfold bucketTime at h
  cases hi : indexBuckets s.CurrentBuckets R r with
  | none => simp [hi] at h
  | some p =>
    cases p with
    | none => simp [hi] at h
    | some bucket =>
      simp [hi] at h
      exact ⟨bucket, rfl, h⟩

/-- The journal-version step is `journalOnChange` when the bucket `CurrentBuckets[1][0]`
exists. -/
theorem journalVersionStep_eq {Items : Type} (fl : Floats) (bfmt : BuiltinFormat)
    (s : Shard Items) (b : ShardBuiltins fl) (ag : Agent) (metricStorage : Option (Int × String))
    (time1 : Nat) (h1 : bucketTime s 1 0 = some time1) :
    journalVersionStep fl bfmt s b ag metricStorage =
      some (journalOnChange fl bfmt ag time1 b metricStorage) := by
  unfold journalVersionStep journalOnChange writeJournalVersion journalVersionRow
  cases metricStorage with
  | none => rfl
  | some p =>
    obtain ⟨version, hash⟩ := p
    simp only [h1, bind, Option.bind, pure]
    by_cases hh : hash = b.currentJournalHash
    · simp [hh]
    · by_cases hp : b.currentJournalHashSeconds = 0
      · simp [hh, hp]
      · simp [hh, hp]

/-- A run on shard `0` returns when the two buckets it uses exist, with the shard fields, agent
and updates that the specification describes. -/
theorem addBuiltInsLocked_shard0 {Items : Type} (fl : Floats) (fo : FloatOps fl)
    (bfmt : BuiltinFormat) (commit : String) (s : Shard Items) (b : ShardBuiltins fl)
    (ag : Agent) (nowUnix : Nat) (inp : TickInput) (time1 time60 : Nat)
    (hs : b.ShardNum = 0) (h1 : bucketTime s 1 0 = some time1)
    (h60 : bucketTime s 60 ag.heartBeatSecondBucket = some time60) :
    addBuiltInsLocked fl fo bfmt commit s b ag nowUnix inp =
      some (shardAfter fl fo bfmt ag time1 time60 b nowUnix inp, agentAfter bfmt ag inp,
        updatesOfRun fl fo bfmt commit ag time1 time60 b nowUnix inp) := by
  obtain ⟨bucket1, hi1, _⟩ := bucketTime_some s 1 0 time1 h1
  obtain ⟨bucket60, hi60, _⟩ := bucketTime_some s 60 _ time60 h60
  obtain ⟨sn, vals, ver, hash, tag, pend⟩ := b
  simp only at hs
  subst hs
  unfold addBuiltInsLocked shardAfter agentAfter updatesOfRun startRows minuteRows cpuRows
    journalOnMinute journalOnChange journalVersionStep writeJournalVersion
    addBuiltInsHeartbeatsLocked heartbeatPair journalVersionRow
  simp only [hi1, h1, h60, hi60, bind, Option.bind, pure, drainBuiltIns_some, ne_eq,
    not_true_eq_false, if_false]
  cases hst : inp.metricStorage with
  | none =>
    by_cases he : ag.heartBeatEventType = bfmt.TagValueIDHeartbeatEventHeartbeat <;>
    by_cases hm : nowUnix % 60 = 0 <;>
    by_cases hp : pend = 0 <;>
    simp [he, hm, hp]
  | some p =>
    obtain ⟨version1, hash1⟩ := p
    by_cases hh : hash1 = hash
    · by_cases he : ag.heartBeatEventType = bfmt.TagValueIDHeartbeatEventHeartbeat <;>
      by_cases hm : nowUnix % 60 = 0 <;>
      by_cases hp : incrSeconds pend = 0 <;>
      simp [he, hm, hp, hh]
    · by_cases he : ag.heartBeatEventType = bfmt.TagValueIDHeartbeatEventHeartbeat <;>
      by_cases hm : nowUnix % 60 = 0 <;>
      by_cases hp : pend = 0 <;>
      simp [he, hm, hp, hh]

/-- A run on another shard than `0` only drains the built-in entries. -/
theorem addBuiltInsLocked_other_shard {Items : Type} (fl : Floats) (fo : FloatOps fl)
    (bfmt : BuiltinFormat) (commit : String) (s : Shard Items) (b : ShardBuiltins fl)
    (ag : Agent) (nowUnix : Nat) (inp : TickInput) (time1 : Nat)
    (hs : b.ShardNum ≠ 0) (h1 : bucketTime s 1 0 = some time1) :
    addBuiltInsLocked fl fo bfmt commit s b ag nowUnix inp =
      some ({ b with BuiltInItemValues := b.BuiltInItemValues.map (drainedEntry fl fo) }, ag,
        drainMerges fl fo b.BuiltInItemValues) := by
  obtain ⟨bucket1, hi1, _⟩ := bucketTime_some s 1 0 time1 h1
  unfold addBuiltInsLocked
  simp [hi1, bind, Option.bind, pure, drainBuiltIns_some, hs]

/-- No merge of the drain passes a filter that rejects merges. -/
theorem filter_drainMerges (fl : Floats) (fo : FloatOps fl) (p : BuiltinWrite fl → Bool)
    (hp : ∀ k v, p (BuiltinWrite.mergeTail 1 0 k v) = false)
    (vs : List (Key × ItemValue fl)) : (drainMerges fl fo vs).filter p = [] := by
  unfold drainMerges
  rw [List.filter_eq_nil_iff]
  intro x hx
  obtain ⟨v, _, rfl⟩ := List.mem_map.mp hx
  simp [hp]

/-- A run keeps the shard number; the entries afterwards are the drained ones. -/
theorem shardAfter_ShardNum (fl : Floats) (fo : FloatOps fl) (bfmt : BuiltinFormat) (ag : Agent)
    (time1 time60 : Nat) (b : ShardBuiltins fl) (nowUnix : Nat) (inp : TickInput) :
    (shardAfter fl fo bfmt ag time1 time60 b nowUnix inp).ShardNum = b.ShardNum ∧
    (shardAfter fl fo bfmt ag time1 time60 b nowUnix inp).BuiltInItemValues =
      b.BuiltInItemValues.map (drainedEntry fl fo) := by
  unfold shardAfter journalOnMinute journalOnChange
  cases inp.metricStorage with
  | none => constructor <;> (simp only; split_ifs <;> rfl)
  | some p => constructor <;> (simp only; split_ifs <;> rfl)

/-- The journal-version rows of a run: those of the change, then the one of the minute mark. -/
theorem journalRows_updatesOfRun (fl : Floats) (fo : FloatOps fl) (bfmt : BuiltinFormat)
    (commit : String) (ag : Agent) (time1 time60 : Nat) (b : ShardBuiltins fl) (nowUnix : Nat)
    (inp : TickInput) :
    journalRows (updatesOfRun fl fo bfmt commit ag time1 time60 b nowUnix inp) =
      (journalOnChange fl bfmt ag time1 b inp.metricStorage).2 ++
      (journalOnMinute fl bfmt ag time60
        (journalOnChange fl bfmt ag time1 b inp.metricStorage).1 nowUnix).2 := by
  unfold updatesOfRun journalRows
  simp only [List.filter_append]
  rw [filter_drainMerges fl fo _ (fun _ _ => rfl)]
  unfold startRows minuteRows cpuRows journalOnMinute journalOnChange heartbeatPair
    journalVersionRow
  cases inp.metricStorage with
  | none => simp only; split_ifs <;> simp
  | some p => simp only; split_ifs <;> simp

/-- The journal counts of updates are the counts of their journal rows. -/
theorem journalCounts_eq_map {fl : Floats} (ws : List (BuiltinWrite fl)) :
    journalCounts ws = journalCounts (journalRows ws) := by
  unfold journalCounts journalRows
  induction ws with
  | nil => rfl
  | cons w ws ih =>
    cases w <;> simp [List.filterMap_cons, List.filter_cons, ih]

/-- The heartbeat rows with count `1` of a run are the start event. -/
theorem heartbeatRows_updatesOfRun (fl : Floats) (fo : FloatOps fl) (bfmt : BuiltinFormat)
    (commit : String) (ag : Agent) (time1 time60 : Nat) (b : ShardBuiltins fl) (nowUnix : Nat)
    (inp : TickInput) :
    heartbeatRows 1 (updatesOfRun fl fo bfmt commit ag time1 time60 b nowUnix inp) =
      startRows fl fo bfmt commit ag time1 nowUnix := by
  unfold updatesOfRun heartbeatRows
  simp only [List.filter_append]
  rw [filter_drainMerges fl fo _ (fun _ _ => rfl)]
  unfold startRows minuteRows cpuRows journalOnMinute journalOnChange heartbeatPair
    journalVersionRow
  cases inp.metricStorage with
  | none => simp only; split_ifs <;> simp
  | some p => simp only; split_ifs <;> simp

/-- The merges of a run are those of the drain. -/
theorem tailMerges_updatesOfRun (fl : Floats) (fo : FloatOps fl) (bfmt : BuiltinFormat)
    (commit : String) (ag : Agent) (time1 time60 : Nat) (b : ShardBuiltins fl) (nowUnix : Nat)
    (inp : TickInput) :
    tailMerges (updatesOfRun fl fo bfmt commit ag time1 time60 b nowUnix inp) =
      drainMerges fl fo b.BuiltInItemValues := by
  have hd : tailMerges (drainMerges fl fo b.BuiltInItemValues) =
      drainMerges fl fo b.BuiltInItemValues := by
    unfold tailMerges drainMerges
    rw [List.filter_eq_self]
    intro x hx
    obtain ⟨v, _, rfl⟩ := List.mem_map.mp hx
    rfl
  unfold updatesOfRun
  unfold tailMerges at hd ⊢
  simp only [List.filter_append, hd]
  unfold startRows minuteRows cpuRows journalOnMinute journalOnChange heartbeatPair
    journalVersionRow
  cases inp.metricStorage with
  | none => simp only; split_ifs <;> simp
  | some p => simp only; split_ifs <;> simp

/-- One run with metric storage accounts for exactly one second, and leaves nothing pending at
a minute mark. -/
theorem journal_tick (fl : Floats) (fo : FloatOps fl) (bfmt : BuiltinFormat)
    (commit : String) (ag : Agent) (time1 time60 : Nat) (b : ShardBuiltins fl) (nowUnix : Nat)
    (inp : TickInput) (hst : inp.metricStorage.isSome = true)
    (hp : b.currentJournalHashSeconds < 2 ^ 53) :
    (journalCounts (updatesOfRun fl fo bfmt commit ag time1 time60 b nowUnix inp)).sum +
        (shardAfter fl fo bfmt ag time1 time60 b nowUnix inp).currentJournalHashSeconds =
      b.currentJournalHashSeconds + 1 ∧
    (nowUnix % 60 = 0 →
      (shardAfter fl fo bfmt ag time1 time60 b nowUnix inp).currentJournalHashSeconds = 0) := by
  rw [journalCounts_eq_map, journalRows_updatesOfRun]
  unfold shardAfter journalOnMinute journalOnChange journalVersionRow journalCounts incrSeconds
  cases hs : inp.metricStorage with
  | none => simp [hs] at hst
  | some p =>
    obtain ⟨version, hash⟩ := p
    simp only [hp, if_true]
    constructor
    · split_ifs <;> simp <;> omega
    · intro hm
      split_ifs <;> simp_all

/-- The first of several runs on shard `0`. -/
theorem runTicks_cons_shard0 {Items : Type} (fl : Floats) (fo : FloatOps fl)
    (bfmt : BuiltinFormat) (commit : String) (b : ShardBuiltins fl) (ag : Agent)
    (t : Tick Items) (rest : List (Tick Items)) (time1 time60 : Nat)
    (hs : b.ShardNum = 0) (h1 : bucketTime t.s 1 0 = some time1)
    (h60 : bucketTime t.s 60 ag.heartBeatSecondBucket = some time60) :
    runTicks fl fo bfmt commit b ag (t :: rest) =
      (runTicks fl fo bfmt commit (shardAfter fl fo bfmt ag time1 time60 b t.nowUnix t.inp)
        (agentAfter bfmt ag t.inp) rest).map
        (fun r => (r.1, r.2.1,
          updatesOfRun fl fo bfmt commit ag time1 time60 b t.nowUnix t.inp :: r.2.2)) := by
  rw [runTicks, addBuiltInsLocked_shard0 fl fo bfmt commit t.s b ag t.nowUnix t.inp time1 time60
    hs h1 h60]
  simp only
  cases runTicks fl fo bfmt commit (shardAfter fl fo bfmt ag time1 time60 b t.nowUnix t.inp)
      (agentAfter bfmt ag t.inp) rest with
  | none => rfl
  | some r => rfl

/-- Runs on shard `0` return as long as the two buckets they use exist; the heartbeat start
event can only be in the first of them. -/
theorem runTicks_shard0 {Items : Type} (fl : Floats) (fo : FloatOps fl) (bfmt : BuiltinFormat)
    (commit : String) (ticks : List (Tick Items)) :
    ∀ (b : ShardBuiltins fl) (ag : Agent), b.ShardNum = 0 →
      (∀ t ∈ ticks, (bucketTime t.s 1 0).isSome = true ∧
        (bucketTime t.s 60 ag.heartBeatSecondBucket).isSome = true) →
      ∃ b1 ag1 wss, runTicks fl fo bfmt commit b ag ticks = some (b1, ag1, wss) ∧
        wss.length = ticks.length ∧ b1.ShardNum = 0 ∧
        ag1.heartBeatSecondBucket = ag.heartBeatSecondBucket ∧
        ag1.AggKey = ag.AggKey ∧ ag1.componentTag = ag.componentTag ∧
        (ticks ≠ [] → ag1.heartBeatEventType = bfmt.TagValueIDHeartbeatEventHeartbeat) ∧
        (ag.heartBeatEventType = bfmt.TagValueIDHeartbeatEventHeartbeat →
          ag1.heartBeatEventType = bfmt.TagValueIDHeartbeatEventHeartbeat ∧
          ∀ ws ∈ wss, heartbeatRows 1 ws = []) ∧
        (∀ ws ∈ wss.tail, heartbeatRows 1 ws = []) ∧
        (∀ t ws time1, ticks.head? = some t → wss.head? = some ws →
          bucketTime t.s 1 0 = some time1 →
          heartbeatRows 1 ws = startRows fl fo bfmt commit ag time1 t.nowUnix) := by
  induction ticks with
  | nil =>
    intro b ag hs _
    exact ⟨b, ag, [], rfl, rfl, hs, rfl, rfl, rfl, by simp, fun h => ⟨h, by simp⟩, by simp,
      by simp⟩
  | cons t rest ih =>
    intro b ag hs hb
    obtain ⟨hb1, hb60⟩ := hb t (List.mem_cons_self _ _)
    obtain ⟨time1, h1⟩ := Option.isSome_iff_exists.mp hb1
    obtain ⟨time60, h60⟩ := Option.isSome_iff_exists.mp hb60
    have hsn := (shardAfter_ShardNum fl fo bfmt ag time1 time60 b t.nowUnix t.inp).1
    obtain ⟨b1, ag1, wss, hr, hlen, hs1, hhb, hk, hc, _, hkeep, _, _⟩ :=
      ih (shardAfter fl fo bfmt ag time1 time60 b t.nowUnix t.inp) (agentAfter bfmt ag t.inp)
        (by rw [hsn]; exact hs)
        (fun u hu => hb u (List.mem_cons_of_mem _ hu))
    obtain ⟨hty, hnone⟩ := hkeep rfl
    refine ⟨b1, ag1, updatesOfRun fl fo bfmt commit ag time1 time60 b t.nowUnix t.inp :: wss,
      ?_, by simp [hlen], hs1, hhb, hk, hc, fun _ => hty, fun he => ⟨hty, ?_⟩, ?_, ?_⟩
    · rw [runTicks_cons_shard0 fl fo bfmt commit b ag t rest time1 time60 hs h1 h60, hr]
      rfl
    · intro ws hws
      rcases List.mem_cons.mp hws with rfl | hws
      · rw [heartbeatRows_updatesOfRun]
        simp [startRows, he]
      · exact hnone ws hws
    · intro ws hws
      exact hnone ws (by simpa using hws)
    · intro u ws time1' hu hws h1'
      simp only [List.head?_cons, Option.some.injEq] at hu hws
      subst hu
      subst hws
      rw [h1] at h1'
      cases h1'
      exact heartbeatRows_updatesOfRun fl fo bfmt commit ag time1 time60 b _ _

/-- Conservation of the journal-version samples over runs on shard `0` with metric storage. -/
theorem runTicks_journal {Items : Type} (fl : Floats) (fo : FloatOps fl) (bfmt : BuiltinFormat)
    (commit : String) (ticks : List (Tick Items)) :
    ∀ (b : ShardBuiltins fl) (ag : Agent) (b1 : ShardBuiltins fl) (ag1 : Agent)
      (wss : List (List (BuiltinWrite fl))), b.ShardNum = 0 →
      (∀ t ∈ ticks, (bucketTime t.s 1 0).isSome = true ∧
        (bucketTime t.s 60 ag.heartBeatSecondBucket).isSome = true) →
      (∀ t ∈ ticks, t.inp.metricStorage.isSome = true) →
      b.currentJournalHashSeconds + ticks.length ≤ 2 ^ 53 →
      runTicks fl fo bfmt commit b ag ticks = some (b1, ag1, wss) →
      (journalCounts wss.flatten).sum + b1.currentJournalHashSeconds =
          b.currentJournalHashSeconds + ticks.length ∧
      (∀ t, ticks.getLast? = some t → t.nowUnix % 60 = 0 →
        b1.currentJournalHashSeconds = 0) := by
  induction ticks with
  | nil =>
    intro b ag b1 ag1 wss _ _ _ _ hr
    simp only [runTicks, Option.some.injEq, Prod.mk.injEq] at hr
    obtain ⟨rfl, _, rfl⟩ := hr
    simp [journalCounts]
  | cons t rest ih =>
    intro b ag b1 ag1 wss hs hb hst hf hr
    obtain ⟨hb1, hb60⟩ := hb t (List.mem_cons_self _ _)
    obtain ⟨time1, h1⟩ := Option.isSome_iff_exists.mp hb1
    obtain ⟨time60, h60⟩ := Option.isSome_iff_exists.mp hb60
    have hsn := (shardAfter_ShardNum fl fo bfmt ag time1 time60 b t.nowUnix t.inp).1
    simp only [List.length_cons] at hf
    obtain ⟨hsum, hmin⟩ := journal_tick fl fo bfmt commit ag time1 time60 b t.nowUnix t.inp
      (hst t (List.mem_cons_self _ _)) (by omega)
    rw [runTicks_cons_shard0 fl fo bfmt commit b ag t rest time1 time60 hs h1 h60] at hr
    cases hrest : runTicks fl fo bfmt commit
        (shardAfter fl fo bfmt ag time1 time60 b t.nowUnix t.inp) (agentAfter bfmt ag t.inp)
        rest with
    | none => rw [hrest] at hr; simp at hr
    | some r =>
      obtain ⟨b2, ag2, wss2⟩ := r
      rw [hrest] at hr
      simp only [Option.map_some', Option.some.injEq, Prod.mk.injEq] at hr
      obtain ⟨rfl, rfl, rfl⟩ := hr
      obtain ⟨hsum2, hmin2⟩ := ih (shardAfter fl fo bfmt ag time1 time60 b t.nowUnix t.inp) (agentAfter bfmt ag t.inp)
        b2 ag2 wss2 (by rw [hsn]; exact hs)
        (fun u hu => hb u (List.mem_cons_of_mem _ hu))
        (fun u hu => hst u (List.mem_cons_of_mem _ hu)) (by omega) hrest
      constructor
      · have hcat : journalCounts
            (updatesOfRun fl fo bfmt commit ag time1 time60 b t.nowUnix t.inp ::
              wss2).flatten =
            journalCounts (updatesOfRun fl fo bfmt commit ag time1 time60 b t.nowUnix t.inp) ++
              journalCounts wss2.flatten := by
          simp [journalCounts, List.filterMap_append]
        rw [hcat, List.sum_append, List.length_cons]
        omega
      · intro u hu hm
        cases rest with
        | nil =>
          simp only [List.getLast?_singleton, Option.some.injEq] at hu
          subst hu
          simp only [runTicks, Option.some.injEq, Prod.mk.injEq] at hrest
          obtain ⟨rfl, _, _⟩ := hrest
          exact hmin hm
        | cons v rest2 =>
          rw [List.getLast?_cons_cons] at hu
          exact hmin2 u hu hm

/-- Runs on shard `0` that find the stored hash unchanged and are not at a minute mark write no
journal-version row; each adds one pending second. -/
theorem runTicks_unchanged {Items : Type} (fl : Floats) (fo : FloatOps fl)
    (bfmt : BuiltinFormat) (commit : String) (ticks : List (Tick Items)) :
    ∀ (b : ShardBuiltins fl) (ag : Agent) (b1 : ShardBuiltins fl) (ag1 : Agent)
      (wss : List (List (BuiltinWrite fl))), b.ShardNum = 0 →
      (∀ t ∈ ticks, (bucketTime t.s 1 0).isSome = true ∧
        (bucketTime t.s 60 ag.heartBeatSecondBucket).isSome = true) →
      (∀ t ∈ ticks, ∃ version, t.inp.metricStorage = some (version, b.currentJournalHash)) →
      (∀ t ∈ ticks, t.nowUnix % 60 ≠ 0) →
      b.currentJournalHashSeconds + ticks.length ≤ 2 ^ 53 →
      runTicks fl fo bfmt commit b ag ticks = some (b1, ag1, wss) →
      (∀ ws ∈ wss, journalRows ws = []) ∧
      b1.currentJournalHashSeconds = b.currentJournalHashSeconds + ticks.length ∧
      b1.currentJournalVersion = b.currentJournalVersion ∧
      b1.currentJournalHash = b.currentJournalHash ∧
      b1.currentJournalHashTag = b.currentJournalHashTag := by
  induction ticks with
  | nil =>
    intro b ag b1 ag1 wss _ _ _ _ _ hr
    simp only [runTicks, Option.some.injEq, Prod.mk.injEq] at hr
    obtain ⟨rfl, _, rfl⟩ := hr
    simp
  | cons t rest ih =>
    intro b ag b1 ag1 wss hs hb hsame hnot hf hr
    obtain ⟨hb1, hb60⟩ := hb t (List.mem_cons_self _ _)
    obtain ⟨time1, h1⟩ := Option.isSome_iff_exists.mp hb1
    obtain ⟨time60, h60⟩ := Option.isSome_iff_exists.mp hb60
    obtain ⟨version, hver⟩ := hsame t (List.mem_cons_self _ _)
    have hm := hnot t (List.mem_cons_self _ _)
    simp only [List.length_cons] at hf
    have hlt : b.currentJournalHashSeconds < 2 ^ 53 := by omega
    have hsn := (shardAfter_ShardNum fl fo bfmt ag time1 time60 b t.nowUnix t.inp).1
    have hafter : (shardAfter fl fo bfmt ag time1 time60 b t.nowUnix t.inp).currentJournalHashSeconds
          = b.currentJournalHashSeconds + 1 ∧
        (shardAfter fl fo bfmt ag time1 time60 b t.nowUnix t.inp).currentJournalVersion =
          b.currentJournalVersion ∧
        (shardAfter fl fo bfmt ag time1 time60 b t.nowUnix t.inp).currentJournalHash =
          b.currentJournalHash ∧
        (shardAfter fl fo bfmt ag time1 time60 b t.nowUnix t.inp).currentJournalHashTag =
          b.currentJournalHashTag := by
      unfold shardAfter journalOnMinute journalOnChange incrSeconds
      simp [hver, hm]
      omega
    have hrows : journalRows (updatesOfRun fl fo bfmt commit ag time1 time60 b t.nowUnix t.inp)
        = [] := by
      rw [journalRows_updatesOfRun]
      unfold journalOnMinute journalOnChange
      simp [hver, hm]
    rw [runTicks_cons_shard0 fl fo bfmt commit b ag t rest time1 time60 hs h1 h60] at hr
    cases hrest : runTicks fl fo bfmt commit
        (shardAfter fl fo bfmt ag time1 time60 b t.nowUnix t.inp) (agentAfter bfmt ag t.inp)
        rest with
    | none => rw [hrest] at hr; simp at hr
    | some r =>
      obtain ⟨b2, ag2, wss2⟩ := r
      rw [hrest] at hr
      simp only [Option.map_some', Option.some.injEq, Prod.mk.injEq] at hr
      obtain ⟨rfl, rfl, rfl⟩ := hr
      obtain ⟨hrows2, hp2, hv2, hh2, ht2⟩ := ih (shardAfter fl fo bfmt ag time1 time60 b t.nowUnix t.inp) (agentAfter bfmt ag t.inp)
        b2 ag2 wss2 (by rw [hsn]; exact hs)
        (fun u hu => hb u (List.mem_cons_of_mem _ hu))
        (fun u hu => by rw [hafter.2.2.1]; exact hsame u (List.mem_cons_of_mem _ hu))
        (fun u hu => hnot u (List.mem_cons_of_mem _ hu)) (by rw [hafter.1]; omega) hrest
      refine ⟨?_, ?_, by rw [hv2, hafter.2.1], by rw [hh2, hafter.2.2.1],
        by rw [ht2, hafter.2.2.2]⟩
      · intro ws hws
        rcases List.mem_cons.mp hws with rfl | hws
        · exact hrows
        · exact hrows2 ws hws
      · rw [hp2, hafter.1, List.length_cons]
        omega

/-- C24: the journal hash tag computed by `addBuiltInsLocked` is the big-endian reading of the
first four bytes of the hex-decoded state hash, reinterpreted as an `int32`, when at least four
bytes were decoded, and `0` when fewer were; it is the tag stored when the hash changes. -/
theorem journalHashTag_big_endian (metricJournalHash : String) :
    (∀ x ∈ hexDecode metricJournalHash.toList, x < 256) ∧
    (4 ≤ (hexDecode metricJournalHash.toList).length →
      journalHashTag metricJournalHash = beInt32 (hexDecode metricJournalHash.toList) ∧
      -2 ^ 31 ≤ journalHashTag metricJournalHash ∧ journalHashTag metricJournalHash < 2 ^ 31) ∧
    ((hexDecode metricJournalHash.toList).length < 4 → journalHashTag metricJournalHash = 0) ∧
    (∀ {Items : Type} (fl : Floats) (bfmt : BuiltinFormat) (s : Shard Items)
        (b : ShardBuiltins fl) (ag : Agent) (version : Int) (time1 : Nat),
      bucketTime s 1 0 = some time1 → metricJournalHash ≠ b.currentJournalHash →
      ∃ b1 ws, journalVersionStep fl bfmt s b ag (some (version, metricJournalHash)) =
          some (b1, ws) ∧
        b1.currentJournalHashTag = journalHashTag metricJournalHash) := by
  have hlt := hexDecode_lt metricJournalHash.toList
  obtain ⟨heq, hbound⟩ := BigEndianUint32_eq (hexDecode metricJournalHash.toList) hlt
  refine ⟨hlt, ?_, ?_, ?_⟩
  · intro h4
    have htag : journalHashTag metricJournalHash =
        i32 (BigEndianUint32 (hexDecode metricJournalHash.toList)) := by
      unfold journalHashTag
      exact if_pos h4
    refine ⟨?_, ?_, ?_⟩
    · rw [htag, heq]
      rfl
    · rw [htag]
      unfold i32
      split_ifs <;> omega
    · rw [htag]
      unfold i32
      split_ifs <;> omega
  · intro h4
    unfold journalHashTag
    exact if_neg (Nat.not_le.mpr h4)
  · intro Items fl bfmt s b ag version time1 h1 hne
    rw [journalVersionStep_eq fl bfmt s b ag _ time1 h1]
    have htag : (journalOnChange fl bfmt ag time1 b
        (some (version, metricJournalHash))).1.currentJournalHashTag =
        journalHashTag metricJournalHash := by
      simp [journalOnChange, hne]
    exact ⟨_, _, rfl, htag⟩

/-- C25: on shard `0` with metric storage, over any sequence of runs whose buckets exist, the
counts of the journal-version rows written plus the pending seconds afterwards equal the
pending seconds before plus the number of runs; nothing is pending after a run at a minute
mark; hence sixty runs that start with nothing pending and end on a minute mark write counts
that sum to `60`.  The pending seconds stay below `2^53`, where a `float64` counts exactly. -/
theorem journal_conservation {Items : Type} (fl : Floats) (fo : FloatOps fl)
    (bfmt : BuiltinFormat) (commit : String) (ticks : List (Tick Items))
    (b : ShardBuiltins fl) (ag : Agent) (hs : b.ShardNum = 0)
    (hb : ∀ t ∈ ticks, (bucketTime t.s 1 0).isSome = true ∧
      (bucketTime t.s 60 ag.heartBeatSecondBucket).isSome = true)
    (hst : ∀ t ∈ ticks, t.inp.metricStorage.isSome = true)
    (hf : b.currentJournalHashSeconds + ticks.length ≤ 2 ^ 53) :
    ∃ b1 ag1 wss, runTicks fl fo bfmt commit b ag ticks = some (b1, ag1, wss) ∧
      wss.length = ticks.length ∧
      (journalCounts wss.flatten).sum + b1.currentJournalHashSeconds =
        b.currentJournalHashSeconds + ticks.length ∧
      (∀ t, ticks.getLast? = some t → t.nowUnix % 60 = 0 → b1.currentJournalHashSeconds = 0) ∧
      (b.currentJournalHashSeconds = 0 → ticks.length = 60 →
        (∀ t, ticks.getLast? = some t → t.nowUnix % 60 = 0) →
        (journalCounts wss.flatten).sum = 60) := by
  obtain ⟨b1, ag1, wss, hr, hlen, _⟩ := runTicks_shard0 fl fo bfmt commit ticks b ag hs hb
  obtain ⟨hsum, hmin⟩ := runTicks_journal fl fo bfmt commit ticks b ag b1 ag1 wss hs hb hst hf hr
  refine ⟨b1, ag1, wss, hr, hlen, hsum, hmin, ?_⟩
  intro h0 h60 hlast
  cases hl : ticks.getLast? with
  | none =>
    rw [List.getLast?_eq_none_iff] at hl
    rw [hl] at h60
    simp at h60
  | some t =>
    have := hmin t hl (hlast t hl)
    omega

/-- C26: on shard `0`, starting with nothing pending, runs that find the stored hash and are
not at a minute mark write no journal-version row; if the next run finds another hash it
writes one row for the old version, hash and tag whose count is the number of those runs (none
if there was no such run) and one row with count `1` for the new hash, both in
`CurrentBuckets[1][0]`; if instead the next run is at a minute mark with the hash unchanged it
writes exactly one row, whose count is the number of runs since the last row, that run
included, in `CurrentBuckets[60][heartBeatSecondBucket]`. -/
theorem journal_version_stability {Items : Type} (fl : Floats) (fo : FloatOps fl)
    (bfmt : BuiltinFormat) (commit : String) (ticks : List (Tick Items))
    (b : ShardBuiltins fl) (ag : Agent) (hs : b.ShardNum = 0)
    (hzero : b.currentJournalHashSeconds = 0) (hlen : ticks.length < 2 ^ 53)
    (hb : ∀ t ∈ ticks, (bucketTime t.s 1 0).isSome = true ∧
      (bucketTime t.s 60 ag.heartBeatSecondBucket).isSome = true)
    (hsame : ∀ t ∈ ticks, ∃ version,
      t.inp.metricStorage = some (version, b.currentJournalHash))
    (hnot : ∀ t ∈ ticks, t.nowUnix % 60 ≠ 0) :
    ∃ b1 ag1 wss, runTicks fl fo bfmt commit b ag ticks = some (b1, ag1, wss) ∧
      wss.length = ticks.length ∧ (∀ ws ∈ wss, journalRows ws = []) ∧
      b1.currentJournalHashSeconds = ticks.length ∧
      (∀ (t : Tick Items) (time1 time60 : Nat) (version : Int) (hash : String),
        bucketTime t.s 1 0 = some time1 →
        bucketTime t.s 60 ag.heartBeatSecondBucket = some time60 →
        t.inp.metricStorage = some (version, hash) → hash ≠ b.currentJournalHash →
        ∃ b2 ag2 ws, addBuiltInsLocked fl fo bfmt commit t.s b1 ag1 t.nowUnix t.inp =
            some (b2, ag2, ws) ∧
          journalRows ws =
            (if ticks.length ≠ 0 then
              [journalVersionRow fl bfmt ag 1 0 time1 b.currentJournalVersion
                b.currentJournalHash b.currentJournalHashTag ticks.length]
            else []) ++
            [journalVersionRow fl bfmt ag 1 0 time1 version hash (journalHashTag hash) 1] ∧
          b2.currentJournalHashSeconds = 0) ∧
      (∀ (t : Tick Items) (time1 time60 : Nat) (version : Int),
        bucketTime t.s 1 0 = some time1 →
        bucketTime t.s 60 ag.heartBeatSecondBucket = some time60 →
        t.inp.metricStorage = some (version, b.currentJournalHash) → t.nowUnix % 60 = 0 →
        ∃ b2 ag2 ws, addBuiltInsLocked fl fo bfmt commit t.s b1 ag1 t.nowUnix t.inp =
            some (b2, ag2, ws) ∧
          journalRows ws =
            [journalVersionRow fl bfmt ag 60 ag.heartBeatSecondBucket time60
              b.currentJournalVersion b.currentJournalHash b.currentJournalHashTag
              (ticks.length + 1)] ∧
          b2.currentJournalHashSeconds = 0) := by
  obtain ⟨b1, ag1, wss, hr, hl, hs1, hhb, hk, hc, _⟩ :=
    runTicks_shard0 fl fo bfmt commit ticks b ag hs hb
  obtain ⟨hrows, hp, hv, hh, ht⟩ := runTicks_unchanged fl fo bfmt commit ticks b ag b1 ag1 wss
    hs hb hsame hnot (by omega) hr
  rw [hzero, Nat.zero_add] at hp
  refine ⟨b1, ag1, wss, hr, hl, hrows, hp, ?_, ?_⟩
  all_goals
    obtain ⟨sn1, vals1, ver1, hash1, tag1, pend1⟩ := b1
    simp only at hp hv hh ht hs1
    subst hp hv hh ht
  · intro t time1 time60 version hash h1 h60 hst hne
    rw [← hhb] at h60
    refine ⟨_, _, _, addBuiltInsLocked_shard0 fl fo bfmt commit t.s _ ag1 t.nowUnix t.inp time1
      time60 hs1 h1 h60, ?_, ?_⟩
    · rw [journalRows_updatesOfRun]
      unfold journalOnMinute journalOnChange journalVersionRow
      rw [hst]
      simp [hne, hk, hc]
    · unfold shardAfter journalOnMinute journalOnChange
      rw [hst]
      simp [hne]
  · intro t time1 time60 version h1 h60 hst hm
    have hlen1 : ticks.length < 9007199254740992 := by omega
    rw [← hhb] at h60
    refine ⟨_, _, _, addBuiltInsLocked_shard0 fl fo bfmt commit t.s _ ag1 t.nowUnix t.inp time1
      time60 hs1 h1 h60, ?_, ?_⟩
    · rw [journalRows_updatesOfRun]
      unfold journalOnMinute journalOnChange journalVersionRow incrSeconds
      rw [hst]
      simp [hk, hc, hhb, hm, hlen1]
    · unfold shardAfter journalOnMinute journalOnChange incrSeconds
      rw [hst]
      simp [hm, hlen1]

/-- C27: the drain of `addBuiltInsLocked`, on every shard where the run returns: every entry
whose counter is `> 0` is merged under its key into the tail of its item in
`CurrentBuckets[1][0]` and reset to the zero `ItemValue`; every entry whose counter is `<= 0`
is left as it is and is not merged; keys, order and number of the entries do not change.  The
comparison `<= 0` excludes `> 0`, as for every float. -/
theorem addBuiltInsLocked_drain {Items : Type} (fl : Floats) (fo : FloatOps fl)
    (bfmt : BuiltinFormat) (commit : String) (s : Shard Items) (b : ShardBuiltins fl)
    (ag : Agent) (nowUnix : Nat) (inp : TickInput) (time1 : Nat)
    (h1 : bucketTime s 1 0 = some time1)
    (hle : ∀ x, fl.le x fl.zero = true → fo.lt fl.zero x = false) :
    (b.ShardNum ≠ 0 →
      addBuiltInsLocked fl fo bfmt commit s b ag nowUnix inp =
        some ({ b with BuiltInItemValues := b.BuiltInItemValues.map (drainedEntry fl fo) }, ag,
          drainMerges fl fo b.BuiltInItemValues)) ∧
    (b.ShardNum = 0 → ∀ time60, bucketTime s 60 ag.heartBeatSecondBucket = some time60 →
      ∃ b1 ag1 ws, addBuiltInsLocked fl fo bfmt commit s b ag nowUnix inp = some (b1, ag1, ws) ∧
        b1.BuiltInItemValues = b.BuiltInItemValues.map (drainedEntry fl fo) ∧
        tailMerges ws = drainMerges fl fo b.BuiltInItemValues) ∧
    (b.BuiltInItemValues.map (drainedEntry fl fo)).map Prod.fst =
      b.BuiltInItemValues.map Prod.fst ∧
    (b.BuiltInItemValues.map (drainedEntry fl fo)).length = b.BuiltInItemValues.length ∧
    drainMerges fl fo b.BuiltInItemValues =
      (b.BuiltInItemValues.filter fun v => fo.lt fl.zero v.2.Counter).map
        (fun v => BuiltinWrite.mergeTail 1 0 v.1 v.2) ∧
    (∀ v : Key × ItemValue fl, fo.lt fl.zero v.2.Counter = true →
      drainedEntry fl fo v = (v.1, zeroItemValue fl)) ∧
    (∀ v : Key × ItemValue fl, fl.le v.2.Counter fl.zero = true →
      drainedEntry fl fo v = v ∧
      BuiltinWrite.mergeTail 1 0 v.1 v.2 ∉ drainMerges fl fo b.BuiltInItemValues) := by
  refine ⟨?_, ?_, ?_, by simp, rfl, ?_, ?_⟩
  · intro hs
    exact addBuiltInsLocked_other_shard fl fo bfmt commit s b ag nowUnix inp time1 hs h1
  · intro hs time60 h60
    refine ⟨_, _, _, addBuiltInsLocked_shard0 fl fo bfmt commit s b ag nowUnix inp time1 time60
      hs h1 h60, (shardAfter_ShardNum fl fo bfmt ag time1 time60 b nowUnix inp).2,
      tailMerges_updatesOfRun fl fo bfmt commit ag time1 time60 b nowUnix inp⟩
  · rw [List.map_map]
    apply List.map_congr_left
    intro v _
    unfold drainedEntry
    simp only [Function.comp]
    split_ifs <;> rfl
  · intro v hv
    simp [drainedEntry, hv]
  · intro v hv
    have hnot := hle _ hv
    refine ⟨by simp [drainedEntry, hnot], ?_⟩
    intro hmem
    unfold drainMerges at hmem
    obtain ⟨u, hu, heq⟩ := List.mem_map.mp hmem
    simp only [BuiltinWrite.mergeTail.injEq, true_and] at heq
    have hpos := (List.mem_filter.mp hu).2
    simp only at hpos
    rw [heq.2, hnot] at hpos
    cases hpos

/-- C28: over any sequence of runs on shard `0` whose buckets exist, the heartbeat rows with
count `1` of the first run are the start event when the agent begins with an event type other
than `heartbeat` and none when it begins with `heartbeat`; no later run writes such a row;
after every run the event type is `heartbeat`.  On a shard other than `0` a run writes no
heartbeat row and leaves the agent as it is. -/
theorem heartbeat_start_event {Items : Type} (fl : Floats) (fo : FloatOps fl)
    (bfmt : BuiltinFormat) (commit : String) (ticks : List (Tick Items))
    (b : ShardBuiltins fl) (ag : Agent) (hs : b.ShardNum = 0)
    (hb : ∀ t ∈ ticks, (bucketTime t.s 1 0).isSome = true ∧
      (bucketTime t.s 60 ag.heartBeatSecondBucket).isSome = true) :
    (∃ b1 ag1 wss, runTicks fl fo bfmt commit b ag ticks = some (b1, ag1, wss) ∧
      wss.length = ticks.length ∧
      (ticks ≠ [] → ag1.heartBeatEventType = bfmt.TagValueIDHeartbeatEventHeartbeat) ∧
      (∀ ws ∈ wss.tail, heartbeatRows 1 ws = []) ∧
      (ag.heartBeatEventType = bfmt.TagValueIDHeartbeatEventHeartbeat →
        ∀ ws ∈ wss, heartbeatRows 1 ws = []) ∧
      (∀ t ws time1, ticks.head? = some t → wss.head? = some ws →
        bucketTime t.s 1 0 = some time1 →
        heartbeatRows 1 ws =
          if ag.heartBeatEventType ≠ bfmt.TagValueIDHeartbeatEventHeartbeat then
            heartbeatPair fl fo bfmt commit ag ag.heartBeatEventType 1 0 time1 t.nowUnix 1
          else [])) ∧
    (∀ (s : Shard Items) (b0 : ShardBuiltins fl) (nowUnix : Nat) (inp : TickInput)
        (time1 : Nat), b0.ShardNum ≠ 0 → bucketTime s 1 0 = some time1 →
      ∃ b1 ws, addBuiltInsLocked fl fo bfmt commit s b0 ag nowUnix inp = some (b1, ag, ws) ∧
        ∀ count, heartbeatRows count ws = []) := by
  constructor
  · obtain ⟨b1, ag1, wss, hr, hl, _, _, _, _, hty, hkeep, htail, hhead⟩ :=
      runTicks_shard0 fl fo bfmt commit ticks b ag hs hb
    exact ⟨b1, ag1, wss, hr, hl, hty, htail, fun he => (hkeep he).2, hhead⟩
  · intro s b0 nowUnix inp time1 hs0 h1
    refine ⟨_, _, addBuiltInsLocked_other_shard fl fo bfmt commit s b0 ag nowUnix inp time1 hs0
      h1, ?_⟩
    intro count
    unfold heartbeatRows
    exact filter_drainMerges fl fo _ (fun _ _ => rfl) _

/-! ## The pool of unique-value buffers -/

/-- C29: for every pool and every `n >= 0`, `getUniqueValuesCache(n)` returns `n` inner slices
of length `0`: the last buffer of the pool with every inner slice cut to length `0` (backing
arrays kept) when that buffer has outer length `n`, a fresh buffer of nil slices otherwise; the
pool loses exactly its last buffer when it is not empty and stays empty otherwise;
`putUniqueValuesCache` appends exactly one buffer. -/
theorem uniqueValuesCache_pool (uniqueValuePool : List (List Int64Slice)) (n : Nat) :
    ∃ uniqueValues : List Int64Slice,
      getUniqueValuesCache uniqueValuePool (n : Int) =
        some (uniqueValues, uniqueValuePool.dropLast) ∧
      uniqueValues.length = n ∧
      (∀ x ∈ uniqueValues, x.len = 0) ∧
      (∀ (last : List Int64Slice), uniqueValuePool.getLast? = some last → last.length = n →
        uniqueValues = last.map Int64Slice.truncate) ∧
      ((∀ (last : List Int64Slice), uniqueValuePool.getLast? = some last → last.length ≠ n) →
        uniqueValues = List.replicate n Int64Slice.nil) ∧
      (uniqueValuePool ≠ [] → ∃ last, uniqueValuePool = uniqueValuePool.dropLast ++ [last]) ∧
      (uniqueValuePool = [] → uniqueValuePool.dropLast = []) ∧
      ∀ (buffer : List Int64Slice),
        putUniqueValuesCache uniqueValuePool buffer = uniqueValuePool ++ [buffer] ∧
        (putUniqueValuesCache uniqueValuePool buffer).length = uniqueValuePool.length + 1 := by
  have hput : ∀ (buffer : List Int64Slice),
      putUniqueValuesCache uniqueValuePool buffer = uniqueValuePool ++ [buffer] ∧
      (putUniqueValuesCache uniqueValuePool buffer).length = uniqueValuePool.length + 1 := by
    intro buffer
    simp [putUniqueValuesCache]
  have htr : ∀ (l : List Int64Slice), ∀ x ∈ l.map Int64Slice.truncate, x.len = 0 := by
    intro l x hx
    obtain ⟨y, _, rfl⟩ := List.mem_map.mp hx
    rfl
  have hnil : ∀ x ∈ List.replicate n Int64Slice.nil, x.len = 0 := by
    intro x hx
    rw [(List.mem_replicate.mp hx).2]
    rfl
  rcases List.eq_nil_or_concat uniqueValuePool with rfl | ⟨init, last, rfl⟩
  · by_cases hn : n = 0
    · subst hn
      exact ⟨[], by simp [getUniqueValuesCache], rfl, by simp, by simp, by simp, by simp,
        by simp, hput⟩
    · refine ⟨List.replicate n Int64Slice.nil, ?_, by simp, hnil, by simp, by simp, by simp,
        by simp, hput⟩
      have : ¬ ((0 : Int) = (n : Int)) := by omega
      simp [getUniqueValuesCache, this]
  · have hget : (init ++ [last]).getD ((init ++ [last]).length - 1) [] = last := by
      simp [List.getD_eq_getElem?_getD]
    have htake : (init ++ [last]).take ((init ++ [last]).length - 1) = init := by
      simp
    have hne : (init ++ [last]).length ≠ 0 := by simp
    by_cases hl : last.length = n
    · refine ⟨last.map Int64Slice.truncate, ?_, by simpa using hl, htr last, ?_, ?_,
        fun _ => ⟨last, by simp⟩, by simp, hput⟩
      · unfold getUniqueValuesCache
        simp only [hne, ne_eq, not_false_eq_true, if_true, hget, htake]
        simp [hl]
      · intro l hlast _
        simp at hlast
        rw [hlast]
      · intro h
        exact absurd hl (h last (by simp))
    · refine ⟨List.replicate n Int64Slice.nil, ?_, by simp, hnil, ?_, by simp,
        fun _ => ⟨last, by simp⟩, by simp, hput⟩
      · unfold getUniqueValuesCache
        simp only [hne, ne_eq, not_false_eq_true, if_true, hget, htake]
        have : ¬ ((last.length : Int) = (n : Int)) := by omega
        simp [this]
      · intro l hlast hlen
        simp at hlast
        rw [← hlast] at hlen
        exact absurd hlen hl

/-! ## The environment file -/

/-- Whenever `ReadEnvFile` returns an error, the `Env` it returns is `Env{}`. -/
theorem ReadEnvFile_error (o : EnvOutside) (filePath : String)
    (h : (ReadEnvFile o filePath).2 ≠ none) : (ReadEnvFile o filePath).1 = Env.empty := by
  unfold ReadEnvFile at h ⊢
  cases hO : o.Open filePath with
  | some err => simp [hO]
  | none =>
    cases hR : o.ReadAll filePath with
    | error err => simp [hO, hR]
    | ok data =>
      cases hU : o.Unmarshal data with
      | error err => simp [hO, hR, hU]
      | ok env => simp [hO, hR, hU] at h

/-- C30: `ListenEnvFile` can return an error together with a loader whose `Env` is not empty
(the file is read, then the watcher fails), which departs from `if error return empty Env`;
whenever reading the file fails the `Env` read and the `Env` of the loader are empty and the
error returned, if any, is the watcher's, not the read failure; with a missing file and a
working watcher no error is returned at all. -/
theorem ListenEnvFile_error_env :
    (∃ (o : EnvOutside) (filePath : String),
        (ReadEnvFile o filePath).2 = none ∧
        (ListenEnvFile o filePath).2 ≠ none ∧
        (ListenEnvFile o filePath).1.Load ≠ Env.empty) ∧
    (∀ (o : EnvOutside) (filePath : String), (ReadEnvFile o filePath).2 ≠ none →
        (ReadEnvFile o filePath).1 = Env.empty ∧
        (ListenEnvFile o filePath).1.Load = Env.empty ∧
        ((ListenEnvFile o filePath).2 ≠ none →
          (ListenEnvFile o filePath).2 = o.NewWatcher ∨
          (ListenEnvFile o filePath).2 = o.WatcherAdd filePath)) ∧
    ((ReadEnvFile fileMissing "/etc/statshouse_env.yml").2 ≠ none ∧
      ListenEnvFile fileMissing "/etc/statshouse_env.yml" = (⟨Env.empty⟩, none)) := by
  refine ⟨⟨watcherFails, "/etc/statshouse_env.yml", by decide, by decide, by decide⟩, ?_,
    by decide, by decide⟩
  intro o filePath h
  have hE := ReadEnvFile_error o filePath h
  refine ⟨hE, ?_, ?_⟩
  · unfold ListenEnvFile Loader.Load
    by_cases hp : filePath = ""
    · simp [hp]
    · simp only [hp, if_false]
      cases o.NewWatcher with
      | some err => simpa using hE
      | none =>
        cases o.WatcherAdd filePath with
        | some err => simpa using hE
        | none => simpa using hE
  · unfold ListenEnvFile
    by_cases hp : filePath = ""
    · simp [hp]
    · simp only [hp, if_false]
      cases hN : o.NewWatcher with
      | some err => simp
      | none =>
        cases hA : o.WatcherAdd filePath with
        | some err => simp
        | none => simp

/-! ## Rounding to zero and idempotence of the router -/

/-- A timestamp that the rounding step leaves alone: any timestamp when the resolution is at most
`1`, a multiple of the resolution otherwise. -/
theorem roundTimestamp_fixed {x : Nat} {R : Int} (hx : x < 2 ^ 32) (hR : R < 2 ^ 32)
    (hmul : 1 < R → (x : Int) % R = 0) : roundTimestamp x R = some x := by
  by_cases h1 : 1 < R
  · rw [roundTimestamp_nat h1 hR hx]
    have hm := hmul h1
    have hdvd : (R.toNat : Int) ∣ (x : Int) := by
      rw [Int.toNat_of_nonneg (by omega)]
      exact Int.dvd_of_emod_eq_zero hm
    have hd : R.toNat ∣ x := Int.natCast_dvd_natCast.mp hdvd
    rw [Nat.div_mul_cancel hd]
  · unfold roundTimestamp
    rw [if_neg (by omega)]

/-- The rounded timestamp is a 32-bit value, and a multiple of the resolution when that is
above `1`. -/
theorem roundTimestamp_props {t ts : Nat} {R : Int} (hR : R < 2 ^ 32) (ht : t < 2 ^ 32)
    (h : roundTimestamp t R = some ts) :
    ts < 2 ^ 32 ∧ (1 < R → (ts : Int) % R = 0) := by
  by_cases h1 : 1 < R
  · rw [roundTimestamp_nat h1 hR ht] at h
    simp only [Option.some.injEq] at h
    subst h
    have hle : t / R.toNat * R.toNat ≤ t := Nat.div_mul_le_self t R.toNat
    refine ⟨by omega, fun _ => ?_⟩
    have : ((t / R.toNat * R.toNat : Nat) : Int) = (t / R.toNat : Nat) * R := by
      rw [Nat.cast_mul, Int.toNat_of_nonneg (by omega)]
    rw [this]
    exact Int.mul_emod_left _ _
  · unfold roundTimestamp at h
    rw [if_neg (by omega)] at h
    simp only [Option.some.injEq] at h
    subst h
    exact ⟨ht, fun h => absurd h h1⟩

/-- C31: for every resolution `R > 1` and every key whose timestamp `t` is below `R` (a non-zero
`t` in particular), the rounding step turns the timestamp into `0` and the router then takes
the path for `now`: the key goes to the current bucket `CurrentBuckets[R][r]` and gets that
bucket's `Time` as its timestamp; `BelieveTimestampWindow` plays no part in the result, however
far `current.time` is from `t`. -/
theorem route_small_timestamp {Items : Type} (fmt : Format) (dm : DataModel) (s : Shard Items)
    (key : Key) (keyHash : Nat) (metricInfo : Option MetricMetaValue)
    (cur : MetricsBucket Items)
    (hR : 1 < resolutionOf fmt s metricInfo)
    (htR : (key.Timestamp : Int) < resolutionOf fmt s metricInfo)
    (hcur : indexBuckets s.CurrentBuckets (resolutionOf fmt s metricInfo)
      (resolutionShardNumOf keyHash (resolutionOf fmt s metricInfo)) = some (some cur)) :
    roundTimestamp key.Timestamp (resolutionOf fmt s metricInfo) = some 0 ∧
    resolutionShardFromHashLocked fmt dm s key keyHash metricInfo =
      some (some cur, { key with Timestamp := cur.Time }) := by
  have hb := indexBuckets_bounds hcur
  have hround : roundTimestamp key.Timestamp (resolutionOf fmt s metricInfo) = some 0 := by
    rw [roundTimestamp_nat hR (by omega) (by omega)]
    have : key.Timestamp / (resolutionOf fmt s metricInfo).toNat = 0 :=
      Nat.div_eq_of_lt (by omega)
    rw [this, Nat.zero_mul]
  refine ⟨hround, ?_⟩
  unfold resolutionShardFromHashLocked routeAtResolution
  rw [hround]
  simp only [hcur, if_true]

/-- C32: if `current.time % R = 0` and `R` divides `BelieveTimestampWindow`, then for every key,
hash and metadata for which the buckets exist the router returns, and routing the routed key
once more against the same shard returns the same bucket and the same key, on every path
(timestamp `0`, window clamp, kept rounded timestamp, next bucket). -/
theorem route_idempotent {Items : Type} (fmt : Format) (dm : DataModel) (s : Shard Items)
    (key : Key) (keyHash : Nat) (metricInfo : Option MetricMetaValue)
    (cur : MetricsBucket Items) (nxt : Option (MetricsBucket Items))
    (hkey : key.Timestamp < 2 ^ 32) (hct : cur.Time < 2 ^ 32)
    (hcur : indexBuckets s.CurrentBuckets (resolutionOf fmt s metricInfo)
      (resolutionShardNumOf keyHash (resolutionOf fmt s metricInfo)) = some (some cur))
    (hnext : indexBuckets s.NextBuckets (resolutionOf fmt s metricInfo)
      (resolutionShardNumOf keyHash (resolutionOf fmt s metricInfo)) = some nxt)
    (hlat : (cur.Time : Int) % resolutionOf fmt s metricInfo = 0)
    (hdiv : resolutionOf fmt s metricInfo ∣ (dm.BelieveTimestampWindow : Int)) :
    ∃ (b : Option (MetricsBucket Items)) (k : Key),
      resolutionShardFromHashLocked fmt dm s key keyHash metricInfo = some (b, k) ∧
      resolutionShardFromHashLocked fmt dm s k keyHash metricInfo = some (b, k) := by
  have hb := indexBuckets_bounds hcur
  obtain ⟨ts, hround⟩ : ∃ ts, roundTimestamp key.Timestamp (resolutionOf fmt s metricInfo) =
      some ts := by
    by_cases h1 : 1 < resolutionOf fmt s metricInfo
    · exact ⟨_, roundTimestamp_nat h1 (by omega) hkey⟩
    · exact ⟨key.Timestamp, by unfold roundTimestamp; rw [if_neg (by omega)]⟩
  obtain ⟨hts, hmul⟩ := roundTimestamp_props (by omega) hkey hround
  have hfixT := roundTimestamp_fixed hct (show resolutionOf fmt s metricInfo < 2 ^ 32 by omega)
    (fun _ => hlat)
  have hfixts := roundTimestamp_fixed hts (show resolutionOf fmt s metricInfo < 2 ^ 32 by omega)
    hmul
  unfold resolutionShardFromHashLocked routeAtResolution
  rw [hround]
  simp only [hcur, hnext]
  by_cases h0 : ts = 0
  · refine ⟨some cur, { key with Timestamp := cur.Time }, by simp [h0], ?_⟩
    simp only [hfixT, hcur]
    by_cases hc0 : cur.Time = 0
    · simp [hc0]
    · have hsub : ¬ (cur.Time > dm.BelieveTimestampWindow ∧
          cur.Time < sub32 cur.Time dm.BelieveTimestampWindow) := by
        rintro ⟨hgt, hlt⟩
        rw [sub32_of_le hct (by omega)] at hlt
        omega
      simp [hc0, hsub]
  · by_cases hle : ts ≤ cur.Time
    · by_cases hclamp : cur.Time > dm.BelieveTimestampWindow ∧
          ts < sub32 cur.Time dm.BelieveTimestampWindow
      · have hs := sub32_of_le hct (show dm.BelieveTimestampWindow ≤ cur.Time by omega)
        refine ⟨some cur, { key with Timestamp := sub32 cur.Time dm.BelieveTimestampWindow },
          by simp [h0, hle, hclamp], ?_⟩
        have hfix : roundTimestamp (sub32 cur.Time dm.BelieveTimestampWindow)
            (resolutionOf fmt s metricInfo) = some (sub32 cur.Time dm.BelieveTimestampWindow) := by
          apply roundTimestamp_fixed (by rw [hs]; omega) (by omega)
          intro h1
          rw [hs, Nat.cast_sub (by omega)]
          obtain ⟨c, hc⟩ := hdiv
          have hl := Int.dvd_of_emod_eq_zero hlat
          exact Int.emod_eq_zero_of_dvd (Int.dvd_sub hl ⟨c, hc⟩)
        simp only [hfix, hcur]
        have hne : sub32 cur.Time dm.BelieveTimestampWindow ≠ 0 := by rw [hs]; omega
        have hle2 : sub32 cur.Time dm.BelieveTimestampWindow ≤ cur.Time := by rw [hs]; omega
        simp [hne, hle2]
      · refine ⟨some cur, { key with Timestamp := ts }, by simp [h0, hle, hclamp], ?_⟩
        simp only [hfixts, hcur]
        simp [h0, hle, hclamp]
    · refine ⟨nxt, { key with Timestamp := ts }, by simp [h0, hle], ?_⟩
      simp only [hfixts, hcur, hnext]
      simp [h0, hle]

/-! ## Size accounting of `insertItem` -/

/-- With pre-key indices in range a row is appended to the buffer. -/
theorem appendRow_extends (fmt : Format) (fl : Floats) (w : Wire fl) (k : Key) (sf : fl.F64)
    (st : List Nat × metricIndexCache × Option (Finset Nat)) (e : String × MultiValue fl w)
    (h : prekeyInRange fmt st.2.1) :
    ∃ (bytes : List Nat) (c1 : metricIndexCache) (u1 : Option (Finset Nat)),
      appendRow fmt fl w k sf st e = some (st.1 ++ bytes, c1, u1) ∧ prekeyInRange fmt c1 := by
  obtain ⟨hidx, hq⟩ := getPrekeyIndex_prekeyInRange fmt st.2.1 k.Metric h
  have hkeys := appendKeys_eq fmt st.1 k st.2.1 st.2.2 hidx
  have hrow := multiValueMarshal_row fmt fl w k.Metric (st.2.1.getPrekeyIndex fmt k.Metric).2
    (((st.2.1.getPrekeyIndex fmt k.Metric).2).skips fmt k.Metric).2
    (st.1 ++ (le32 (u32 k.Metric) ++
        le32 (if 0 ≤ (st.2.1.getPrekeyIndex fmt k.Metric).1.1 then
          u32 ((k.tag (st.2.1.getPrekeyIndex fmt k.Metric).1.1).getD 0) else 0) ++
        [if 0 ≤ (st.2.1.getPrekeyIndex fmt k.Metric).1.1 then
          (if (st.2.1.getPrekeyIndex fmt k.Metric).1.2 then 2 else 1) else 0] ++
        le32 k.Timestamp ++
        (List.ofFn fun i => le32 (u32 (k.Keys i))).flatten))
    e.2 e.1 sf
    (((st.2.1.getPrekeyIndex fmt k.Metric).2).skips fmt k.Metric).1.1
    (((st.2.1.getPrekeyIndex fmt k.Metric).2).skips fmt k.Metric).1.2.1
    (((st.2.1.getPrekeyIndex fmt k.Metric).2).skips fmt k.Metric).1.2.2 rfl
  unfold appendRow
  rw [hkeys]
  simp only
  rw [hrow]
  simp only [List.append_assoc]
  exact ⟨_, _, _, rfl, skips_prekeyInRange fmt _ k.Metric hq⟩

/-- With pre-key indices in range rows written one after the other are appended to the
buffer. -/
theorem appendRow_fold_extends (fmt : Format) (fl : Floats) (w : Wire fl) (k : Key)
    (sf : fl.F64) (rows : List (String × MultiValue fl w)) :
    ∀ st : List Nat × metricIndexCache × Option (Finset Nat), prekeyInRange fmt st.2.1 →
      ∃ (bytes : List Nat) (c1 : metricIndexCache) (u1 : Option (Finset Nat)),
        rows.foldlM (appendRow fmt fl w k sf) st = some (st.1 ++ bytes, c1, u1) ∧
        prekeyInRange fmt c1 := by
  induction rows with
  | nil => intro st h; exact ⟨[], st.2.1, st.2.2, by simp, h⟩
  | cons e rows ih =>
    intro st h
    obtain ⟨b1, c1, u1, h1, hq1⟩ := appendRow_extends fmt fl w k sf st e h
    obtain ⟨b2, c2, u2, h2, hq2⟩ := ih (st.1 ++ b1, c1, u1) hq1
    refine ⟨b1 ++ b2, c2, u2, ?_, hq2⟩
    rw [List.foldlM_cons, h1]
    simp only [bind, Option.bind]
    rw [h2, List.append_assoc]

/-- What `insertItem` returns, sizes included, when pre-key indices are in range. -/
theorem insertItem_sizes (fmt : Format) (fl : Floats) (w : Wire fl)
    (Empty : MultiValue fl w → Bool) (res : List Nat) (metricCache : metricIndexCache)
    (usedTimestamps : Option (Finset Nat)) (insertSizes : Nat → insertSize) (k : Key)
    (item : MultiItem fl w) (sf : fl.F64) (bucketTs : Nat)
    (h : prekeyInRange fmt metricCache) :
    ∃ (tail top : List Nat) (c1 c2 : metricIndexCache) (u1 u2 : Option (Finset Nat)),
      (if Empty item.Tail then some (res, metricCache, usedTimestamps)
        else appendRow fmt fl w k sf (res, metricCache, usedTimestamps) ("", item.Tail)) =
        some (res ++ tail, c1, u1) ∧
      (item.Top.filter (fun e => !Empty e.2)).foldlM (appendRow fmt fl w k sf)
        (res ++ tail, c1, u1) = some (res ++ tail ++ top, c2, u2) ∧
      insertItem fmt fl w Empty res metricCache usedTimestamps insertSizes k item sf bucketTs =
        some (res ++ tail ++ top, c2, u2,
          addSizes insertSizes bucketTs (sizeRecord w k item tail.length top.length)) := by
  have htail : ∃ (tail : List Nat) (c1 : metricIndexCache) (u1 : Option (Finset Nat)),
      (if Empty item.Tail then some (res, metricCache, usedTimestamps)
        else appendRow fmt fl w k sf (res, metricCache, usedTimestamps) ("", item.Tail)) =
        some (res ++ tail, c1, u1) ∧ prekeyInRange fmt c1 := by
    by_cases hE : Empty item.Tail = true
    · exact ⟨[], metricCache, usedTimestamps, by simp [hE], h⟩
    · obtain ⟨b1, c1, u1, h1, hq1⟩ := appendRow_extends fmt fl w k sf
        (res, metricCache, usedTimestamps) ("", item.Tail) h
      exact ⟨b1, c1, u1, by simp only [hE]; exact h1, hq1⟩
  obtain ⟨tail, c1, u1, ht, hq1⟩ := htail
  obtain ⟨top, c2, u2, htop, _⟩ := appendRow_fold_extends fmt fl w k sf
    (item.Top.filter (fun e => !Empty e.2)) (res ++ tail, c1, u1) hq1
  refine ⟨tail, top, c1, c2, u1, u2, ht, htop, ?_⟩
  unfold insertItem
  simp only [insertItem_top_loop]
  by_cases hE : Empty item.Tail = true
  · simp only [hE, if_true, Option.some.injEq, Prod.mk.injEq] at ht
    obtain ⟨hres, rfl, rfl⟩ := ht
    have htl : tail = [] := by simpa using hres.symm
    subst htl
    simp only [List.append_nil] at htop ⊢
    simp only [hE, Bool.not_true, Bool.false_eq_true, if_false, pure_bind]
    rw [htop]
    simp only [bind, Option.bind, pure, List.length_append, Nat.cast_add, add_sub_cancel_left,
      List.length_nil, Nat.cast_zero]
    unfold sizeRecord
    congr 3
    split_ifs <;> simp
  · simp only [hE, if_false] at ht
    simp only [hE, Bool.not_false, if_true]
    cases hk : appendKeys fmt res k metricCache usedTimestamps with
    | none => simp [appendRow, hk] at ht
    | some r =>
      obtain ⟨out, cache1, used1⟩ := r
      have hres : (multiValueMarshal fmt fl w k.Metric cache1 out item.Tail "" sf).1 =
          res ++ tail := by
        simp only [appendRow, hk, Bool.false_eq_true, if_false, Option.some.injEq,
          Prod.mk.injEq] at ht
        exact ht.1
      have hc : (multiValueMarshal fmt fl w k.Metric cache1 out item.Tail "" sf).2 = c1 := by
        simp only [appendRow, hk, Bool.false_eq_true, if_false, Option.some.injEq,
          Prod.mk.injEq] at ht
        exact ht.2.1
      have hu : used1 = u1 := by
        simp only [appendRow, hk, Bool.false_eq_true, if_false, Option.some.injEq,
          Prod.mk.injEq] at ht
        exact ht.2.2
      simp only [bind, Option.bind, pure, hres, hc, hu, htop]
      simp only [List.length_append, Nat.cast_add, add_sub_cancel_left]
      unfold sizeRecord
      congr 3
      split_ifs <;> simp

/-- C33: with pre-key indices in range `insertItem` appends the bytes of the tail row (none when
the tail is empty) and then the bytes of the rows of the non-empty top entries to `res`, and
adds to `insertSizes[bucketTs]` a record whose six fields sum to the number of bytes appended,
leaving the other entries of the map alone: for a negative metric id all bytes are `builtin`;
otherwise the bytes of the tail row are in `percentiles` when the tail has a digest, else in
`uniques` when its HLL is not empty, else in `values` when its value is set, else in
`counters`, and the bytes of the top rows are in `stringTops`. -/
theorem insertItem_size_accounting (fmt : Format) (fl : Floats) (w : Wire fl)
    (Empty : MultiValue fl w → Bool) (res : List Nat) (metricCache : metricIndexCache)
    (usedTimestamps : Option (Finset Nat)) (insertSizes : Nat → insertSize) (k : Key)
    (item : MultiItem fl w) (sf : fl.F64) (bucketTs : Nat)
    (h : prekeyInRange fmt metricCache) :
    ∃ (tail top : List Nat) (c1 c2 : metricIndexCache) (u1 u2 : Option (Finset Nat)),
      (if Empty item.Tail then some (res, metricCache, usedTimestamps)
        else appendRow fmt fl w k sf (res, metricCache, usedTimestamps) ("", item.Tail)) =
        some (res ++ tail, c1, u1) ∧
      (item.Top.filter (fun e => !Empty e.2)).foldlM (appendRow fmt fl w k sf)
        (res ++ tail, c1, u1) = some (res ++ tail ++ top, c2, u2) ∧
      insertItem fmt fl w Empty res metricCache usedTimestamps insertSizes k item sf bucketTs =
        some (res ++ tail ++ top, c2, u2,
          addSizes insertSizes bucketTs (sizeRecord w k item tail.length top.length)) ∧
      (addSizes insertSizes bucketTs (sizeRecord w k item tail.length top.length)
          bucketTs).total =
        (insertSizes bucketTs).total + (((res ++ tail ++ top).length : Int) - res.length) ∧
      (∀ t, t ≠ bucketTs →
        addSizes insertSizes bucketTs (sizeRecord w k item tail.length top.length) t =
          insertSizes t) ∧
      (k.Metric < 0 →
        sizeRecord w k item tail.length top.length =
          ⟨0, 0, 0, 0, 0, (tail.length : Int) + top.length⟩) ∧
      (0 ≤ k.Metric →
        sizeRecord w k item tail.length top.length =
          if item.Tail.ValueTDigest.isSome then ⟨0, 0, tail.length, 0, top.length, 0⟩
          else if w.ItemsCount item.Tail.HLL ≠ 0 then ⟨0, 0, 0, tail.length, top.length, 0⟩
          else if item.Tail.Value.ValueSet then ⟨0, tail.length, 0, 0, top.length, 0⟩
          else ⟨tail.length, 0, 0, 0, top.length, 0⟩) := by
  obtain ⟨tail, top, c1, c2, u1, u2, ht, htop, hins⟩ := insertItem_sizes fmt fl w Empty res
    metricCache usedTimestamps insertSizes k item sf bucketTs h
  refine ⟨tail, top, c1, c2, u1, u2, ht, htop, hins, ?_, ?_, ?_, ?_⟩
  · have hrec : (sizeRecord w k item tail.length top.length).total =
        (tail.length : Int) + top.length := by
      unfold sizeRecord insertSize.total
      split_ifs <;> simp
    have hadd : (addSizes insertSizes bucketTs (sizeRecord w k item tail.length top.length)
        bucketTs).total =
        (insertSizes bucketTs).total + (sizeRecord w k item tail.length top.length).total := by
      unfold addSizes insertSize.total
      simp only [if_true]
      ring
    rw [hadd, hrec]
    simp only [List.length_append, Nat.cast_add]
    ring
  · intro t hne
    unfold addSizes
    rw [if_neg hne]
  · intro hneg
    unfold sizeRecord
    rw [if_pos hneg]
  · intro hpos
    unfold sizeRecord
    rw [if_neg (by omega)]

/-! ## The buckets of the journal-version rows -/

/-- C34: a run on shard `0` whose buckets exist returns, and its journal-version rows are placed
as follows.  When the hash changed, the row of the pending seconds of the old hash (if any)
and the row of the new hash go to `CurrentBuckets[1][0]` with that bucket's time in the key.
When the hash did not change (or there is no metric storage), the only row is the one written
at a minute mark, and it goes to `CurrentBuckets[60][heartBeatSecondBucket]` with that bucket's
time in the key: the closure reads the variable `resolutionShard`, which is reassigned between
the two call sites. -/
theorem journal_row_placement {Items : Type} (fl : Floats) (fo : FloatOps fl)
    (bfmt : BuiltinFormat) (commit : String) (s : Shard Items) (b : ShardBuiltins fl)
    (ag : Agent) (nowUnix : Nat) (inp : TickInput) (time1 time60 : Nat)
    (hs : b.ShardNum = 0) (h1 : bucketTime s 1 0 = some time1)
    (h60 : bucketTime s 60 ag.heartBeatSecondBucket = some time60) :
    ∃ b1 ag1 ws, addBuiltInsLocked fl fo bfmt commit s b ag nowUnix inp = some (b1, ag1, ws) ∧
      (∀ (version : Int) (hash : String), inp.metricStorage = some (version, hash) →
        hash ≠ b.currentJournalHash →
        journalRows ws =
          (if b.currentJournalHashSeconds ≠ 0 then
            [BuiltinWrite.topCounter 1 0
              (ag.AggKey time1 bfmt.BuiltinMetricIDJournalVersions
                (keysOf [0, ag.componentTag, 0, 0, 0, i32 (u32 b.currentJournalVersion),
                  b.currentJournalHashTag]))
              b.currentJournalHash b.currentJournalHashSeconds]
          else []) ++
          [BuiltinWrite.topCounter 1 0
            (ag.AggKey time1 bfmt.BuiltinMetricIDJournalVersions
              (keysOf [0, ag.componentTag, 0, 0, 0, i32 (u32 version), journalHashTag hash]))
            hash 1]) ∧
      (∀ (version : Int), inp.metricStorage = some (version, b.currentJournalHash) →
        journalRows ws =
          if nowUnix % 60 = 0 then
            [BuiltinWrite.topCounter 60 ag.heartBeatSecondBucket
              (ag.AggKey time60 bfmt.BuiltinMetricIDJournalVersions
                (keysOf [0, ag.componentTag, 0, 0, 0, i32 (u32 b.currentJournalVersion),
                  b.currentJournalHashTag]))
              b.currentJournalHash (incrSeconds b.currentJournalHashSeconds)]
          else []) ∧
      (inp.metricStorage = none →
        journalRows ws =
          if nowUnix % 60 = 0 ∧ b.currentJournalHashSeconds ≠ 0 then
            [BuiltinWrite.topCounter 60 ag.heartBeatSecondBucket
              (ag.AggKey time60 bfmt.BuiltinMetricIDJournalVersions
                (keysOf [0, ag.componentTag, 0, 0, 0, i32 (u32 b.currentJournalVersion),
                  b.currentJournalHashTag]))
              b.currentJournalHash b.currentJournalHashSeconds]
          else []) := by
  refine ⟨_, _, _, addBuiltInsLocked_shard0 fl fo bfmt commit s b ag nowUnix inp time1 time60
    hs h1 h60, ?_, ?_, ?_⟩
  · intro version hash hst hne
    rw [journalRows_updatesOfRun]
    unfold journalOnMinute journalOnChange journalVersionRow
    rw [hst]
    simp [hne]
  · intro version hst
    have hinc : incrSeconds b.currentJournalHashSeconds ≠ 0 := by
      unfold incrSeconds
      split_ifs <;> omega
    rw [journalRows_updatesOfRun]
    unfold journalOnMinute journalOnChange journalVersionRow
    rw [hst]
    by_cases hm : nowUnix % 60 = 0
    · simp [hm, hinc]
    · simp [hm]
  · intro hst
    rw [journalRows_updatesOfRun]
    unfold journalOnMinute journalOnChange journalVersionRow
    rw [hst]
    by_cases hc : nowUnix % 60 = 0 ∧ b.currentJournalHashSeconds ≠ 0
    · simp [hc]
    · simp only [hc, if_false, List.append_nil]

/-! ## The theorems at concrete inputs -/

/-- C1 at the boundary: resolution `1`, `current.time = 1000`, window `60` and timestamp
`939 = 1000 - 60 - 1` give timestamp `940 = 1000 - 60` in the current bucket. -/
theorem route_clamps_to_window_witness :
    resolutionShardFromHashLocked exampleFormat ⟨60⟩ exampleShard (exampleKey 939) 0x40000000
        none = some (some ⟨1000, ()⟩, { exampleKey 939 with Timestamp := 1000 - 60 }) ∧
      60 < 1000 ∧ sub32 1000 60 = 1000 - 60 :=
  route_clamps_to_window exampleFormat ⟨60⟩ exampleShard (exampleKey 939) 0x40000000 none
    ⟨1000, ()⟩ 939 (by decide) (by decide) (by decide) (by decide) (by decide) (by decide)

/-- C2 at resolution `5`: a key with timestamp `0` and hash `0x40000000` lands in the current
bucket of resolution-shard `1` with timestamp `1000`. -/
theorem route_zero_timestamp_witness :
    resolutionShardFromHashLocked exampleFormat ⟨60⟩ exampleShard (exampleKey 0) 0x40000000
        (some exampleMeta) = some (some ⟨1000, ()⟩, { exampleKey 0 with Timestamp := 1000 }) :=
  route_zero_timestamp exampleFormat ⟨60⟩ exampleShard (exampleKey 0) 0x40000000
    (some exampleMeta) ⟨1000, ()⟩ (by decide) (by decide)

/-- C3 at resolution `5`: timestamp `2003` rounds to `2000`, which is beyond the next bucket's
time `1005`; the key goes to the next bucket and keeps `2000`. -/
theorem route_future_timestamp_witness :
    resolutionShardFromHashLocked exampleFormat ⟨60⟩ exampleShard (exampleKey 2003) 0x40000000
        (some exampleMeta) = some (some ⟨1005, ()⟩, { exampleKey 2003 with Timestamp := 2000 }) :=
  route_future_timestamp exampleFormat ⟨60⟩ exampleShard (exampleKey 2003) 0x40000000
    (some exampleMeta) ⟨1000, ()⟩ (some ⟨1005, ()⟩) 2000 (by decide) (by decide) (by decide)
    (by decide)

/-- C4 at hash `0xFFFFFFFFC0000001` and resolution `60`. -/
theorem resolutionShardNumOf_fixed_point_witness :
    resolutionShardNumOf 0xFFFFFFFFC0000001 60 =
      ((0xFFFFFFFFC0000001 % 2 ^ 32 : Nat) : Int) * 60 / 2 ^ 32 :=
  (resolutionShardNumOf_fixed_point 0xFFFFFFFFC0000001).1 60 (by decide) (by decide)

/-- C5 at timestamp `103` and resolution `5`. -/
theorem roundTimestamp_largest_multiple_witness :
    ∃ ts : Nat, roundTimestamp 103 5 = some ts ∧ ts = 103 / (5 : Int).toNat * (5 : Int).toNat ∧
      ts ≤ 103 ∧ 103 < ts + (5 : Int).toNat ∧ (5 : Int).toNat ∣ ts ∧
      ∀ m : Nat, (5 : Int).toNat ∣ m → m ≤ 103 → m ≤ ts :=
  (roundTimestamp_largest_multiple 103 (by decide)).1 5 (by decide) (by decide)

/-- C6 at resolution `5`, window `60`: timestamp `939` rounds to `935`, lags by `65` and is
clamped to `940`, a multiple of `5`. -/
theorem route_timestamp_multiple_of_resolution_witness :
    ∃ (b : Option (MetricsBucket Unit)) (k : Key),
      resolutionShardFromHashLocked exampleFormat ⟨60⟩ exampleShard (exampleKey 939) 0x40000000
        (some exampleMeta) = some (b, k) ∧
      (k.Timestamp : Int) % resolutionOf exampleFormat exampleShard (some exampleMeta) = 0 :=
  route_timestamp_multiple_of_resolution exampleFormat ⟨60⟩ exampleShard (exampleKey 939)
    0x40000000 (some exampleMeta) ⟨1000, ()⟩ (some ⟨1005, ()⟩) (by decide) (by decide)
    (by decide) (by decide) (by decide) (by decide) (by decide)

/-- C7 for the non-hardware metric `42`, whose metadata gives resolution `5`. -/
theorem route_resolution_choice_witness :
    resolutionShardFromHashLocked exampleFormat ⟨60⟩ exampleShard (exampleKey 103) 0x40000000
        (some exampleMeta) =
      routeAtResolution ⟨60⟩ exampleShard (exampleKey 103) 0x40000000 5 :=
  (route_resolution_choice exampleFormat ⟨60⟩ exampleShard (exampleKey 103) 0x40000000).2.1
    exampleMeta (by decide)

/-- C8 at the largest hash and the largest resolution. -/
theorem resolutionShardNumOf_in_bounds_witness :
    (0xFFFFFFFFFFFFFFFF &&& 0xFFFFFFFF) * u64 60 < 2 ^ 64 ∧
    0 ≤ resolutionShardNumOf 0xFFFFFFFFFFFFFFFF 60 ∧
    resolutionShardNumOf 0xFFFFFFFFFFFFFFFF 60 < 60 ∧
    ∀ (Items : Type) (lattice : Lattice Items),
      (∀ hR : (60 : Int).toNat < 61, (lattice ⟨(60 : Int).toNat, hR⟩).length = (60 : Int).toNat) →
      (indexBuckets lattice 60 (resolutionShardNumOf 0xFFFFFFFFFFFFFFFF 60)).isSome = true :=
  resolutionShardNumOf_in_bounds 0xFFFFFFFFFFFFFFFF 60 (by decide) (by decide)

/-- C9 for the key of metric `42` at timestamp `100` with tags `[1, 2, 0, ...]`, appended to the
buffer `[9, 9]` with a fresh cache over a journal that knows metric `42` (pre-key index `1`). -/
theorem appendKeys_layout_witness :
    ((makeMetricCache exampleFormat exampleJournal).getPrekeyIndex exampleFormat
      (exampleKey 100).Metric).1.1 < 16 ∧
    (appendKeys exampleFormat [9, 9] (exampleKey 100)
      (makeMetricCache exampleFormat exampleJournal) (some ∅)).map (fun r => r.1) =
      some ([9, 9] ++ ([42, 0, 0, 0] ++ [2, 0, 0, 0] ++ [2] ++ [100, 0, 0, 0] ++
        ([1, 0, 0, 0] ++ [2, 0, 0, 0] ++ List.replicate 56 0))) :=
  ⟨by decide, by
    rw [(appendKeys_layout exampleFormat [9, 9] (exampleKey 100)
      (makeMetricCache exampleFormat exampleJournal) (some ∅) (by decide)).1]
    decide⟩

/-- C11 for a built-in key with metric `-10`, timestamp `4000000000`, `tags[3] = -5` and
`tags[15] = 2147483647`. -/
theorem appendKeys_roundtrip_witness :
    ∃ (out : List Nat) (cache : metricIndexCache) (used : Option (Finset Nat)),
      appendKeys exampleFormat [9, 9] negativeKey
        (makeMetricCache exampleFormat exampleJournal) (some ∅) = some (out, cache, used) ∧
      (out.drop 2).length = 77 ∧
      i32 (leUint32 ((out.drop 2).take 4)) = -10 ∧
      leUint32 (((out.drop 2).drop 9).take 4) = 4000000000 ∧
      ∀ i : Fin 16,
        i32 (leUint32 (((out.drop 2).drop (13 + 4 * i.val)).take 4)) = negativeKey.Keys i :=
  appendKeys_roundtrip exampleFormat [9, 9] negativeKey
    (makeMetricCache exampleFormat exampleJournal) (some ∅) (by decide) (by decide) (by decide)
    (by decide)

/-- C12 for a counter `0`: nothing is written and the timestamp set stays empty. -/
theorem appendValueStat_counter_gate_witness :
    appendValueStat exampleFormat exactFloats exampleWire [9, 9] (exampleKey 100) ""
        (counterCell 0) (makeMetricCache exampleFormat exampleJournal) (some ∅) =
      some ([9, 9], makeMetricCache exampleFormat exampleJournal, some ∅) :=
  (appendValueStat_counter_gate exampleFormat exactFloats exampleWire [9, 9] (exampleKey 100) ""
    (counterCell 0) (makeMetricCache exampleFormat exampleJournal) (some ∅)).1 (by decide)

/-- C13 for the counter-only cell with counter `3` and sampling factor `2`: the aggregate fields
are `(6, 0, 6, 0, 0)` although the cell stores min `11`, max `12`, sum `13`, sum_square `14`. -/
theorem counter_only_aggregates_witness :
    ∃ (rest : List Nat) (cache1 : metricIndexCache),
      multiValueMarshal exampleFormat exactFloats exampleWire 42
          (makeMetricCache exampleFormat exampleJournal) [] (counterMulti 3) "" (2 : Int) =
        ([] ++ aggregateBytes exactFloats (6 : Int) (0 : Int) (6 : Int) (0 : Int) (0 : Int) ++
          rest, cache1) :=
  (counter_only_aggregates exampleFormat exactFloats exampleWire 42
    (makeMetricCache exampleFormat exampleJournal) [] (counterMulti 3) (counterCell 3)
    (exampleKey 100) "" (2 : Int) (some ∅) rfl rfl).1

/-- The host tuples of the value cell for a metric with both host flags set: two empty
placeholders. -/
theorem host_tuples_witness :
    ∃ front : List Nat,
      multiValueMarshal exampleFormat exactFloats exampleWire 42
          (makeMetricCache exampleFormat skipJournal) [] valueMulti "" (2 : Int) =
        ([] ++ front ++ [0, 0] ++ [0, 0],
          ((makeMetricCache exampleFormat skipJournal).skips exampleFormat 42).2) :=
  (host_tuples exampleFormat exactFloats exampleWire 42
    (makeMetricCache exampleFormat skipJournal)
    ((makeMetricCache exampleFormat skipJournal).skips exampleFormat 42).2 [] valueMulti ""
    (2 : Int) true true true rfl).1

/-- The aggregates of the value cell for a metric with `skip_sum_square` set:
`(6, 2, 9, 30, 0)`. -/
theorem skip_sum_square_zeroes_only_sum_square_witness :
    ∃ rest : List Nat,
      multiValueMarshal exampleFormat exactFloats exampleWire 42
          (makeMetricCache exampleFormat skipJournal) [] valueMulti "" (2 : Int) =
        ([] ++ aggregateBytes exactFloats (6 : Int) (2 : Int) (9 : Int) (30 : Int) (0 : Int) ++
          rest, ((makeMetricCache exampleFormat skipJournal).skips exampleFormat 42).2) :=
  (skip_sum_square_zeroes_only_sum_square exampleFormat exactFloats exampleWire 42
    (makeMetricCache exampleFormat skipJournal)
    ((makeMetricCache exampleFormat skipJournal).skips exampleFormat 42).2 [] valueMulti ""
    (2 : Int) true true true rfl rfl).1

/-- C16 (amended) for the value cell, sampling factor `1` and a metric without skip flags: the
row carries the stored `(3, 2, 9, 15, 89)` and the host tuples `(5, 2)` and `(6, 9)`. -/
theorem multiValueMarshal_scaling_witness :
    multiValueMarshal exampleFormat exactFloats exampleWire 42
        (makeMetricCache exampleFormat exampleJournal) [] valueMulti "" (1 : Int) =
      ([] ++ (aggregateBytes exactFloats (3 : Int) (2 : Int) (9 : Int) (15 : Int) (89 : Int) ++
        [0] ++ [0] ++ [0] ++ exampleWire.argMinMax 5 (2 : Int) ++
        exampleWire.argMinMax 6 (9 : Int)),
        ((makeMetricCache exampleFormat exampleJournal).skips exampleFormat 42).2) :=
  (multiValueMarshal_scaling exampleFormat exactFloats exampleWire 42
    (makeMetricCache exampleFormat exampleJournal) [] valueMulti ""
    (1 : Int) rfl).2.1 (fun x => Int.mul_one x)

/-- C18 for the ingestion-status row of metric `7` with status `WarnDeprecatedT` and counter
`5` at timestamp `103`: exactly one row, for the key with metric `BuiltinMetricIDBadges`,
timestamp `100` and tags `[0, BadgeIngestionWarnings, 7, 0, ...]`. -/
theorem appendBadge_ingestion_status_witness :
    appendBadge exampleFormat exampleBadges exactFloats exampleWire [] warnKey
        (counterCell 5) (makeMetricCache exampleFormat exampleJournal) (some ∅) =
      some ([] ++
        keyBytes exampleFormat (makeMetricCache exampleFormat exampleJournal)
          { Timestamp := 100, Metric := -11, Keys := keys3 0 2 7 } ++
        statBytes exactFloats exampleWire "" (counterCell 5) (false, false, false),
        (((makeMetricCache exampleFormat exampleJournal).getPrekeyIndex exampleFormat
          (-11)).2.skips exampleFormat (-11)).2,
        (some ∅).map (fun m => insert 100 m)) :=
  (appendBadge_ingestion_status exampleFormat exampleBadges exactFloats exampleWire [] warnKey
    (counterCell 5) (makeMetricCache exampleFormat exampleJournal) (some ∅)
    (by decide) (by decide) (by decide) (by decide)).2.1
    (by decide) (by decide) (by decide) (by decide)

/-- C19 for the source timestamp `103`: badge rows are written at `100`. -/
theorem badge_rows_aligned_witness :
    (∀ badge tag : Int,
      (badgeKey exampleBadges (103 / 5 * 5) badge tag).Metric = -11 ∧
      (badgeKey exampleBadges (103 / 5 * 5) badge tag).Timestamp = 100) ∧
    5 ∣ 103 / 5 * 5 ∧ 103 / 5 * 5 ≤ 103 ∧ 103 < 103 / 5 * 5 + 5 :=
  ⟨(badge_rows_aligned exampleFormat exampleBadges exactFloats exampleWire warnKey
      (by decide)).2.2.2.1,
    (badge_rows_aligned exampleFormat exampleBadges exactFloats exampleWire warnKey
      (by decide)).2.2.2.2.1,
    (badge_rows_aligned exampleFormat exampleBadges exactFloats exampleWire warnKey
      (by decide)).2.2.2.2.2.1,
    (badge_rows_aligned exampleFormat exampleBadges exactFloats exampleWire warnKey
      (by decide)).2.2.2.2.2.2.1⟩

/-- C20 for an item with a non-empty tail and two top entries of which one is empty: two rows,
and `insertItem` returns. -/
theorem insertItem_rows_witness :
    (rowsOf exampleEmpty exampleItem).length = 1 + 1 ∧
    ∃ r, insertItem exampleFormat exactFloats exampleWire exampleEmpty []
      (makeMetricCache exampleFormat exampleJournal) (some ∅) (fun _ => ⟨0, 0, 0, 0, 0, 0⟩)
      (exampleKey 100) exampleItem (1 : Int) 100 = some r :=
  ⟨(insertItem_rows exampleFormat exactFloats exampleWire exampleEmpty []
      (makeMetricCache exampleFormat exampleJournal) (some ∅) (fun _ => ⟨0, 0, 0, 0, 0, 0⟩)
      (exampleKey 100) exampleItem (1 : Int) 100).2.2.1,
    (insertItem_rows exampleFormat exactFloats exampleWire exampleEmpty []
      (makeMetricCache exampleFormat exampleJournal) (some ∅) (fun _ => ⟨0, 0, 0, 0, 0, 0⟩)
      (exampleKey 100) exampleItem (1 : Int) 100).2.2.2.2
      ⟨fun m bm h => by simp [exampleFormat] at h,
        fun m mm h => by
          simp only [makeMetricCache, exampleFormat, exampleJournal] at h
          split_ifs at h
          cases h
          decide,
        by decide, by decide⟩⟩

/-- C21 for two buckets holding a user metric, two self metrics, an ingestion-status row and a
hardware metric: the sampler gets the metrics `42, -10, -1000`, the self metric `-5` is kept
twice. -/
theorem marshal_classification_witness :
    ∃ st1, marshalBuckets exampleFormat exampleBadges exactFloats exactOps exampleWire
        exampleOps 5 emptyState exampleAggBuckets = some st1 ∧
      st1.samplerAdded.map (fun p => p.Key.Metric) = [42, -10, -1000] ∧
      st1.samplerStatKept.map (fun p => p.Key.Metric) = [-5, -5] := by
  obtain ⟨st1, h1, ha, hs⟩ := (marshal_classification exampleFormat exampleBadges exactFloats
    exactOps exampleWire exampleOps 5 emptyState exampleAggBuckets
    exampleCache_prekeyInRange).1
  refine ⟨st1, h1, ?_, ?_⟩
  · have := congrArg (List.map fun (p : Key × MultiItem exactFloats exampleWire) => p.1.Metric) ha
    simp only [List.map_map] at this
    exact this.trans (by decide)
  · have := congrArg (List.map fun (p : Key × MultiItem exactFloats exampleWire) => p.1.Metric) hs
    simp only [List.map_map] at this
    exact this.trans (by decide)

/-- C22 for the same buckets: the user metric `42` and the hardware metric `-1000` are charged
to themselves, the ingestion-status row for metric `7` is charged to `7`. -/
theorem marshal_account_metric_witness :
    ∃ st1, marshalBuckets exampleFormat exampleBadges exactFloats exactOps exampleWire
        exampleOps 5 emptyState exampleAggBuckets = some st1 ∧
      st1.samplerAdded.map (fun p => (p.Key.Metric, p.MetricID)) =
        [(42, 42), (-10, 7), (-1000, -1000)] := by
  obtain ⟨st1, h1, ha, _⟩ := marshal_account_metric exampleFormat exampleBadges exactFloats
    exactOps exampleWire exampleOps 5 emptyState exampleAggBuckets
    exampleCache_prekeyInRange (by decide)
  refine ⟨st1, h1, ?_⟩
  rw [ha]
  decide

/-- C23 for two buckets with `3 + 2` and `4 + 0` contributors, fixed budget `10000` and `300` per
contributor: the budget is `10000 + 300 * 9`. -/
theorem remainingBudget_eq_witness :
    remainingBudget exactFloats exactOps 10000 300 exampleBuckets = 12700 := by
  have h := remainingBudget_eq exactFloats exactOps 10000 300 exampleBuckets
    (by decide) (by decide) (by decide)
  rw [h.2]
  decide

/-- The journal hash tag at concrete hashes: a negative tag, a hash with an invalid character
after four bytes, a hash of three bytes, and a hash with a trailing single character. -/
theorem journalHashTag_examples :
    journalHashTag "fffffffe00" = -2 ∧ journalHashTag "0a0b0c0dzz" = 168496141 ∧
    journalHashTag "0A0b0c" = 0 ∧ hexDecode "0a0B0c0d1".toList = [10, 11, 12, 13] := by
  decide

/-- C25 for the sixty runs at the times `61..120` during which the hash changes once, at `91`:
the counts written sum to `60` and nothing is pending. -/
theorem journal_conservation_witness :
    ∃ b1 ag1 wss,
      runTicks exactFloats exactOps exampleBuiltinFormat "abc" exampleBuiltins exampleAgent
        (unchangedTicks 60 30 ++ exampleTick 91 6 "ffffffff" :: unchangedTicks 91 29) =
        some (b1, ag1, wss) ∧
      (journalCounts wss.flatten).sum = 60 ∧ b1.currentJournalHashSeconds = 0 := by
  have hb : ∀ t ∈ unchangedTicks 60 30 ++ exampleTick 91 6 "ffffffff" :: unchangedTicks 91 29,
      (bucketTime t.s 1 0).isSome = true ∧
      (bucketTime t.s 60 exampleAgent.heartBeatSecondBucket).isSome = true := by
    set_option maxRecDepth 100000 in decide
  have hst : ∀ t ∈ unchangedTicks 60 30 ++ exampleTick 91 6 "ffffffff" :: unchangedTicks 91 29,
      t.inp.metricStorage.isSome = true := by
    set_option maxRecDepth 100000 in decide
  have hlast : ∀ t, (unchangedTicks 60 30 ++
      exampleTick 91 6 "ffffffff" :: unchangedTicks 91 29).getLast? = some t →
      t.nowUnix % 60 = 0 := by
    intro t ht
    have : (unchangedTicks 60 30 ++
        exampleTick 91 6 "ffffffff" :: unchangedTicks 91 29).getLast? =
        some (exampleTick 120 5 "0a0b0c0d") := by
      set_option maxRecDepth 100000 in rfl
    rw [this] at ht
    cases ht
    rfl
  obtain ⟨b1, ag1, wss, hr, _, _, hmin, h60⟩ := journal_conservation exactFloats exactOps
    exampleBuiltinFormat "abc"
    (unchangedTicks 60 30 ++ exampleTick 91 6 "ffffffff" :: unchangedTicks 91 29)
    exampleBuiltins exampleAgent rfl hb hst (by norm_num [exampleBuiltins, unchangedTicks])
  refine ⟨b1, ag1, wss, hr, h60 rfl (by simp [unchangedTicks]) hlast, ?_⟩
  exact hmin (exampleTick 120 5 "0a0b0c0d") (by set_option maxRecDepth 100000 in rfl) rfl

/-- C26 for 37 runs at the times `61..97`: no row; a change of hash at `98` writes the old
version with count `37` and the new one with count `1`; an unchanged hash at the minute mark
`120` would write one row with count `38`. -/
theorem journal_version_stability_witness :
    ∃ b1 ag1 wss,
      runTicks exactFloats exactOps exampleBuiltinFormat "abc" exampleBuiltins exampleAgent
        (unchangedTicks 60 37) = some (b1, ag1, wss) ∧
      (∀ ws ∈ wss, journalRows ws = []) ∧
      (∃ b2 ag2 ws, addBuiltInsLocked exactFloats exactOps exampleBuiltinFormat "abc"
          (builtinShard 98) b1 ag1 98 ⟨some (6, "ffffffff"), 0, 0, none⟩ = some (b2, ag2, ws) ∧
        journalRows ws =
          [journalVersionRow exactFloats exampleBuiltinFormat exampleAgent 1 0 98 5 "0a0b0c0d"
              168496141 37,
            journalVersionRow exactFloats exampleBuiltinFormat exampleAgent 1 0 98 6 "ffffffff"
              (-1) 1]) ∧
      (∃ b2 ag2 ws, addBuiltInsLocked exactFloats exactOps exampleBuiltinFormat "abc"
          (builtinShard 120) b1 ag1 120 ⟨some (5, "0a0b0c0d"), 0, 0, none⟩ =
            some (b2, ag2, ws) ∧
        journalRows ws =
          [journalVersionRow exactFloats exampleBuiltinFormat exampleAgent 60 7 120 5
            "0a0b0c0d" 168496141 38]) := by
  obtain ⟨b1, ag1, wss, hr, _, hrows, _, hchange, hminute⟩ :=
    journal_version_stability exactFloats exactOps exampleBuiltinFormat "abc"
      (unchangedTicks 60 37) exampleBuiltins exampleAgent rfl rfl
      (by norm_num [unchangedTicks])
      (by set_option maxRecDepth 100000 in decide)
      (by
        intro t ht
        obtain ⟨i, _, rfl⟩ := List.mem_map.mp ht
        exact ⟨5, rfl⟩)
      (by set_option maxRecDepth 100000 in decide)
  refine ⟨b1, ag1, wss, hr, hrows, ?_, ?_⟩
  · obtain ⟨b2, ag2, ws, h, hj, _⟩ := hchange (exampleTick 98 6 "ffffffff") 98 60 6 "ffffffff"
      (by decide) (by decide) rfl (by decide)
    have htag : journalHashTag "ffffffff" = -1 := by decide
    rw [htag] at hj
    exact ⟨b2, ag2, ws, h, hj.trans (by simp [unchangedTicks]; rfl)⟩
  · obtain ⟨b2, ag2, ws, h, hj, _⟩ := hminute (exampleTick 120 5 "0a0b0c0d") 120 120 5
      (by decide) (by decide) rfl (by decide)
    exact ⟨b2, ag2, ws, h, hj.trans (by simp [unchangedTicks]; rfl)⟩

/-- C27 for entries with counters `3`, `0` and `-2`: the first is merged and reset, the other
two are untouched. -/
theorem addBuiltInsLocked_drain_witness :
    ∃ b1 ag1 ws,
      addBuiltInsLocked exactFloats exactOps exampleBuiltinFormat "abc" (builtinShard 61)
        exampleBuiltins exampleAgent 61 ⟨none, 0, 0, none⟩ = some (b1, ag1, ws) ∧
      b1.BuiltInItemValues = [(exampleKey 0, zeroItemValue exactFloats),
        (exampleKey 1, counterCell 0), (exampleKey 2, counterCell (-2))] ∧
      tailMerges ws = [BuiltinWrite.mergeTail 1 0 (exampleKey 0) (counterCell 3)] := by
  obtain ⟨b1, ag1, ws, h, hv, hm⟩ := (addBuiltInsLocked_drain exactFloats exactOps
    exampleBuiltinFormat "abc" (builtinShard 61) exampleBuiltins exampleAgent 61
    ⟨none, 0, 0, none⟩ 61 (by decide)
    (by intro x hx; simp [exactFloats, exactOps] at hx ⊢; omega)).2.1 rfl 60 (by decide)
  refine ⟨b1, ag1, ws, h, ?_, ?_⟩
  · rw [hv]
    rfl
  · rw [hm]
    rfl

/-- C28 for three runs of an agent that begins with event type `1`: the first run writes the
two start rows, the other two none, and the event type ends as `heartbeat`. -/
theorem heartbeat_start_event_witness :
    ∃ b1 ag1 w1 w2 w3,
      runTicks exactFloats exactOps exampleBuiltinFormat "abc" exampleBuiltins exampleAgent
        (unchangedTicks 58 3) = some (b1, ag1, [w1, w2, w3]) ∧
      ag1.heartBeatEventType = 2 ∧
      heartbeatRows 1 w1 =
        heartbeatPair exactFloats exactOps exampleBuiltinFormat "abc" exampleAgent 1 1 0 59 59
          1 ∧
      heartbeatRows 1 w2 = [] ∧ heartbeatRows 1 w3 = [] := by
  obtain ⟨b1, ag1, wss, hr, hl, hty, htail, _, hhead⟩ := (heartbeat_start_event exactFloats
    exactOps exampleBuiltinFormat "abc" (unchangedTicks 58 3) exampleBuiltins exampleAgent rfl
    (by decide)).1
  match wss, hl with
  | [w1, w2, w3], _ =>
    refine ⟨b1, ag1, w1, w2, w3, hr, hty (List.ne_nil_of_length_pos (by simp [unchangedTicks])), ?_, htail w2 (by simp),
      htail w3 (by simp)⟩
    exact hhead (exampleTick 59 5 "0a0b0c0d") w1 59 rfl rfl (by decide)

/-- The pool at concrete buffers: a buffer of the right outer length is reused with its backing
arrays, one of another length is dropped for a fresh one, and an empty pool gives a fresh one. -/
theorem getUniqueValuesCache_examples :
    getUniqueValuesCache [[⟨[5], 1⟩], [⟨[1, 2], 2⟩, ⟨[3], 1⟩]] 2 =
      some ([⟨[1, 2], 0⟩, ⟨[3], 0⟩], [[⟨[5], 1⟩]]) ∧
    getUniqueValuesCache [[⟨[5], 1⟩], [⟨[1, 2], 2⟩, ⟨[3], 1⟩]] 3 =
      some ([⟨[], 0⟩, ⟨[], 0⟩, ⟨[], 0⟩], [[⟨[5], 1⟩]]) ∧
    getUniqueValuesCache [] 1 = some ([⟨[], 0⟩], []) ∧
    getUniqueValuesCache [] (-1) = none := by
  decide

/-- C31 for resolution `5` and current time `1000`: the timestamp `3` rounds to `0` and becomes
`1000`, although it lags by far more than the window `60`; the timestamp `5`, which rounds to
itself, is clamped to `940`. -/
theorem route_small_timestamp_witness :
    resolutionShardFromHashLocked exampleFormat ⟨60⟩ exampleShard (exampleKey 3) 0x40000000
      (some exampleMeta) = some (some ⟨1000, ()⟩, exampleKey 1000) ∧
    resolutionShardFromHashLocked exampleFormat ⟨60⟩ exampleShard (exampleKey 5) 0x40000000
      (some exampleMeta) = some (some ⟨1000, ()⟩, exampleKey 940) :=
  ⟨(route_small_timestamp exampleFormat ⟨60⟩ exampleShard (exampleKey 3) 0x40000000
    (some exampleMeta) ⟨1000, ()⟩ (by decide) (by decide) (by decide)).2,
    rfl⟩

/-- C32 for a key with timestamp `903` at resolution `5`, current time `1000` and window `60`:
the key is clamped to `940`, and routing it again leaves bucket and key as they are. -/
theorem route_idempotent_witness :
    ∃ (b : Option (MetricsBucket Unit)) (k : Key),
      resolutionShardFromHashLocked exampleFormat ⟨60⟩ exampleShard (exampleKey 903) 0x40000000
        (some exampleMeta) = some (b, k) ∧
      resolutionShardFromHashLocked exampleFormat ⟨60⟩ exampleShard k 0x40000000
        (some exampleMeta) = some (b, k) :=
  route_idempotent exampleFormat ⟨60⟩ exampleShard (exampleKey 903) 0x40000000
    (some exampleMeta) ⟨1000, ()⟩ (some ⟨1005, ()⟩) (by decide) (by decide)
    (by decide) (by decide) (by decide) (by decide)

/-- C33 for an item of metric `42` with a counter tail and one non-empty top entry, written
into an empty buffer: the six fields of `insertSizes[100]` sum to the length of the buffer,
nothing is `builtin`, and `counters` and `stringTops` share all the bytes. -/
theorem insertItem_size_accounting_witness :
    ∃ r, insertItem exampleFormat exactFloats exampleWire exampleEmpty []
        (makeMetricCache exampleFormat exampleJournal) (some ∅) (fun _ => ⟨0, 0, 0, 0, 0, 0⟩)
        (exampleKey 100) exampleItem (1 : Int) 100 = some r ∧
      (r.2.2.2 100).total = r.1.length ∧ (r.2.2.2 100).builtin = 0 ∧
      (r.2.2.2 100).counters + (r.2.2.2 100).stringTops = r.1.length := by
  obtain ⟨tail, top, c1, c2, u1, u2, _, _, hins, htot, _, _, hrec⟩ :=
    insertItem_size_accounting exampleFormat exactFloats exampleWire exampleEmpty []
      (makeMetricCache exampleFormat exampleJournal) (some ∅) (fun _ => ⟨0, 0, 0, 0, 0, 0⟩)
      (exampleKey 100) exampleItem (1 : Int) 100 exampleCache_prekeyInRange
  have hrec1 := hrec (by decide)
  have h1 : exampleItem.Tail.ValueTDigest.isSome = false := rfl
  have h2 : exampleWire.ItemsCount exampleItem.Tail.HLL = 0 := rfl
  have h3 : exampleItem.Tail.Value.ValueSet = false := rfl
  simp only [h1, h2, h3, ne_eq, not_true_eq_false, if_false, Bool.false_eq_true] at hrec1
  refine ⟨_, hins, ?_, ?_, ?_⟩
  · simp only [htot]
    simp [insertSize.total]
  · simp [hrec1, addSizes]
  · simp [hrec1, addSizes]

/-- C34 for a run at the minute mark `120` over a one-second bucket of time `119` and a
sixty-second bucket of time `60`: a changed hash is written into `CurrentBuckets[1][0]` with
key time `119`, an unchanged one into `CurrentBuckets[60][7]` with key time `60`. -/
theorem journal_row_placement_witness :
    (∃ b1 ag1 ws, addBuiltInsLocked exactFloats exactOps exampleBuiltinFormat "abc"
        (builtinShard 119) exampleBuiltins exampleAgent 120
        ⟨some (6, "ffffffff"), 0, 0, none⟩ = some (b1, ag1, ws) ∧
      journalRows ws =
        [BuiltinWrite.topCounter 1 0 ⟨119, -20, keysOf [0, 4, 0, 0, 0, 6, -1]⟩ "ffffffff" 1]) ∧
    (∃ b1 ag1 ws, addBuiltInsLocked exactFloats exactOps exampleBuiltinFormat "abc"
        (builtinShard 119) exampleBuiltins exampleAgent 120
        ⟨some (5, "0a0b0c0d"), 0, 0, none⟩ = some (b1, ag1, ws) ∧
      journalRows ws =
        [BuiltinWrite.topCounter 60 7 ⟨60, -20, keysOf [0, 4, 0, 0, 0, 5, 168496141]⟩
          "0a0b0c0d" 1]) := by
  have htag : journalHashTag "ffffffff" = -1 := by decide
  constructor
  · obtain ⟨b1, ag1, ws, hr, hchange, _, _⟩ := journal_row_placement exactFloats exactOps
      exampleBuiltinFormat "abc" (builtinShard 119) exampleBuiltins exampleAgent 120
      ⟨some (6, "ffffffff"), 0, 0, none⟩ 119 60 rfl (by decide) (by decide)
    have hj := hchange 6 "ffffffff" rfl (by decide)
    rw [htag] at hj
    exact ⟨b1, ag1, ws, hr, hj.trans rfl⟩
  · obtain ⟨b1, ag1, ws, hr, _, hminute, _⟩ := journal_row_placement exactFloats exactOps
      exampleBuiltinFormat "abc" (builtinShard 119) exampleBuiltins exampleAgent 120
      ⟨some (5, "0a0b0c0d"), 0, 0, none⟩ 119 60 rfl (by decide) (by decide)
    exact ⟨b1, ag1, ws, hr, (hminute 5 rfl).trans rfl⟩

end StatsHouse
